import Mathlib

set_option autoImplicit false

/-!
# LaserScannerDriver: a two-slot ring buffer of LIDAR scans

Shallow embedding of `src/LSDriver/LaserScannerDriver.{h,cpp}`.

Modelling conventions
* A C++ `double` is `Dbl`: either NaN or a rational number (no infinities). The member
  functions evaluate `angle / resolution` exactly; the definitions suffixed `_b64`
  round every quotient and product to binary64 (`fl`, round to nearest, ties to even),
  as the compiled program does, and are the ones used where a statement is about the
  numeric value of an index or of the scan length.
* A C++ `int` is an `Int`; a conversion from `double` to `int` and the addition
  `index + 1` are only defined inside `[INT_MIN, INT_MAX]`.
* The size of a `std::vector` is taken to fit in an `int`.
* Heap arrays are lists; a cell of a `new double[n]` that was never written is `none`.
* A member function maps a driver state to an `Outcome`: normal return with the new
  state, a thrown exception with the state left behind, or undefined behaviour
  (null or out-of-bounds access, read of a cell never written, `int` out of range).
-/

namespace LSDriver

/-! ## Doubles and ints -/

/-- A C++ double in exact arithmetic: NaN or a rational value. -/
inductive Dbl where
  | nan : Dbl
  | val (q : ℚ) : Dbl
deriving DecidableEq

/-- The `std::isnan` test. -/
def Dbl.isnan : Dbl → Bool
  | .nan => true
  | .val _ => false

/-- The comparison `x < c` of doubles against a constant; false on NaN. -/
def Dbl.lt (x : Dbl) (c : ℚ) : Bool :=
  match x with
  | .nan => false
  | .val q => decide (q < c)

/-- The comparison `x > c` of doubles against a constant; false on NaN. -/
def Dbl.gt (x : Dbl) (c : ℚ) : Bool :=
  match x with
  | .nan => false
  | .val q => decide (c < q)

def INT_MAX : Int := 2147483647

def INT_MIN : Int := -2147483648

/-- The conversion `static_cast<int>(x)` of a double: truncation toward zero, undefined
(`none`) when the truncated value is not representable as an `int`. -/
def static_cast_int (x : ℚ) : Option Int :=
  let t : Int := if 0 ≤ x then ⌊x⌋ else ⌈x⌉
  if INT_MIN ≤ t ∧ t ≤ INT_MAX then some t else none

/-- The `int` addition `a + b`; signed overflow is undefined (`none`). -/
def int_add (a b : Int) : Option Int :=
  if INT_MIN ≤ a + b ∧ a + b ≤ INT_MAX then some (a + b) else none

/-- The `std::floor` function, as a double. -/
def c_floor (x : ℚ) : ℚ := (⌊x⌋ : Int)

/-- The `std::round` function, as a double: nearest integer, halfway cases away from zero. -/
def c_round (x : ℚ) : ℚ :=
  if 0 ≤ x then ((⌊x + 1 / 2⌋ : Int) : ℚ) else ((⌈x - 1 / 2⌉ : Int) : ℚ)

/-! ## The angle indexer -/

/-- The constant `LaserScannerDriver::kMaxAngle`. -/
def kMaxAngle : ℚ := 180

/-- The function `evalute_measurement_index(angle, resolution)`. -/
def evalute_measurement_index (angle resolution : Dbl) : Option Int :=
  match angle, resolution with
  | .val a, .val r =>
    if r ≤ 0 then some (-1)
    else if kMaxAngle ≤ a then static_cast_int (c_floor (kMaxAngle / r))
    else if 0 < a then static_cast_int (c_round (a / r))
    else some 0
  | _, _ => some (-1)

/-! ## The driver state -/

/-- A heap array `double[n]`; `none` is a cell that was never written. -/
abbrev Scan := List (Option Dbl)

/-- Exceptions thrown by the driver. -/
inductive Exn where
  | out_of_range : Exn
  | invalid_argument : Exn
  | EmptyBufferException : Exn
deriving DecidableEq

/-- The data members of `class LaserScannerDriver`. `buffer_ = none` is the null pointer;
otherwise it is the array of `BUFFER_DIM` scan pointers, each `none` (nullptr) or a scan. -/
structure LaserScannerDriver where
  buffer_ : Option (List (Option Scan))
  angular_resolution_ : Dbl
  front_ : Int
  back_ : Int
deriving DecidableEq

/-- The result of running a member function on a state of type `σ`. -/
inductive Outcome (σ α : Type) where
  | ret (a : α) (s : σ) : Outcome σ α
  | throw (e : Exn) (s : σ) : Outcome σ α
  | undefined : Outcome σ α
deriving DecidableEq

/-- The constant `BUFFER_DIM`. -/
def BUFFER_DIM : Int := 2

/-- The constant `kDefaultResolution`. -/
def kDefaultResolution : Dbl := .val 1

/-- Array read `a[i]` with an `int` index; `none` outside the allocation. -/
def readAt {α : Type} (a : List α) (i : Int) : Option α :=
  if 0 ≤ i then a[i.toNat]? else none

/-- Array write `a[i] = x` with an `int` index; `none` outside the allocation. -/
def writeAt {α : Type} (a : List α) (i : Int) (x : α) : Option (List α) :=
  if 0 ≤ i ∧ i < a.length then some (a.set i.toNat x) else none

namespace LaserScannerDriver

/-- Read of the pointer `buffer_[i]`. -/
def slot (s : LaserScannerDriver) (i : Int) : Option (Option Scan) :=
  match s.buffer_ with
  | none => none
  | some b => readAt b i

/-- The assignment `buffer_[i] = p`. -/
def set_slot (s : LaserScannerDriver) (i : Int) (p : Option Scan) : Option LaserScannerDriver :=
  match s.buffer_ with
  | none => none
  | some b =>
    match writeAt b i p with
    | none => none
    | some b1 => some { s with buffer_ := some b1 }

/-- The member `next_circular_index`. -/
def next_circular_index (index : Int) : Int := Int.tmod (index + 1) BUFFER_DIM

/-- The member `previous_circular_index`. -/
def previous_circular_index (index : Int) : Int := Int.tmod (index - 1 + BUFFER_DIM) BUFFER_DIM

/-- The member `is_empty`: `buffer_[front_] == nullptr`. -/
def is_empty (s : LaserScannerDriver) : Option Bool :=
  match s.slot s.front_ with
  | none => none
  | some p => some p.isNone

/-- The member `is_full`: `buffer_[back_] != nullptr`. -/
def is_full (s : LaserScannerDriver) : Option Bool :=
  match s.slot s.back_ with
  | none => none
  | some p => some p.isSome

/-- The constructor `LaserScannerDriver(double resolution)` (the spec calls it `create`). -/
def create (resolution : Dbl) : Except Exn LaserScannerDriver :=
  if resolution.isnan || resolution.lt (1 / 10) || resolution.gt 1 then
    .error .out_of_range
  else
    .ok { buffer_ := some (List.replicate BUFFER_DIM.toNat none),
          angular_resolution_ := resolution, front_ := 0, back_ := 0 }

/-- The number of measurements per scan, `evalute_measurement_index(kMaxAngle, resolution) + 1`,
as computed in `new_scan`, `get_scan`, the copy operations and the printer. -/
def measurements (resolution : Dbl) : Option Int :=
  match evalute_measurement_index (.val kMaxAngle) resolution with
  | none => none
  | some m => int_add m 1

/-- The first loop of `new_scan`: `n` more iterations from index `i`, each validating
`vec[i]` and storing it in the freshly allocated array. -/
def new_scan_copy (vec : List Dbl) : Nat → Nat → Scan → Outcome Scan Unit
  | 0, _, arr => .ret () arr
  | n + 1, i, arr =>
    match vec[i]? with
    | none => .undefined
    | some element =>
      if element.isnan then .throw .invalid_argument arr
      else if element.lt 0 then .throw .invalid_argument arr
      else
        match writeAt arr i (some element) with
        | none => .undefined
        | some arr1 => new_scan_copy vec n (i + 1) arr1

/-- The second loop of `new_scan`: `n` more iterations from index `i`, each storing 0. -/
def new_scan_fill : Nat → Nat → Scan → Option Scan
  | 0, _, arr => some arr
  | n + 1, i, arr =>
    match writeAt arr i (some (.val 0)) with
    | none => none
    | some arr1 => new_scan_fill n (i + 1) arr1

/-- The member `new_scan`. -/
def new_scan (s : LaserScannerDriver) (vec : List Dbl) : Outcome LaserScannerDriver Unit :=
  match s.is_full with
  | none => .undefined
  | some full =>
    let evicted : Option LaserScannerDriver :=
      if full then
        match s.set_slot s.front_ none with
        | none => none
        | some t => some { t with front_ := next_circular_index t.front_ }
      else some s
    match evicted with
    | none => .undefined
    | some s1 =>
      match measurements s1.angular_resolution_ with
      | none => .undefined
      | some measurements =>
        if measurements < 0 then .undefined
        else
          let fresh : Scan := List.replicate measurements.toNat none
          let min_size : Int := min (vec.length : Int) measurements
          match s1.set_slot s1.back_ (some fresh) with
          | none => .undefined
          | some _ =>
            match new_scan_copy vec min_size.toNat 0 fresh with
            | .undefined => .undefined
            | .throw e arr =>
              match s1.set_slot s1.back_ (some arr) with
              | none => .undefined
              | some s2 => .throw e s2
            | .ret _ arr =>
              match new_scan_fill (measurements - (vec.length : Int)).toNat vec.length arr with
              | none => .undefined
              | some arr2 =>
                match s1.set_slot s1.back_ (some arr2) with
                | none => .undefined
                | some s2 => .ret () { s2 with back_ := next_circular_index s2.back_ }

/-- The loop of `get_scan`: `n` more iterations from index `i`, each appending
`buffer_[front_][i]` to the vector `v`. -/
def get_scan_loop (arr : Scan) : Nat → Nat → List Dbl → Option (List Dbl)
  | 0, _, v => some v
  | n + 1, i, v =>
    match arr[i]? with
    | some (some x) => get_scan_loop arr n (i + 1) (v ++ [x])
    | _ => none

/-- The member `get_scan`. -/
def get_scan (s : LaserScannerDriver) : Outcome LaserScannerDriver (List Dbl) :=
  match s.is_empty with
  | none => .undefined
  | some true => .throw .EmptyBufferException s
  | some false =>
    match measurements s.angular_resolution_ with
    | none => .undefined
    | some measurements =>
      match s.slot s.front_ with
      | some (some arr) =>
        match get_scan_loop arr measurements.toNat 0 [] with
        | none => .undefined
        | some v =>
          match s.set_slot s.front_ none with
          | none => .undefined
          | some s1 => .ret v { s1 with front_ := next_circular_index s1.front_ }
      | _ => .undefined

/-- The member `get_distance`. -/
def get_distance (s : LaserScannerDriver) (angle : Dbl) : Outcome LaserScannerDriver Dbl :=
  if angle.isnan then .throw .invalid_argument s
  else
    match s.is_empty with
    | none => .undefined
    | some true => .throw .EmptyBufferException s
    | some false =>
      match evalute_measurement_index angle s.angular_resolution_ with
      | none => .undefined
      | some measurement_index =>
        let last_scan_index := previous_circular_index s.back_
        match s.slot last_scan_index with
        | some (some arr) =>
          match readAt arr measurement_index with
          | some (some distance) => .ret distance s
          | _ => .undefined
        | _ => .undefined

/-- The member `angular_resolution`. -/
def angular_resolution (s : LaserScannerDriver) : Dbl := s.angular_resolution_

/-- The loop of `clear_buffer`, run for at most `fuel` iterations; `none` when the loop
is still running after `fuel` iterations. -/
def clear_buffer_loop : Nat → LaserScannerDriver → Option (Outcome LaserScannerDriver Unit)
  | 0, s =>
    match s.is_empty with
    | none => some .undefined
    | some true => some (.ret () s)
    | some false => none
  | fuel + 1, s =>
    match s.is_empty with
    | none => some .undefined
    | some true => some (.ret () s)
    | some false =>
      match s.set_slot s.front_ none with
      | none => some .undefined
      | some s1 => clear_buffer_loop fuel { s1 with front_ := next_circular_index s1.front_ }

/-- The member `clear_buffer`, its loop bounded by `fuel` iterations. -/
def clear_buffer (fuel : Nat) (s : LaserScannerDriver) :
    Option (Outcome LaserScannerDriver Unit) :=
  match clear_buffer_loop fuel s with
  | none => none
  | some (.ret _ s1) => some (.ret () { s1 with front_ := 0, back_ := 0 })
  | some (.throw e s1) => some (.throw e s1)
  | some .undefined => some .undefined

/-- The call `std::copy(from, from + n, res)` of `copy_buffer`: `n` more cells from
index `i`. -/
def copy_cells (src : Scan) : Nat → Nat → Scan → Option Scan
  | 0, _, res => some res
  | n + 1, i, res =>
    match src[i]? with
    | some (some x) =>
      match writeAt res i (some x) with
      | none => none
      | some res1 => copy_cells src n (i + 1) res1
    | _ => none

/-- The loop of `copy_buffer` over the slots: `n` more iterations from index `i`. -/
def copy_buffer_loop (src : List (Option Scan)) (values_per_scan : Int) :
    Nat → Nat → List (Option Scan) → Option (List (Option Scan))
  | 0, _, res => some res
  | n + 1, i, res =>
    match src[i]? with
    | none => none
    | some none =>
      match writeAt res i none with
      | none => none
      | some res1 => copy_buffer_loop src values_per_scan n (i + 1) res1
    | some (some arr) =>
      if values_per_scan < 0 then none
      else
        match copy_cells arr values_per_scan.toNat 0
            (List.replicate values_per_scan.toNat none) with
        | none => none
        | some c =>
          match writeAt res i (some c) with
          | none => none
          | some res1 => copy_buffer_loop src values_per_scan n (i + 1) res1

/-- The member `copy_buffer`; `none` is undefined behaviour. -/
def copy_buffer (src : Option (List (Option Scan))) (values_per_scan : Int) :
    Option (List (Option Scan)) :=
  match src with
  | none => none
  | some b =>
    copy_buffer_loop b values_per_scan BUFFER_DIM.toNat 0 (List.replicate BUFFER_DIM.toNat none)

/-- The copy constructor `LaserScannerDriver(const LaserScannerDriver&)`: the new object;
`none` is undefined behaviour. -/
def copy_constructor (lsd : LaserScannerDriver) : Option LaserScannerDriver :=
  match measurements lsd.angular_resolution_ with
  | none => none
  | some m =>
    match copy_buffer lsd.buffer_ m with
    | none => none
    | some b =>
      some { buffer_ := some b, angular_resolution_ := lsd.angular_resolution_,
             front_ := lsd.front_, back_ := lsd.back_ }

/-- The move constructor `LaserScannerDriver(LaserScannerDriver&&)`: the new object and
the source as it is left. -/
def move_constructor (lsd : LaserScannerDriver) : LaserScannerDriver × LaserScannerDriver :=
  ({ buffer_ := lsd.buffer_, angular_resolution_ := lsd.angular_resolution_,
     front_ := lsd.front_, back_ := lsd.back_ },
   { buffer_ := none, angular_resolution_ := .val 0, front_ := 0, back_ := 0 })

/-- The copy assignment `operator=(const LaserScannerDriver&)` onto `dst` from another
object `lsd`: the state of `dst` afterwards. -/
def copy_assign (fuel : Nat) (dst lsd : LaserScannerDriver) :
    Option (Outcome LaserScannerDriver Unit) :=
  match measurements lsd.angular_resolution_ with
  | none => some .undefined
  | some m =>
    match copy_buffer lsd.buffer_ m with
    | none => some .undefined
    | some tmp =>
      match clear_buffer fuel dst with
      | none => none
      | some (.ret _ _) =>
        some (.ret () { buffer_ := some tmp, angular_resolution_ := lsd.angular_resolution_,
                        front_ := lsd.front_, back_ := lsd.back_ })
      | some (.throw e t) => some (.throw e t)
      | some .undefined => some .undefined

/-- The copy assignment `operator=(const LaserScannerDriver&)` when the argument is the
object itself (`x = x`): after `clear_buffer()` every read of `lsd` sees the cleared
object. -/
def copy_assign_self (fuel : Nat) (s : LaserScannerDriver) :
    Option (Outcome LaserScannerDriver Unit) :=
  match measurements s.angular_resolution_ with
  | none => some .undefined
  | some m =>
    match copy_buffer s.buffer_ m with
    | none => some .undefined
    | some tmp =>
      match clear_buffer fuel s with
      | none => none
      | some (.ret _ s1) =>
        some (.ret () { buffer_ := some tmp, angular_resolution_ := s1.angular_resolution_,
                        front_ := s1.front_, back_ := s1.back_ })
      | some (.throw e t) => some (.throw e t)
      | some .undefined => some .undefined

/-- The move assignment `operator=(LaserScannerDriver&&)` onto `dst` from another object
`lsd`: the states of `dst` and of `lsd` afterwards. -/
def move_assign (fuel : Nat) (dst lsd : LaserScannerDriver) :
    Option (Outcome (LaserScannerDriver × LaserScannerDriver) Unit) :=
  match clear_buffer fuel dst with
  | none => none
  | some (.ret _ _) =>
    some (.ret ()
      ({ buffer_ := lsd.buffer_, angular_resolution_ := lsd.angular_resolution_,
         front_ := lsd.front_, back_ := lsd.back_ },
       { buffer_ := none, angular_resolution_ := .val 0, front_ := 0, back_ := 0 }))
  | some (.throw e t) => some (.throw e (t, lsd))
  | some .undefined => some .undefined

/-- The product `i * resolution` of an `int` and a double. -/
def int_mul (i : Int) (x : Dbl) : Dbl :=
  match x with
  | .nan => .nan
  | .val q => .val (i * q)

/-- What `operator<<` writes: the "no scan" message, or the (angle, value) pairs in the
order they are written (column widths and line breaks are not modelled). -/
inductive Rendered where
  | no_scan : Rendered
  | table (rows : List (Dbl × Dbl)) : Rendered
deriving DecidableEq

/-- The loop of `operator<<`: `n` more pairs from index `i`. -/
def render_loop (lsd : LaserScannerDriver) :
    Nat → Int → List (Dbl × Dbl) → Outcome LaserScannerDriver (List (Dbl × Dbl))
  | 0, _, rows => .ret rows lsd
  | n + 1, i, rows =>
    match lsd.get_distance (int_mul i lsd.angular_resolution) with
    | .ret d _ => render_loop lsd n (i + 1) (rows ++ [(int_mul i lsd.angular_resolution, d)])
    | .throw e t => .throw e t
    | .undefined => .undefined

/-- The free function `operator<<` (the spec calls it format/render). -/
def render (lsd : LaserScannerDriver) : Outcome LaserScannerDriver Rendered :=
  match lsd.is_empty with
  | none => .undefined
  | some true => .ret .no_scan lsd
  | some false =>
    match measurements lsd.angular_resolution with
    | none => .undefined
    | some m =>
      match render_loop lsd m.toNat 0 [] with
      | .ret rows t => .ret (.table rows) t
      | .throw e t => .throw e t
      | .undefined => .undefined

end LaserScannerDriver


open LaserScannerDriver

/-! ## Specification-side vocabulary -/

/-- A resolution accepted by the constructor: the closed interval [0.1, 1]. -/
def valid_resolution (r : ℚ) : Prop := 1 / 10 ≤ r ∧ r ≤ 1

instance (r : ℚ) : Decidable (valid_resolution r) := by
  unfold valid_resolution; infer_instance

/-- The scan length of the spec, `L = floor(MaxAngle / resolution) + 1`. -/
def scan_length (r : ℚ) : Nat := (⌊kMaxAngle / r⌋ + 1).toNat

/-- A measurement accepted by `new_scan`: not NaN and not negative. -/
def Dbl.valid (x : Dbl) : Bool := !x.isnan && !x.lt 0

/-- The sequence `v` zero-padded on the right or truncated to length `L`. -/
def pad_trunc (L : Nat) (v : List Dbl) : List Dbl :=
  v.take L ++ List.replicate (L - v.length) (Dbl.val 0)

/-- The heap array holding `v` zero-padded or truncated to `L` cells, all written. -/
def stored (L : Nat) (v : List Dbl) : Scan := (pad_trunc L v).map some

/-- The two-slot state left by `new_scan` once the array `sc` sits in slot `back_`:
the slot at `front_` is released first when slot `back_` was occupied, and `back_`
advances when `adv` holds (normal return) and stays otherwise (exception). -/
def after_store (a b : Option Scan) (d : Dbl) (f k : Int) (sc : Scan) (adv : Bool) :
    LaserScannerDriver :=
  let full : Bool := if k = 0 then a.isSome else b.isSome
  let a1 : Option Scan := if full ∧ f = 0 then none else a
  let b1 : Option Scan := if full ∧ f = 1 then none else b
  { buffer_ := some (if k = 0 then [some sc, b1] else [a1, some sc]),
    angular_resolution_ := d,
    front_ := if full then next_circular_index f else f,
    back_ := if adv then next_circular_index k else k }

/-- Successive `new_scan` calls, one per sequence, stopping at the first call that does
not return normally. -/
def push_all (s : LaserScannerDriver) : List (List Dbl) → Outcome LaserScannerDriver Unit
  | [] => .ret () s
  | v :: vs =>
    match new_scan s v with
    | .ret _ s1 => push_all s1 vs
    | .throw e s1 => .throw e s1
    | .undefined => .undefined

/-- The number of occupied slots (non-null scan pointers). -/
def occupied (s : LaserScannerDriver) : Nat :=
  match s.buffer_ with
  | none => 0
  | some b => (b.filter Option.isSome).length

/-- The stored scans from oldest to newest: the scan in slot `front_`, then the scan in
the slot after it. -/
def contents (s : LaserScannerDriver) : List Scan :=
  [s.slot s.front_, s.slot (next_circular_index s.front_)].filterMap Option.join

/-- The state of a driver of resolution `r` after successful pushes, given the pushed
sequences newest first: only the last two pushes are retained. -/
def ring_state (r : ℚ) : List (List Dbl) → LaserScannerDriver
  | [] => ⟨some [none, none], .val r, 0, 0⟩
  | [y] => ⟨some [some (stored (scan_length r) y), none], .val r, 0, 1⟩
  | y :: x :: rest =>
    if rest.length % 2 = 0 then
      ⟨some [some (stored (scan_length r) x), some (stored (scan_length r) y)], .val r, 0, 0⟩
    else
      ⟨some [some (stored (scan_length r) y), some (stored (scan_length r) x)], .val r, 1, 1⟩

/-- Rounding to the nearest integer, ties away from zero, in the spec's words: the
fractional part decides, and an exact half goes up for non-negative and down for negative
arguments. -/
def round_half_away (x : ℚ) : Int :=
  if x - (⌊x⌋ : Int) < 1 / 2 then ⌊x⌋
  else if 1 / 2 < x - (⌊x⌋ : Int) then ⌊x⌋ + 1
  else if 0 ≤ x then ⌊x⌋ + 1
  else ⌊x⌋

/-- The piecewise reference definition of the spec's `measurement_index` on non-NaN
inputs, as an unbounded integer. -/
def measurement_index_ref (angle resolution : ℚ) : Int :=
  if resolution ≤ 0 then -1
  else if 180 ≤ angle then ⌊180 / resolution⌋
  else if 0 < angle then round_half_away (angle / resolution)
  else 0

/-- A scan array of `L` cells, every one of them written. -/
def full_scan (L : Nat) (sc : Scan) : Prop := sc.length = L ∧ ∀ c ∈ sc, c.isSome = true

instance (L : Nat) (sc : Scan) : Decidable (full_scan L sc) := by
  unfold full_scan; infer_instance

/-- The structural invariants listed in the spec: `front_` and `back_` lie in
`[0, BUFFER_DIM)`; slot `front_` is non-empty iff the buffer is non-empty; slot `back_`
is non-empty iff the buffer is full; every non-empty slot holds exactly L elements;
the resolution lies in [0.1, 1]. -/
def Inv (s : LaserScannerDriver) : Prop :=
  match s.buffer_, s.angular_resolution_ with
  | some [a, b], .val r =>
    (s.front_ = 0 ∨ s.front_ = 1) ∧ (s.back_ = 0 ∨ s.back_ = 1) ∧
    (is_empty s = some false ↔ (a.isSome = true ∨ b.isSome = true)) ∧
    (is_full s = some true ↔ (a.isSome = true ∧ b.isSome = true)) ∧
    (∀ sc ∈ [a, b].reduceOption, full_scan (scan_length r) sc) ∧
    valid_resolution r
  | _, _ => False

instance (s : LaserScannerDriver) : Decidable (Inv s) := by
  unfold Inv; split <;> infer_instance

/-- The round-trip property on a buffer state `e` of resolution `r`: `new_scan v`
returns, the `get_scan` that follows immediately returns a sequence of length exactly
L = floor(180 / r) + 1 whose element i is `v[i]` for i < min(len v, L) and 0 for
len v ≤ i < L, and the buffer is left with both slots empty. -/
def round_trip (r : ℚ) (v : List Dbl) (e : LaserScannerDriver) : Prop :=
  ∃ (s1 s2 : LaserScannerDriver) (out : List Dbl),
    new_scan e v = .ret () s1 ∧
    get_scan s1 = .ret out s2 ∧
    (out.length : Int) = ⌊(180 : ℚ) / r⌋ + 1 ∧
    (∀ i, i < min v.length out.length → out[i]? = v[i]?) ∧
    (∀ i, v.length ≤ i → i < out.length → out[i]? = some (Dbl.val 0)) ∧
    s2.buffer_ = some [none, none] ∧ is_empty s2 = some true ∧ is_full s2 = some false ∧
    s2.back_ = s2.front_ ∧ s2.angular_resolution_ = .val r

/-- The structural invariants strengthened with `front_ = back_` whenever the buffer is
empty or full, as holds in every state the operations produce in failure-free use. -/
def Inv_strong (s : LaserScannerDriver) : Prop :=
  Inv s ∧ (is_empty s = some true → s.back_ = s.front_) ∧
    (is_full s = some true → s.back_ = s.front_)

instance (s : LaserScannerDriver) : Decidable (Inv_strong s) := by
  unfold Inv_strong; infer_instance

/-- A call of one of the buffer's own operations, with its arguments, under the names the
spec gives them. -/
inductive Call where
  | push_scan (vec : List Dbl) : Call
  | pop_scan : Call
  | query (angle : Dbl) : Call
  | clear : Call
  | is_empty : Call
  | is_full : Call
deriving DecidableEq

/-- The state of the driver after one call, whether the call returned or threw an
exception (caught by the caller); `none` when the call has undefined behaviour or the
loop of `clear_buffer` is still running after `fuel` iterations. -/
def after_call (fuel : Nat) (s : LaserScannerDriver) : Call → Option LaserScannerDriver
  | .push_scan vec =>
    match new_scan s vec with
    | .ret _ s1 => some s1
    | .throw _ s1 => some s1
    | .undefined => none
  | .pop_scan =>
    match get_scan s with
    | .ret _ s1 => some s1
    | .throw _ s1 => some s1
    | .undefined => none
  | .query angle =>
    match get_distance s angle with
    | .ret _ s1 => some s1
    | .throw _ s1 => some s1
    | .undefined => none
  | .clear =>
    match clear_buffer fuel s with
    | some (.ret _ s1) => some s1
    | some (.throw _ s1) => some s1
    | _ => none
  | .is_empty =>
    match LaserScannerDriver.is_empty s with
    | some _ => some s
    | none => none
  | .is_full =>
    match LaserScannerDriver.is_full s with
    | some _ => some s
    | none => none

/-- The state of the driver after a sequence of calls, made one after the other. -/
def after_calls (fuel : Nat) (s : LaserScannerDriver) : List Call → Option LaserScannerDriver
  | [] => some s
  | c :: cs =>
    match after_call fuel s c with
    | none => none
    | some s1 => after_calls fuel s1 cs

/-! ## Binary64 arithmetic -/

/-- Rounding to the nearest integer, halfway cases to the even neighbour. -/
def round_even (x : ℚ) : Int :=
  if x - (⌊x⌋ : Int) < 1 / 2 then ⌊x⌋
  else if 1 / 2 < x - (⌊x⌋ : Int) then ⌊x⌋ + 1
  else if ⌊x⌋ % 2 = 0 then ⌊x⌋
  else ⌊x⌋ + 1

/-- The binary exponent of the unit in the last place of the binary64 numbers of the
magnitude of `x`: 52 below the exponent of the leading bit, and -1074 throughout the
subnormal range. -/
def ulp_exponent (x : ℚ) : Int := max (Int.log 2 |x| - 52) (-1074)

/-- The binary64 value of a real result under the default rounding mode (to nearest,
ties to even): the multiple of the unit in the last place nearest to `x`. Overflow to
infinity is not modelled. -/
def fl (x : ℚ) : ℚ := (round_even (x / 2 ^ ulp_exponent x) : ℚ) * 2 ^ ulp_exponent x

namespace LaserScannerDriver

/-- The function `evalute_measurement_index(angle, resolution)` with each quotient
rounded to binary64, as the division of two doubles computes it. -/
def evalute_measurement_index_b64 (angle resolution : Dbl) : Option Int :=
  match angle, resolution with
  | .val a, .val r =>
    if r ≤ 0 then some (-1)
    else if kMaxAngle ≤ a then static_cast_int (c_floor (fl (kMaxAngle / r)))
    else if 0 < a then static_cast_int (c_round (fl (a / r)))
    else some 0
  | _, _ => some (-1)

/-- The number of measurements per scan,
`evalute_measurement_index(kMaxAngle, resolution) + 1`, in binary64 arithmetic. -/
def measurements_b64 (resolution : Dbl) : Option Int :=
  match evalute_measurement_index_b64 (.val kMaxAngle) resolution with
  | none => none
  | some m => int_add m 1

/-- The member `get_distance` in binary64 arithmetic. -/
def get_distance_b64 (s : LaserScannerDriver) (angle : Dbl) : Outcome LaserScannerDriver Dbl :=
  if angle.isnan then .throw .invalid_argument s
  else
    match s.is_empty with
    | none => .undefined
    | some true => .throw .EmptyBufferException s
    | some false =>
      match evalute_measurement_index_b64 angle s.angular_resolution_ with
      | none => .undefined
      | some measurement_index =>
        let last_scan_index := previous_circular_index s.back_
        match s.slot last_scan_index with
        | some (some arr) =>
          match readAt arr measurement_index with
          | some (some distance) => .ret distance s
          | _ => .undefined
        | _ => .undefined

/-- The product `i * resolution` of an `int` and a double, rounded to binary64. -/
def int_mul_b64 (i : Int) (x : Dbl) : Dbl :=
  match x with
  | .nan => .nan
  | .val q => .val (fl (i * q))

/-- The loop of `operator<<` in binary64 arithmetic: `n` more pairs from index `i`. -/
def render_loop_b64 (lsd : LaserScannerDriver) :
    Nat → Int → List (Dbl × Dbl) → Outcome LaserScannerDriver (List (Dbl × Dbl))
  | 0, _, rows => .ret rows lsd
  | n + 1, i, rows =>
    match lsd.get_distance_b64 (int_mul_b64 i lsd.angular_resolution) with
    | .ret d _ =>
      render_loop_b64 lsd n (i + 1) (rows ++ [(int_mul_b64 i lsd.angular_resolution, d)])
    | .throw e t => .throw e t
    | .undefined => .undefined

/-- The free function `operator<<` in binary64 arithmetic. -/
def render_b64 (lsd : LaserScannerDriver) : Outcome LaserScannerDriver Rendered :=
  match lsd.is_empty with
  | none => .undefined
  | some true => .ret .no_scan lsd
  | some false =>
    match measurements_b64 lsd.angular_resolution with
    | none => .undefined
    | some m =>
      match render_loop_b64 lsd m.toNat 0 [] with
      | .ret rows t => .ret (.table rows) t
      | .throw e t => .throw e t
      | .undefined => .undefined

end LaserScannerDriver

/-- The scan length as the program computes it: `floor(180 / resolution) + 1` with the
quotient rounded to binary64. -/
def scan_length_b64 (r : ℚ) : Nat := (⌊fl (kMaxAngle / r)⌋ + 1).toNat

/-- The structural invariants listed in the spec, with the scan length L as the program
computes it in binary64 arithmetic. -/
def Inv_b64 (s : LaserScannerDriver) : Prop :=
  match s.buffer_, s.angular_resolution_ with
  | some [a, b], .val r =>
    (s.front_ = 0 ∨ s.front_ = 1) ∧ (s.back_ = 0 ∨ s.back_ = 1) ∧
    (is_empty s = some false ↔ (a.isSome = true ∨ b.isSome = true)) ∧
    (is_full s = some true ↔ (a.isSome = true ∧ b.isSome = true)) ∧
    (∀ sc ∈ [a, b].reduceOption, full_scan (scan_length_b64 r) sc) ∧
    valid_resolution r
  | _, _ => False

instance (s : LaserScannerDriver) : Decidable (Inv_b64 s) := by
  unfold Inv_b64; split <;> infer_instance

/-! ## Arithmetic lemmas -/

theorem static_cast_int_intCast (z : Int) (h1 : INT_MIN ≤ z) (h2 : z ≤ INT_MAX) :
    static_cast_int (z : ℚ) = some z := by
  unfold static_cast_int
  by_cases h : (0 : ℚ) ≤ (z : ℚ)
  · simp [h, h1, h2]
  · simp [h, h1, h2]

theorem floor_max_bounds {r : ℚ} (hr : valid_resolution r) :
    180 ≤ ⌊kMaxAngle / r⌋ ∧ ⌊kMaxAngle / r⌋ ≤ 1800 := by
  obtain ⟨h1, h2⟩ := hr
  have hpos : (0 : ℚ) < r := by linarith
  constructor
  · apply Int.le_floor.mpr
    rw [le_div_iff₀ hpos]
    unfold kMaxAngle
    push_cast
    linarith
  · have h : kMaxAngle / r < ((1801 : Int) : ℚ) := by
      rw [div_lt_iff₀ hpos]
      unfold kMaxAngle
      push_cast
      linarith
    have := Int.floor_lt.mpr h
    omega

theorem evalute_max_valid {r : ℚ} (hr : valid_resolution r) :
    evalute_measurement_index (.val kMaxAngle) (.val r) = some ⌊kMaxAngle / r⌋ := by
  have hb := floor_max_bounds hr
  have hpos : ¬ r ≤ 0 := by
    have := hr.1
    intro h; linarith
  simp only [evalute_measurement_index, hpos, if_false, le_refl, if_true, c_floor]
  apply static_cast_int_intCast
  · unfold INT_MIN; omega
  · unfold INT_MAX; omega

theorem scan_length_cast {r : ℚ} (hr : valid_resolution r) :
    ((scan_length r : Nat) : Int) = ⌊kMaxAngle / r⌋ + 1 := by
  have hb := floor_max_bounds hr
  unfold scan_length
  omega

theorem scan_length_bounds {r : ℚ} (hr : valid_resolution r) :
    181 ≤ scan_length r ∧ scan_length r ≤ 1801 := by
  have hb := floor_max_bounds hr
  unfold scan_length
  omega

theorem measurements_valid {r : ℚ} (hr : valid_resolution r) :
    LaserScannerDriver.measurements (.val r) = some ((scan_length r : Nat) : Int) := by
  have hb := floor_max_bounds hr
  rw [LaserScannerDriver.measurements, evalute_max_valid hr, scan_length_cast hr]
  simp only [int_add]
  rw [if_pos]
  unfold INT_MIN INT_MAX
  omega


theorem c_round_eq (x : ℚ) : c_round x = ((round_half_away x : Int) : ℚ) := by
  have h1 : ((⌊x⌋ : Int) : ℚ) ≤ x := Int.floor_le x
  have h2 : x < ((⌊x⌋ : Int) : ℚ) + 1 := Int.lt_floor_add_one x
  unfold c_round round_half_away
  by_cases hx : 0 ≤ x
  · rw [if_pos hx]
    congr 1
    by_cases ha : x - ((⌊x⌋ : Int) : ℚ) < 1 / 2
    · rw [if_pos ha, Int.floor_eq_iff]
      constructor <;> linarith
    · rw [if_neg ha]
      have : ⌊x + 1 / 2⌋ = ⌊x⌋ + 1 := by
        rw [Int.floor_eq_iff]
        push_cast
        constructor <;> linarith
      rw [this]
      by_cases hb : 1 / 2 < x - ((⌊x⌋ : Int) : ℚ)
      · rw [if_pos hb]
      · rw [if_neg hb, if_pos hx]
  · rw [if_neg hx]
    congr 1
    by_cases ha : x - ((⌊x⌋ : Int) : ℚ) < 1 / 2
    · rw [if_pos ha, Int.ceil_eq_iff]
      constructor <;> linarith
    · rw [if_neg ha]
      by_cases hb : 1 / 2 < x - ((⌊x⌋ : Int) : ℚ)
      · rw [if_pos hb, Int.ceil_eq_iff]
        push_cast
        constructor <;> linarith
      · rw [if_neg hb, if_neg hx, Int.ceil_eq_iff]
        constructor <;> linarith

theorem evalute_eq_ref (angle resolution : ℚ)
    (hfit : INT_MIN ≤ measurement_index_ref angle resolution ∧
      measurement_index_ref angle resolution ≤ INT_MAX) :
    evalute_measurement_index (.val angle) (.val resolution)
      = some (measurement_index_ref angle resolution) := by
  unfold measurement_index_ref at hfit ⊢
  unfold evalute_measurement_index
  by_cases h1 : resolution ≤ 0
  · simp only [h1, if_true]
  · have h1k : ¬ resolution ≤ 0 := h1
    simp only [h1, if_false] at hfit ⊢
    by_cases h2 : (180 : ℚ) ≤ angle
    · have h2k : kMaxAngle ≤ angle := h2
      simp only [h2, h2k, if_true] at hfit ⊢
      exact static_cast_int_intCast _ hfit.1 hfit.2
    · have h2k : ¬ kMaxAngle ≤ angle := h2
      simp only [h2, h2k, if_false] at hfit ⊢
      by_cases h3 : 0 < angle
      · simp only [h3, if_true] at hfit ⊢
        rw [c_round_eq]
        exact static_cast_int_intCast _ hfit.1 hfit.2
      · simp only [h3, if_false]

theorem ref_fits (angle resolution : ℚ)
    (hres : resolution ≤ 0 ∨ 180 / resolution ≤ (INT_MAX : ℚ)) :
    INT_MIN ≤ measurement_index_ref angle resolution ∧
      measurement_index_ref angle resolution ≤ INT_MAX := by
  unfold measurement_index_ref
  by_cases h1 : resolution ≤ 0
  · simp only [h1, if_true]
    unfold INT_MIN INT_MAX
    omega
  · have hpos : 0 < resolution := lt_of_not_le h1
    have hmax : 180 / resolution ≤ (INT_MAX : ℚ) := by
      rcases hres with h | h
      · exact absurd h h1
      · exact h
    simp only [h1, if_false]
    by_cases h2 : (180 : ℚ) ≤ angle
    · simp only [h2, if_true]
      constructor
      · have : (0 : Int) ≤ ⌊180 / resolution⌋ := Int.floor_nonneg.mpr (by positivity)
        unfold INT_MIN
        omega
      · have : ((⌊180 / resolution⌋ : Int) : ℚ) ≤ (INT_MAX : ℚ) :=
          le_trans (Int.floor_le _) hmax
        exact_mod_cast this
    · simp only [h2, if_false]
      by_cases h3 : 0 < angle
      · simp only [h3, if_true]
        have hq : 0 < angle / resolution := div_pos h3 hpos
        have hlt : angle / resolution < (INT_MAX : ℚ) := by
          have : angle / resolution < 180 / resolution := by
            apply div_lt_div_of_pos_right _ hpos
            exact lt_of_not_le h2
          linarith
        have hf0 : (0 : Int) ≤ ⌊angle / resolution⌋ := Int.floor_nonneg.mpr hq.le
        have hf1 : ⌊angle / resolution⌋ < INT_MAX := Int.floor_lt.mpr hlt
        unfold round_half_away
        unfold INT_MIN INT_MAX at *
        split_ifs <;> constructor <;> omega
      · simp only [h3, if_false]
        unfold INT_MIN INT_MAX
        omega

theorem fits_of_tenth (resolution : ℚ) (h : 1 / 10 ≤ resolution) :
    180 / resolution ≤ (INT_MAX : ℚ) := by
  have hpos : (0 : ℚ) < resolution := by linarith
  rw [div_le_iff₀ hpos]
  unfold INT_MAX
  push_cast
  linarith

/-! ## The loops of `new_scan` and `get_scan` -/

theorem writeAt_lt {α : Type} (a : List α) (i : Nat) (x : α) (h : i < a.length) :
    writeAt a (i : Int) x = some (a.set i x) := by
  unfold writeAt
  rw [if_pos]
  · simp
  · omega

theorem new_scan_copy_spec (vec : List Dbl) : ∀ (n i : Nat) (arr : Scan),
    i + n ≤ vec.length → i + n ≤ arr.length →
    (∀ j x, i ≤ j → j < i + n → vec[j]? = some x → x.valid = true) →
    ∃ arr1, LaserScannerDriver.new_scan_copy vec n i arr = .ret () arr1 ∧
      arr1.length = arr.length ∧
      ∀ j, arr1[j]? = if i ≤ j ∧ j < i + n then (vec[j]?).map some else arr[j]? := by
  intro n
  induction n with
  | zero =>
    intro i arr _ _ _
    refine ⟨arr, rfl, rfl, ?_⟩
    intro j
    rw [if_neg]
    omega
  | succ n ih =>
    intro i arr h1 h2 hv
    have hi : i < vec.length := by omega
    have hget : vec[i]? = some vec[i] := List.getElem?_eq_getElem hi
    have hval := hv i vec[i] (le_refl i) (by omega) hget
    have hnan : (vec[i]).isnan = false := by
      unfold Dbl.valid at hval
      simp at hval
      exact hval.1
    have hneg : (vec[i]).lt 0 = false := by
      unfold Dbl.valid at hval
      simp at hval
      exact hval.2
    obtain ⟨arr1, e1, l1, g1⟩ := ih (i + 1) (arr.set i (some vec[i])) (by omega)
      (by rw [List.length_set]; omega)
      (fun j x hj1 hj2 hx => hv j x (by omega) (by omega) hx)
    refine ⟨arr1, ?_, ?_, ?_⟩
    · rw [LaserScannerDriver.new_scan_copy, hget]
      simp only [hnan, hneg, Bool.false_eq_true, if_false]
      rw [writeAt_lt arr i _ (by omega)]
      exact e1
    · rw [l1, List.length_set]
    · intro j
      rw [g1 j]
      by_cases hj : j = i
      · subst hj
        have : ¬ (j + 1 ≤ j ∧ j < j + 1 + n) := by omega
        rw [if_neg this, if_pos (by omega), hget]
        simp [List.getElem?_set]
        omega
      · by_cases hc : i + 1 ≤ j ∧ j < i + 1 + n
        · rw [if_pos hc, if_pos (by omega)]
        · rw [if_neg hc, if_neg (by omega), List.getElem?_set]
          rw [if_neg (by omega)]

theorem new_scan_copy_throw (vec : List Dbl) : ∀ (n i : Nat) (arr : Scan),
    i + n ≤ vec.length → i + n ≤ arr.length →
    (∃ j x, i ≤ j ∧ j < i + n ∧ vec[j]? = some x ∧ x.valid = false) →
    ∃ arr1, LaserScannerDriver.new_scan_copy vec n i arr = .throw .invalid_argument arr1 ∧
      arr1.length = arr.length := by
  intro n
  induction n with
  | zero =>
    intro i arr _ _ h
    obtain ⟨j, x, h1, h2, _⟩ := h
    omega
  | succ n ih =>
    intro i arr h1 h2 hbad
    have hi : i < vec.length := by omega
    have hget : vec[i]? = some vec[i] := List.getElem?_eq_getElem hi
    rw [LaserScannerDriver.new_scan_copy, hget]
    by_cases hnan : (vec[i]).isnan = true
    · exact ⟨arr, by simp [hnan], rfl⟩
    · by_cases hneg : (vec[i]).lt 0 = true
      · exact ⟨arr, by simp [hnan, hneg], rfl⟩
      · simp only [hnan, hneg, Bool.false_eq_true, if_false]
        rw [writeAt_lt arr i _ (by omega)]
        obtain ⟨j, x, hj1, hj2, hx, hxv⟩ := hbad
        have hji : j ≠ i := by
          intro h
          subst h
          rw [hget] at hx
          injection hx with hx
          subst hx
          unfold Dbl.valid at hxv
          simp at hxv
          simp at hnan hneg
          rw [hxv hnan] at hneg
          exact absurd hneg (by simp)
        obtain ⟨arr1, e1, l1⟩ := ih (i + 1) (arr.set i (some vec[i])) (by omega)
          (by rw [List.length_set]; omega) ⟨j, x, by omega, by omega, hx, hxv⟩
        exact ⟨arr1, e1, by rw [l1, List.length_set]⟩

theorem new_scan_fill_spec : ∀ (n i : Nat) (arr : Scan), i + n ≤ arr.length →
    ∃ arr1, LaserScannerDriver.new_scan_fill n i arr = some arr1 ∧ arr1.length = arr.length ∧
      ∀ j, arr1[j]? = if i ≤ j ∧ j < i + n then some (some (Dbl.val 0)) else arr[j]? := by
  intro n
  induction n with
  | zero =>
    intro i arr _
    refine ⟨arr, rfl, rfl, ?_⟩
    intro j
    rw [if_neg]
    omega
  | succ n ih =>
    intro i arr h
    obtain ⟨arr1, e1, l1, g1⟩ := ih (i + 1) (arr.set i (some (Dbl.val 0)))
      (by rw [List.length_set]; omega)
    refine ⟨arr1, ?_, ?_, ?_⟩
    · rw [LaserScannerDriver.new_scan_fill, writeAt_lt arr i _ (by omega)]
      exact e1
    · rw [l1, List.length_set]
    · intro j
      rw [g1 j]
      by_cases hj : j = i
      · subst hj
        have : ¬ (j + 1 ≤ j ∧ j < j + 1 + n) := by omega
        rw [if_neg this, if_pos (by omega)]
        simp [List.getElem?_set]
        omega
      · by_cases hc : i + 1 ≤ j ∧ j < i + 1 + n
        · rw [if_pos hc, if_pos (by omega)]
        · rw [if_neg hc, if_neg (by omega), List.getElem?_set]
          rw [if_neg (by omega)]

theorem get_scan_loop_spec (l : List Dbl) : ∀ (n i : Nat) (v : List Dbl), i + n ≤ l.length →
    LaserScannerDriver.get_scan_loop (l.map some) n i v = some (v ++ (l.drop i).take n) := by
  intro n
  induction n with
  | zero => intro i v _; simp [LaserScannerDriver.get_scan_loop]
  | succ n ih =>
    intro i v h
    have hi : i < l.length := by omega
    rw [LaserScannerDriver.get_scan_loop]
    have : (l.map some)[i]? = some (some l[i]) := by
      simp [List.getElem?_eq_getElem hi]
    rw [this]
    simp only
    rw [ih (i + 1) (v ++ [l[i]]) (by omega)]
    rw [List.drop_eq_getElem_cons hi, List.take_succ_cons, List.append_assoc]
    rfl


theorem stored_length (L : Nat) (v : List Dbl) : (stored L v).length = L := by
  simp [stored, pad_trunc]
  omega

theorem pad_trunc_length (L : Nat) (v : List Dbl) : (pad_trunc L v).length = L := by
  simp [pad_trunc]
  omega

theorem pad_trunc_get (L : Nat) (v : List Dbl) (j : Nat) :
    (pad_trunc L v)[j]? =
      if j < min v.length L then v[j]? else if j < L then some (Dbl.val 0) else none := by
  unfold pad_trunc
  by_cases h1 : j < min v.length L
  · rw [if_pos h1, List.getElem?_append_left (by simp; omega), List.getElem?_take]
    rw [if_pos (by omega)]
  · rw [if_neg h1, List.getElem?_append_right (by simp; omega)]
    by_cases h2 : j < L
    · rw [if_pos h2, List.getElem?_replicate, if_pos]
      simp
      omega
    · rw [if_neg h2, List.getElem?_replicate, if_neg]
      simp
      omega

theorem new_scan_build (L : Nat) (vec : List Dbl)
    (hv : ∀ x ∈ vec.take L, x.valid = true) :
    ∃ arr1, LaserScannerDriver.new_scan_copy vec (min (vec.length : Int) (L : Int)).toNat 0
        (List.replicate (L : Int).toNat none) = .ret () arr1 ∧
      LaserScannerDriver.new_scan_fill ((L : Int) - (vec.length : Int)).toNat vec.length arr1
        = some (stored L vec) := by
  have e1 : (min (vec.length : Int) (L : Int)).toNat = min vec.length L := by
    rw [← Nat.cast_min, Int.toNat_ofNat]
  have e2 : ((L : Int) - (vec.length : Int)).toNat = L - vec.length := by omega
  rw [e1, e2, Int.toNat_ofNat]
  obtain ⟨arr1, hc, hl, hg⟩ := new_scan_copy_spec vec (min vec.length L) 0
    (List.replicate L none) (by omega) (by simp)
    (by
      intro j x _ hj hx
      apply hv x
      rw [List.mem_iff_getElem?]
      refine ⟨j, ?_⟩
      rw [List.getElem?_take, if_pos (by omega)]
      exact hx)
  refine ⟨arr1, hc, ?_⟩
  have hl1 : arr1.length = L := by rw [hl]; simp
  by_cases hlen : L - vec.length = 0
  · rw [hlen, LaserScannerDriver.new_scan_fill]
    congr 1
    apply List.ext_getElem?
    intro j
    rw [hg j, stored, List.getElem?_map, pad_trunc_get]
    by_cases h1 : j < min vec.length L
    · rw [if_pos (by omega), if_pos h1]
    · rw [if_neg (by omega), if_neg h1, if_neg (by omega)]
      simp
      omega
  · obtain ⟨arr2, hf, _, hg2⟩ := new_scan_fill_spec (L - vec.length) vec.length arr1 (by omega)
    rw [hf]
    congr 1
    apply List.ext_getElem?
    intro j
    rw [hg2 j, hg j, stored, List.getElem?_map, pad_trunc_get]
    by_cases h1 : j < min vec.length L
    · rw [if_neg (by omega), if_pos (by omega), if_pos h1]
    · rw [if_neg h1]
      by_cases h2 : j < L
      · rw [if_pos (by omega), if_pos h2]
        rfl
      · rw [if_neg (by omega), if_neg (by omega), if_neg h2]
        simp
        omega

theorem new_scan_build_throw (L : Nat) (vec : List Dbl)
    (hv : ∃ x ∈ vec.take L, x.valid = false) :
    ∃ arr1, LaserScannerDriver.new_scan_copy vec (min (vec.length : Int) (L : Int)).toNat 0
        (List.replicate (L : Int).toNat none) = .throw .invalid_argument arr1 ∧
      arr1.length = L := by
  have e1 : (min (vec.length : Int) (L : Int)).toNat = min vec.length L := by
    rw [← Nat.cast_min, Int.toNat_ofNat]
  rw [e1, Int.toNat_ofNat]
  obtain ⟨x, hx, hxv⟩ := hv
  rw [List.mem_iff_getElem?] at hx
  obtain ⟨j, hj⟩ := hx
  rw [List.getElem?_take] at hj
  have hjL : j < L := by
    by_contra hc
    rw [if_neg hc] at hj
    exact absurd hj (by simp)
  rw [if_pos hjL] at hj
  have hjlen : j < vec.length := by
    by_contra hc
    rw [List.getElem?_eq_none (by omega)] at hj
    exact absurd hj (by simp)
  obtain ⟨arr1, hc, hl⟩ := new_scan_copy_throw vec (min vec.length L) 0
    (List.replicate L none) (by omega) (by simp)
    ⟨j, x, by omega, by omega, hj, hxv⟩
  exact ⟨arr1, hc, by rw [hl]; simp⟩


/-! ## The member functions on two-slot states -/

theorem next_circular_index_zero : next_circular_index 0 = 1 := by decide

theorem next_circular_index_one : next_circular_index 1 = 0 := by decide

theorem previous_circular_index_zero : previous_circular_index 0 = 1 := by decide

theorem previous_circular_index_one : previous_circular_index 1 = 0 := by decide

theorem slot_zero (a b : Option Scan) (d : Dbl) (f k : Int) :
    slot ⟨some [a, b], d, f, k⟩ 0 = some a := by
  simp [slot, readAt]

theorem slot_one (a b : Option Scan) (d : Dbl) (f k : Int) :
    slot ⟨some [a, b], d, f, k⟩ 1 = some b := by
  simp [slot, readAt]

theorem set_slot_zero (a b p : Option Scan) (d : Dbl) (f k : Int) :
    set_slot ⟨some [a, b], d, f, k⟩ 0 p = some ⟨some [p, b], d, f, k⟩ := by
  simp [set_slot, writeAt]

theorem set_slot_one (a b p : Option Scan) (d : Dbl) (f k : Int) :
    set_slot ⟨some [a, b], d, f, k⟩ 1 p = some ⟨some [a, p], d, f, k⟩ := by
  simp [set_slot, writeAt]

theorem new_scan_build_cast (L : Nat) (vec : List Dbl)
    (hv : ∀ x ∈ vec.take L, x.valid = true) :
    ∃ arr1, new_scan_copy vec (min (vec.length : Int) (L : Int)).toNat 0
        (List.replicate L none) = .ret () arr1 ∧
      new_scan_fill (L - vec.length) vec.length arr1 = some (stored L vec) := by
  obtain ⟨arr1, hc, hfill⟩ := new_scan_build L vec hv
  have e2 : ((L : Int) - (vec.length : Int)).toNat = L - vec.length := by omega
  rw [Int.toNat_ofNat] at hc
  rw [e2] at hfill
  exact ⟨arr1, hc, hfill⟩

theorem new_scan_build_throw_cast (L : Nat) (vec : List Dbl)
    (hv : ∃ x ∈ vec.take L, x.valid = false) :
    ∃ arr1, new_scan_copy vec (min (vec.length : Int) (L : Int)).toNat 0
        (List.replicate L none) = .throw .invalid_argument arr1 ∧ arr1.length = L := by
  obtain ⟨arr1, hc, hl⟩ := new_scan_build_throw L vec hv
  rw [Int.toNat_ofNat] at hc
  exact ⟨arr1, hc, hl⟩

theorem new_scan_ret {r : ℚ} (hr : valid_resolution r) (a b : Option Scan) (f k : Int)
    (hf : f = 0 ∨ f = 1) (hk : k = 0 ∨ k = 1) (vec : List Dbl)
    (hv : ∀ x ∈ vec.take (scan_length r), x.valid = true) :
    new_scan ⟨some [a, b], .val r, f, k⟩ vec
      = .ret () (after_store a b (.val r) f k (stored (scan_length r) vec) true) := by
  obtain ⟨arr1, hc, hfill⟩ := new_scan_build_cast (scan_length r) vec hv
  have hneg : ¬ ((scan_length r : Int) < 0) := by omega
  rcases hf with rfl | rfl <;> rcases hk with rfl | rfl <;> cases a <;> cases b <;>
    simp [new_scan, after_store, hneg, is_full, slot_zero, slot_one, set_slot_zero, set_slot_one,
      measurements_valid hr, hc, hfill, next_circular_index_zero, next_circular_index_one]

theorem new_scan_throw {r : ℚ} (hr : valid_resolution r) (a b : Option Scan) (f k : Int)
    (hf : f = 0 ∨ f = 1) (hk : k = 0 ∨ k = 1) (vec : List Dbl)
    (hv : ∃ x ∈ vec.take (scan_length r), x.valid = false) :
    ∃ arr, arr.length = scan_length r ∧
      new_scan ⟨some [a, b], .val r, f, k⟩ vec
        = .throw .invalid_argument (after_store a b (.val r) f k arr false) := by
  obtain ⟨arr1, hc, hl⟩ := new_scan_build_throw_cast (scan_length r) vec hv
  have hneg : ¬ ((scan_length r : Int) < 0) := by omega
  refine ⟨arr1, hl, ?_⟩
  rcases hf with rfl | rfl <;> rcases hk with rfl | rfl <;> cases a <;> cases b <;>
    simp [new_scan, after_store, hneg, is_full, slot_zero, slot_one, set_slot_zero, set_slot_one,
      measurements_valid hr, hc, next_circular_index_zero, next_circular_index_one]

theorem get_scan_loop_all (l : List Dbl) :
    get_scan_loop (l.map some) l.length 0 [] = some l := by
  rw [get_scan_loop_spec l l.length 0 [] (by omega)]
  simp

theorem get_scan_front0 {r : ℚ} (hr : valid_resolution r) (l : List Dbl)
    (hl : l.length = scan_length r) (b : Option Scan) (k : Int) :
    get_scan ⟨some [some (l.map some), b], .val r, 0, k⟩
      = .ret l ⟨some [none, b], .val r, 1, k⟩ := by
  have h := get_scan_loop_all l
  rw [hl] at h
  simp [get_scan, is_empty, slot_zero, set_slot_zero, measurements_valid hr, h,
    next_circular_index_zero]

theorem get_scan_front1 {r : ℚ} (hr : valid_resolution r) (l : List Dbl)
    (hl : l.length = scan_length r) (a : Option Scan) (k : Int) :
    get_scan ⟨some [a, some (l.map some)], .val r, 1, k⟩
      = .ret l ⟨some [a, none], .val r, 0, k⟩ := by
  have h := get_scan_loop_all l
  rw [hl] at h
  simp [get_scan, is_empty, slot_one, set_slot_one, measurements_valid hr, h,
    next_circular_index_one]

theorem get_scan_empty0 (b : Option Scan) (d : Dbl) (k : Int) :
    get_scan ⟨some [none, b], d, 0, k⟩
      = .throw .EmptyBufferException ⟨some [none, b], d, 0, k⟩ := by
  simp [get_scan, is_empty, slot_zero]

theorem get_scan_empty1 (a : Option Scan) (d : Dbl) (k : Int) :
    get_scan ⟨some [a, none], d, 1, k⟩
      = .throw .EmptyBufferException ⟨some [a, none], d, 1, k⟩ := by
  simp [get_scan, is_empty, slot_one]

theorem create_valid {r : ℚ} (hr : valid_resolution r) :
    create (.val r) = .ok ⟨some [none, none], .val r, 0, 0⟩ := by
  obtain ⟨h1, h2⟩ := hr
  have h3 : ¬ r < 1 / 10 := not_lt.mpr h1
  have h4 : ¬ 1 < r := not_lt.mpr h2
  simp only [create, Dbl.isnan, Dbl.lt, Dbl.gt, h3, h4]
  rfl


theorem valid_take {v : List Dbl} (h : ∀ x ∈ v, x.valid = true) (L : Nat) :
    ∀ x ∈ v.take L, x.valid = true :=
  fun x hx => h x (List.mem_of_mem_take hx)

theorem stored_eq (L : Nat) (v : List Dbl) : stored L v = (pad_trunc L v).map some := rfl

theorem push_all_append (vs : List (List Dbl)) (v : List Dbl) :
    ∀ s : LaserScannerDriver, push_all s (vs ++ [v]) =
      match push_all s vs with
      | .ret _ s1 => new_scan s1 v
      | .throw e s1 => .throw e s1
      | .undefined => .undefined := by
  induction vs with
  | nil =>
    intro s
    simp only [List.nil_append, push_all]
    cases new_scan s v <;> rfl
  | cons w vs ih =>
    intro s
    simp only [List.cons_append, push_all]
    cases new_scan s w with
    | ret a s1 => exact ih s1
    | throw e s1 => rfl
    | undefined => rfl

theorem new_scan_ring_state {r : ℚ} (hr : valid_resolution r) (rev : List (List Dbl))
    (v : List Dbl) (hv : ∀ x ∈ v.take (scan_length r), x.valid = true) :
    new_scan (ring_state r rev) v = .ret () (ring_state r (v :: rev)) := by
  match rev with
  | [] =>
    rw [ring_state, new_scan_ret hr none none 0 0 (Or.inl rfl) (Or.inl rfl) v hv]
    simp [after_store, ring_state, next_circular_index_zero]
  | [y] =>
    rw [ring_state, new_scan_ret hr _ none 0 1 (Or.inl rfl) (Or.inr rfl) v hv]
    simp [after_store, ring_state, next_circular_index_one]
  | y :: x :: rest =>
    by_cases hp : rest.length % 2 = 0
    · have hp1 : (rest.length + 1) % 2 ≠ 0 := by omega
      rw [ring_state, if_pos hp,
        new_scan_ret hr _ _ 0 0 (Or.inl rfl) (Or.inl rfl) v hv]
      simp [after_store, ring_state, next_circular_index_zero, hp1]
    · have hp1 : (rest.length + 1) % 2 = 0 := by omega
      rw [ring_state, if_neg hp,
        new_scan_ret hr _ _ 1 1 (Or.inr rfl) (Or.inr rfl) v hv]
      simp [after_store, ring_state, next_circular_index_one, hp1]

theorem push_all_ring_state {r : ℚ} (hr : valid_resolution r) (vs : List (List Dbl))
    (hvs : ∀ v ∈ vs, ∀ x ∈ v.take (scan_length r), x.valid = true) :
    push_all ⟨some [none, none], .val r, 0, 0⟩ vs = .ret () (ring_state r vs.reverse) := by
  induction vs using List.reverseRecOn with
  | nil => rfl
  | append_singleton vs v ih =>
    rw [push_all_append, ih (fun w hw => hvs w (List.mem_append_left _ hw))]
    simp only [List.reverse_append, List.reverse_cons, List.reverse_nil, List.nil_append,
      List.singleton_append]
    exact new_scan_ring_state hr _ v (hvs v (by simp))

theorem occupied_ring_state (r : ℚ) (rev : List (List Dbl)) :
    occupied (ring_state r rev) = min rev.length 2 := by
  match rev with
  | [] => simp [ring_state, occupied]
  | [y] => simp [ring_state, occupied]
  | y :: x :: rest =>
    by_cases hp : rest.length % 2 = 0
    · simp [ring_state, occupied, hp]
    · simp [ring_state, occupied, hp]

theorem contents_ring_state (r : ℚ) (rev : List (List Dbl)) :
    contents (ring_state r rev) = ((rev.take 2).reverse).map (stored (scan_length r)) := by
  match rev with
  | [] => simp [ring_state, contents, slot_zero, slot_one, next_circular_index_zero]
  | [y] => simp [ring_state, contents, slot_zero, slot_one, next_circular_index_zero]
  | y :: x :: rest =>
    by_cases hp : rest.length % 2 = 0
    · simp [ring_state, contents, slot_zero, slot_one, next_circular_index_zero, hp]
    · simp [ring_state, contents, slot_zero, slot_one, next_circular_index_one, hp]

theorem readAt_of_length_le {α : Type} (a : List α) (i : Int) (h : (a.length : Int) ≤ i) :
    readAt a i = none := by
  unfold readAt
  by_cases h0 : 0 ≤ i
  · rw [if_pos h0, List.getElem?_eq_none]
    omega
  · rw [if_neg h0]

theorem index_1799_087 :
    evalute_measurement_index (.val (1799 / 10)) (.val (87 / 100)) = some 207 := by
  have href : measurement_index_ref (1799 / 10) (87 / 100) = 207 := by
    have f : ⌊(1799 : ℚ) / 10 / (87 / 100)⌋ = 206 := by
      rw [Int.floor_eq_iff]
      norm_num
    simp only [measurement_index_ref, round_half_away]
    rw [f]
    norm_num
  have h := evalute_eq_ref (1799 / 10) (87 / 100)
  rw [href] at h
  exact h (by decide)

theorem index_180_087 :
    evalute_measurement_index (.val 180) (.val (87 / 100)) = some 206 := by
  have href : measurement_index_ref 180 (87 / 100) = 206 := by
    have f : ⌊(180 : ℚ) / (87 / 100)⌋ = 206 := by
      rw [Int.floor_eq_iff]
      norm_num
    simp only [measurement_index_ref]
    rw [f]
    norm_num
  have h := evalute_eq_ref 180 (87 / 100)
  rw [href] at h
  exact h (by decide)

theorem scan_length_087 : scan_length (87 / 100) = 207 := by
  have f : ⌊(180 : ℚ) / (87 / 100)⌋ = 206 := by
    rw [Int.floor_eq_iff]
    norm_num
  unfold scan_length kMaxAngle
  rw [f]
  rfl

theorem valid_resolution_087 : valid_resolution (87 / 100) := by
  norm_num [valid_resolution]

theorem not_valid_iff (x : Dbl) : x.valid = false ↔ (x.isnan = true ∨ x.lt 0 = true) := by
  unfold Dbl.valid
  cases x.isnan <;> cases x.lt 0 <;> simp

theorem take_min_length {α : Type} (l : List α) (n : Nat) :
    l.take (min l.length n) = l.take n := by
  rcases le_total l.length n with h | h
  · rw [min_eq_left h, List.take_of_length_le h, List.take_of_length_le (le_refl _)]
  · rw [min_eq_right h]

theorem scan_length_one : scan_length 1 = 181 := by
  have f : ⌊(180 : ℚ) / 1⌋ = 180 := by
    rw [Int.floor_eq_iff]
    norm_num
  unfold scan_length kMaxAngle
  rw [f]
  rfl

theorem new_scan_throw_head {r : ℚ} (hr : valid_resolution r) (a b : Option Scan) (f k : Int)
    (hf : f = 0 ∨ f = 1) (hk : k = 0 ∨ k = 1) (vec : List Dbl) (x : Dbl)
    (h0 : vec[0]? = some x) (hx : x.valid = false) :
    new_scan ⟨some [a, b], .val r, f, k⟩ vec
      = .throw .invalid_argument
          (after_store a b (.val r) f k (List.replicate (scan_length r) none) false) := by
  have hL := (scan_length_bounds hr).1
  have hneg : ¬ ((scan_length r : Int) < 0) := by omega
  have hlen : 1 ≤ vec.length := by
    cases vec with
    | nil => simp at h0
    | cons y ys => simp
  obtain ⟨m, hm⟩ : ∃ m, (min (vec.length : Int) (scan_length r : Int)).toNat = m + 1 := by
    refine ⟨(min (vec.length : Int) (scan_length r : Int)).toNat - 1, ?_⟩
    have : (1 : Int) ≤ min (vec.length : Int) (scan_length r : Int) := by
      apply le_min <;> omega
    omega
  have hc : new_scan_copy vec (min (vec.length : Int) (scan_length r : Int)).toNat 0
      (List.replicate (scan_length r) none)
        = .throw .invalid_argument (List.replicate (scan_length r) none) := by
    rw [hm, new_scan_copy, h0]
    rcases (not_valid_iff x).mp hx with h | h
    · simp [h]
    · by_cases hn : x.isnan = true
      · simp [hn]
      · simp [hn, h]
  rcases hf with rfl | rfl <;> rcases hk with rfl | rfl <;> cases a <;> cases b <;>
    simp [new_scan, after_store, hneg, is_full, slot_zero, slot_one, set_slot_zero, set_slot_one,
      measurements_valid hr, hc, next_circular_index_zero, next_circular_index_one]

theorem valid_resolution_one : valid_resolution 1 := by
  norm_num [valid_resolution]

theorem static_cast_int_some (z i : Int) (h : static_cast_int (z : ℚ) = some i) : i = z := by
  unfold static_cast_int at h
  by_cases h0 : (0 : ℚ) ≤ (z : ℚ)
  · simp only [h0, if_true, Int.floor_intCast] at h
    split at h
    · injection h with h
      exact h.symm
    · exact absurd h (by simp)
  · simp only [h0, if_false, Int.ceil_intCast] at h
    split at h
    · injection h with h
      exact h.symm
    · exact absurd h (by simp)

theorem round_half_away_nonneg (x : ℚ) (hx : 0 ≤ x) : 0 ≤ round_half_away x := by
  have : (0 : Int) ≤ ⌊x⌋ := Int.floor_nonneg.mpr hx
  unfold round_half_away
  split_ifs <;> omega

theorem evalute_nonneg {angle r : ℚ} (hr : 0 < r) {i : Int}
    (h : evalute_measurement_index (.val angle) (.val r) = some i) : 0 ≤ i := by
  unfold evalute_measurement_index at h
  have h1 : ¬ r ≤ 0 := not_le.mpr hr
  simp only [h1, if_false] at h
  by_cases h2 : kMaxAngle ≤ angle
  · simp only [h2, if_true, c_floor] at h
    rw [static_cast_int_some _ _ h]
    apply Int.floor_nonneg.mpr
    unfold kMaxAngle
    positivity
  · simp only [h2, if_false] at h
    by_cases h3 : 0 < angle
    · simp only [h3, if_true] at h
      rw [c_round_eq] at h
      rw [static_cast_int_some _ _ h]
      exact round_half_away_nonneg _ (div_pos h3 hr).le
    · simp only [h3, if_false] at h
      injection h with h
      omega

theorem evalute_zero {r : ℚ} (hr : 0 < r) :
    evalute_measurement_index (.val 0) (.val r) = some 0 := by
  have h1 : ¬ r ≤ 0 := not_le.mpr hr
  simp [evalute_measurement_index, h1, kMaxAngle]

theorem readAt_stored (L : Nat) (v : List Dbl) (i : Int) (h0 : 0 ≤ i) (h1 : i < L) :
    ∃ d, (pad_trunc L v)[i.toNat]? = some d ∧ readAt (stored L v) i = some (some d) := by
  have hlt : i.toNat < (pad_trunc L v).length := by
    rw [pad_trunc_length]
    omega
  refine ⟨(pad_trunc L v)[i.toNat], List.getElem?_eq_getElem hlt, ?_⟩
  unfold readAt stored
  rw [if_pos h0, List.getElem?_map, List.getElem?_eq_getElem hlt]
  rfl

theorem readAt_stored_zero (L : Nat) (hL : 0 < L) (v : List Dbl) (x0 : Dbl)
    (hx : v.head? = some x0) : readAt (stored L v) 0 = some (some x0) := by
  unfold readAt stored
  rw [if_pos (le_refl _), List.getElem?_map]
  have : (pad_trunc L v)[(0 : Int).toNat]? = some x0 := by
    show (pad_trunc L v)[0]? = some x0
    cases v with
    | nil => simp at hx
    | cons y ys =>
      simp at hx
      subst hx
      rw [pad_trunc_get, if_pos (by simp; omega)]
      simp
  rw [this]
  rfl

theorem Inv_shape {s : LaserScannerDriver} (h : Inv s) :
    ∃ a b r, s.buffer_ = some [a, b] ∧ s.angular_resolution_ = .val r ∧
      (s.front_ = 0 ∨ s.front_ = 1) ∧ (s.back_ = 0 ∨ s.back_ = 1) ∧
      (is_empty s = some false ↔ (a.isSome = true ∨ b.isSome = true)) ∧
      (is_full s = some true ↔ (a.isSome = true ∧ b.isSome = true)) ∧
      (∀ sc ∈ [a, b].reduceOption, full_scan (scan_length r) sc) ∧
      valid_resolution r := by
  unfold Inv at h
  split at h
  · rename_i a b r hb hr
    exact ⟨a, b, r, hb, hr, h⟩
  · exact h.elim

theorem ref_quarter_half : measurement_index_ref (1 / 4) (1 / 2) = 1 := by
  have e : ((1 : ℚ) / 4 / (1 / 2)) = 1 / 2 := by norm_num
  have f : ⌊(1 : ℚ) / 2⌋ = 0 := by
    rw [Int.floor_eq_iff]
    norm_num
  simp only [measurement_index_ref, round_half_away]
  rw [e, f]
  norm_num

theorem index_quarter_half :
    evalute_measurement_index (.val (1 / 4)) (.val (1 / 2)) = some 1 := by
  have h := evalute_eq_ref (1 / 4) (1 / 2)
  rw [ref_quarter_half] at h
  exact h (by decide)

theorem valid_resolution_half : valid_resolution (1 / 2) := by
  norm_num [valid_resolution]

theorem scan_length_half : scan_length (1 / 2) = 361 := by
  have f : ⌊(180 : ℚ) / (1 / 2)⌋ = 360 := by
    rw [Int.floor_eq_iff]
    norm_num
  unfold scan_length kMaxAngle
  rw [f]
  rfl

theorem Inv_fresh {r : ℚ} (hr : valid_resolution r) :
    Inv ⟨some [none, none], .val r, 0, 0⟩ := by
  simp [Inv, is_empty, is_full, slot_zero, hr]

/-! ## `clear_buffer` and the copy and move operations -/

theorem clear_buffer_loop_empty (fuel : Nat) (s : LaserScannerDriver)
    (h : is_empty s = some true) : clear_buffer_loop fuel s = some (.ret () s) := by
  cases fuel <;> simp [clear_buffer_loop, h]

theorem clear_buffer_returns (a b : Option Scan) (d : Dbl) (f k : Int)
    (hf : f = 0 ∨ f = 1) (fuel : Nat) (hfuel : 2 ≤ fuel) :
    ∃ a1 b1, clear_buffer fuel ⟨some [a, b], d, f, k⟩
      = some (.ret () ⟨some [a1, b1], d, 0, 0⟩) := by
  obtain ⟨n, rfl⟩ : ∃ n, fuel = n + 2 := ⟨fuel - 2, by omega⟩
  have h0 : ∀ (y : Option Scan) (i : Int), clear_buffer_loop n ⟨some [none, y], d, 0, i⟩
      = some (.ret () ⟨some [none, y], d, 0, i⟩) :=
    fun y i => clear_buffer_loop_empty _ _ (by simp [is_empty, slot_zero])
  have h1 : ∀ (x : Option Scan) (i : Int), clear_buffer_loop n ⟨some [x, none], d, 1, i⟩
      = some (.ret () ⟨some [x, none], d, 1, i⟩) :=
    fun x i => clear_buffer_loop_empty _ _ (by simp [is_empty, slot_one])
  rcases hf with rfl | rfl <;> cases a <;> cases b <;>
    simp [clear_buffer, clear_buffer_loop, is_empty, slot_zero, slot_one, set_slot_zero,
      set_slot_one, next_circular_index_zero, next_circular_index_one, h0, h1]

theorem clear_buffer_two_slots (a b : Option Scan) (d : Dbl) (f k : Int)
    (hf : f = 0 ∨ f = 1)
    (hfront : slot ⟨some [a, b], d, f, k⟩ f = some none → a = none ∧ b = none)
    (fuel : Nat) (hfuel : 2 ≤ fuel) :
    clear_buffer fuel ⟨some [a, b], d, f, k⟩ = some (.ret () ⟨some [none, none], d, 0, 0⟩) := by
  obtain ⟨n, rfl⟩ : ∃ n, fuel = n + 2 := ⟨fuel - 2, by omega⟩
  have h0 : ∀ (y : Option Scan) (i : Int), clear_buffer_loop n ⟨some [none, y], d, 0, i⟩
      = some (.ret () ⟨some [none, y], d, 0, i⟩) :=
    fun y i => clear_buffer_loop_empty _ _ (by simp [is_empty, slot_zero])
  have h1 : ∀ (x : Option Scan) (i : Int), clear_buffer_loop n ⟨some [x, none], d, 1, i⟩
      = some (.ret () ⟨some [x, none], d, 1, i⟩) :=
    fun x i => clear_buffer_loop_empty _ _ (by simp [is_empty, slot_one])
  rcases hf with rfl | rfl <;> cases a <;> cases b <;>
    simp [slot_zero, slot_one] at hfront <;>
    simp [clear_buffer, clear_buffer_loop, is_empty, slot_zero, slot_one, set_slot_zero,
      set_slot_one, next_circular_index_zero, next_circular_index_one, h0, h1]

theorem copy_cells_spec (src : Scan) : ∀ (n i : Nat) (res : Scan),
    i + n ≤ src.length → i + n ≤ res.length →
    (∀ c ∈ src, c.isSome = true) →
    ∃ res1, copy_cells src n i res = some res1 ∧ res1.length = res.length ∧
      ∀ j, res1[j]? = if i ≤ j ∧ j < i + n then src[j]? else res[j]? := by
  intro n
  induction n with
  | zero =>
    intro i res _ _ _
    refine ⟨res, rfl, rfl, ?_⟩
    intro j
    rw [if_neg]
    omega
  | succ n ih =>
    intro i res h1 h2 hall
    have hi : i < src.length := by omega
    have hmem : src[i] ∈ src := List.getElem_mem hi
    obtain ⟨x, hx⟩ : ∃ x, src[i] = some x := Option.isSome_iff_exists.mp (hall _ hmem)
    have hget : src[i]? = some (some x) := by
      rw [List.getElem?_eq_getElem hi, hx]
    obtain ⟨res1, e1, l1, g1⟩ := ih (i + 1) (res.set i (some x)) (by omega)
      (by rw [List.length_set]; omega) hall
    refine ⟨res1, ?_, ?_, ?_⟩
    · rw [copy_cells, hget]
      simp only
      rw [writeAt_lt res i _ (by omega)]
      exact e1
    · rw [l1, List.length_set]
    · intro j
      rw [g1 j]
      by_cases hj : j = i
      · subst hj
        have : ¬ (j + 1 ≤ j ∧ j < j + 1 + n) := by omega
        rw [if_neg this, if_pos (by omega), hget]
        simp [List.getElem?_set]
        omega
      · by_cases hc : i + 1 ≤ j ∧ j < i + 1 + n
        · rw [if_pos hc, if_pos (by omega)]
        · rw [if_neg hc, if_neg (by omega), List.getElem?_set]
          rw [if_neg (by omega)]

theorem copy_cells_full (L : Nat) (arr : Scan) (h : full_scan L arr) :
    copy_cells arr L 0 (List.replicate L none) = some arr := by
  obtain ⟨hlen, hall⟩ := h
  obtain ⟨res1, e1, l1, g1⟩ := copy_cells_spec arr L 0 (List.replicate L none)
    (by omega) (by simp) hall
  rw [e1]
  congr 1
  apply List.ext_getElem?
  intro j
  rw [g1 j]
  by_cases hj : j < L
  · rw [if_pos (by omega)]
  · rw [if_neg (by omega), List.getElem?_replicate, if_neg hj, List.getElem?_eq_none (by omega)]

theorem copy_buffer_two_slots (L : Nat) (a b : Option Scan)
    (h : ∀ sc ∈ [a, b].reduceOption, full_scan L sc) :
    copy_buffer (some [a, b]) (L : Int) = some [a, b] := by
  have hneg : ¬ ((L : Int) < 0) := by omega
  have hB : BUFFER_DIM.toNat = 2 := by decide
  have ha : ∀ x, a = some x → copy_cells x L 0 (List.replicate L none) = some x := by
    intro x hx
    apply copy_cells_full
    apply h
    subst hx
    cases b <;> simp [List.reduceOption]
  have hb : ∀ y, b = some y → copy_cells y L 0 (List.replicate L none) = some y := by
    intro y hy
    apply copy_cells_full
    apply h
    subst hy
    cases a <;> simp [List.reduceOption]
  unfold copy_buffer
  rw [hB]
  cases a with
  | none =>
    cases b with
    | none => simp [copy_buffer_loop, writeAt]
    | some y => simp [copy_buffer_loop, writeAt, hneg, hb y rfl]
  | some x =>
    cases b with
    | none => simp [copy_buffer_loop, writeAt, hneg, ha x rfl]
    | some y => simp [copy_buffer_loop, writeAt, hneg, ha x rfl, hb y rfl]

theorem full_scan_stored (r : ℚ) (v : List Dbl) : full_scan (scan_length r) (stored (scan_length r) v) := by
  refine ⟨stored_length _ _, ?_⟩
  intro c hc
  unfold stored at hc
  rw [List.mem_map] at hc
  obtain ⟨x, _, rfl⟩ := hc
  rfl

theorem full_scan_eq_map {L : Nat} {sc : Scan} (h : full_scan L sc) :
    ∃ l : List Dbl, sc = l.map some ∧ l.length = L := by
  obtain ⟨hlen, hall⟩ := h
  refine ⟨sc.reduceOption, ?_, ?_⟩
  · clear hlen
    induction sc with
    | nil => rfl
    | cons c cs ih =>
      have hc := hall c (List.mem_cons_self _ _)
      obtain ⟨x, rfl⟩ := Option.isSome_iff_exists.mp hc
      rw [List.reduceOption_cons_of_some, List.map_cons]
      congr 1
      exact ih (fun d hd => hall d (List.mem_cons_of_mem _ hd))
  · rw [← hlen]
    clear hlen
    induction sc with
    | nil => rfl
    | cons c cs ih =>
      have hc := hall c (List.mem_cons_self _ _)
      obtain ⟨x, rfl⟩ := Option.isSome_iff_exists.mp hc
      rw [List.reduceOption_cons_of_some, List.length_cons, List.length_cons]
      congr 1
      exact ih (fun d hd => hall d (List.mem_cons_of_mem _ hd))

theorem copy_constructor_Inv {s : LaserScannerDriver} (h : Inv s) :
    copy_constructor s = some s := by
  obtain ⟨a, b, r, hb, hr, _, _, _, _, hsc, hvr⟩ := Inv_shape h
  obtain ⟨buf, res, f, k⟩ := s
  simp only at hb hr
  subst hb hr
  simp [copy_constructor, measurements_valid hvr, copy_buffer_two_slots _ a b hsc]

theorem copy_assign_Inv {s : LaserScannerDriver} (h : Inv s) (a b : Option Scan) (d : Dbl)
    (f k : Int) (hf : f = 0 ∨ f = 1) (fuel : Nat) (hfuel : 2 ≤ fuel) :
    copy_assign fuel ⟨some [a, b], d, f, k⟩ s = some (.ret () s) := by
  obtain ⟨a0, b0, r, hb, hr, _, _, _, _, hsc, hvr⟩ := Inv_shape h
  obtain ⟨buf, res, f0, k0⟩ := s
  simp only at hb hr
  subst hb hr
  obtain ⟨a1, b1, hclear⟩ := clear_buffer_returns a b d f k hf fuel hfuel
  simp [copy_assign, measurements_valid hvr, copy_buffer_two_slots _ a0 b0 hsc, hclear]

theorem move_assign_two_slots (s : LaserScannerDriver) (a b : Option Scan) (d : Dbl)
    (f k : Int) (hf : f = 0 ∨ f = 1) (fuel : Nat) (hfuel : 2 ≤ fuel) :
    move_assign fuel ⟨some [a, b], d, f, k⟩ s
      = some (.ret () (s, ⟨none, .val 0, 0, 0⟩)) := by
  obtain ⟨a1, b1, hclear⟩ := clear_buffer_returns a b d f k hf fuel hfuel
  simp [move_assign, hclear]

theorem get_scan_throw_iff (s : LaserScannerDriver) :
    (∃ s1, get_scan s = .throw .EmptyBufferException s1) ↔ is_empty s = some true := by
  unfold get_scan
  constructor
  · rintro ⟨s1, h⟩
    split at h
    · exact absurd h (by simp)
    · assumption
    · split at h
      · exact absurd h (by simp)
      · split at h
        · split at h
          · exact absurd h (by simp)
          · split at h <;> exact absurd h (by simp)
        · exact absurd h (by simp)
  · intro h
    rw [h]
    exact ⟨s, rfl⟩

theorem get_scan_throw_state (s : LaserScannerDriver) (e : Exn) (s1 : LaserScannerDriver)
    (h : get_scan s = .throw e s1) : s1 = s ∧ e = .EmptyBufferException := by
  unfold get_scan at h
  split at h
  · exact absurd h (by simp)
  · injection h with h1 h2
    exact ⟨h2.symm, h1.symm⟩
  · split at h
    · exact absurd h (by simp)
    · split at h
      · split at h
        · exact absurd h (by simp)
        · split at h <;> exact absurd h (by simp)
      · exact absurd h (by simp)

theorem get_distance_throw_iff (s : LaserScannerDriver) (angle : ℚ) :
    (∃ s1, get_distance s (.val angle) = .throw .EmptyBufferException s1)
      ↔ is_empty s = some true := by
  unfold get_distance
  simp only [Dbl.isnan, Bool.false_eq_true, if_false]
  constructor
  · rintro ⟨s1, h⟩
    split at h
    · exact absurd h (by simp)
    · assumption
    · split at h
      · exact absurd h (by simp)
      · split at h
        · split at h <;> exact absurd h (by simp)
        · exact absurd h (by simp)
  · intro h
    rw [h]
    exact ⟨s, rfl⟩

theorem get_distance_state (s : LaserScannerDriver) (angle : Dbl) :
    (∀ d s1, get_distance s angle = .ret d s1 → s1 = s) ∧
    (∀ e s1, get_distance s angle = .throw e s1 → s1 = s) := by
  unfold get_distance
  constructor
  · intro d s1 h
    split at h
    · exact absurd h (by simp)
    · split at h
      · exact absurd h (by simp)
      · exact absurd h (by simp)
      · split at h
        · exact absurd h (by simp)
        · dsimp only at h
          split at h
          · split at h
            · injection h with _ h2
              exact h2.symm
            · exact absurd h (by simp)
          · exact absurd h (by simp)
  · intro e s1 h
    split at h
    · injection h with _ h2
      exact h2.symm
    · split at h
      · exact absurd h (by simp)
      · injection h with _ h2
        exact h2.symm
      · split at h
        · exact absurd h (by simp)
        · dsimp only at h
          split at h
          · split at h <;> exact absurd h (by simp)
          · exact absurd h (by simp)

theorem Inv_clear {s : LaserScannerDriver} (h : Inv s) (fuel : Nat) (hfuel : 2 ≤ fuel) :
    clear_buffer fuel s = some (.ret () ⟨some [none, none], s.angular_resolution_, 0, 0⟩) := by
  obtain ⟨a, b, r, hb, hr, hf, hk, he, _, _, _⟩ := Inv_shape h
  obtain ⟨buf, res, f, k⟩ := s
  simp only at hb hr hf hk
  subst hb hr
  apply clear_buffer_two_slots _ _ _ _ _ hf _ fuel hfuel
  intro hs
  rcases hf with rfl | rfl <;> cases a <;> cases b <;>
    simp [is_empty, slot_zero, slot_one] at he hs ⊢

theorem get_scan_empty_state (b : Dbl) (f : Int) (hf : f = 0 ∨ f = 1) (k : Int) :
    get_scan ⟨some [none, none], b, f, k⟩
      = .throw .EmptyBufferException ⟨some [none, none], b, f, k⟩ := by
  rcases hf with rfl | rfl
  · exact get_scan_empty0 _ _ _
  · exact get_scan_empty1 _ _ _

theorem get_distance_empty_state (d : Dbl) (f : Int) (hf : f = 0 ∨ f = 1) (k : Int)
    (angle : ℚ) :
    get_distance ⟨some [none, none], d, f, k⟩ (.val angle)
      = .throw .EmptyBufferException ⟨some [none, none], d, f, k⟩ := by
  rcases hf with rfl | rfl <;> simp [get_distance, Dbl.isnan, is_empty, slot_zero, slot_one]

theorem Inv_strong_fresh {r : ℚ} (hr : valid_resolution r) :
    Inv_strong ⟨some [none, none], .val r, 0, 0⟩ :=
  ⟨Inv_fresh hr, fun _ => rfl, fun _ => rfl⟩

theorem Inv_strong_after_store (a b : Option Scan) (r : ℚ) (f k : Int)
    (h : Inv_strong ⟨some [a, b], .val r, f, k⟩) (v : List Dbl) :
    Inv_strong (after_store a b (.val r) f k (stored (scan_length r) v) true) := by
  obtain ⟨hinv, he, hfu⟩ := h
  obtain ⟨a0, b0, r0, hb, hr0, hf, hk, hem, hful, hsc, hvr⟩ := Inv_shape hinv
  simp only at hb hr0 hf hk he hfu
  simp only [Option.some.injEq, List.cons.injEq, and_true] at hb
  obtain ⟨rfl, rfl⟩ := hb
  injection hr0 with hr0
  subst hr0
  have hst := full_scan_stored r v
  rcases hf with rfl | rfl <;> rcases hk with rfl | rfl <;> cases a <;> cases b <;>
    simp [is_empty, is_full, slot_zero, slot_one, List.reduceOption] at hem hful he hfu hsc <;>
    simp [Inv_strong, Inv, after_store, is_empty, is_full, slot_zero, slot_one,
      next_circular_index_zero, next_circular_index_one, List.reduceOption, hvr, hst, hsc]

theorem Inv_strong_new_scan {s : LaserScannerDriver} (h : Inv_strong s) (v : List Dbl)
    (s1 : LaserScannerDriver) (hpush : new_scan s v = .ret () s1) : Inv_strong s1 := by
  obtain ⟨a, b, r, hb, hr, hf, hk, _, _, _, hvr⟩ := Inv_shape h.1
  obtain ⟨buf, res, f, k⟩ := s
  simp only at hb hr hf hk
  subst hb hr
  by_cases hv : ∀ x ∈ v.take (scan_length r), x.valid = true
  · rw [new_scan_ret hvr a b f k hf hk v hv] at hpush
    injection hpush with _ hs
    subst hs
    exact Inv_strong_after_store a b r f k h v
  · push_neg at hv
    obtain ⟨x, hx, hxv⟩ := hv
    obtain ⟨arr, _, harr⟩ := new_scan_throw hvr a b f k hf hk v ⟨x, hx, by simpa using hxv⟩
    rw [harr] at hpush
    exact absurd hpush (by simp)

theorem Inv_strong_get_scan {s : LaserScannerDriver} (h : Inv_strong s) (out : List Dbl)
    (s1 : LaserScannerDriver) (hpop : get_scan s = .ret out s1) : Inv_strong s1 := by
  obtain ⟨hinv, he, hfu⟩ := h
  obtain ⟨a, b, r, hb, hr, hf, hk, hem, hful, hsc, hvr⟩ := Inv_shape hinv
  obtain ⟨buf, res, f, k⟩ := s
  simp only at hb hr hf hk he hfu
  subst hb hr
  rcases hf with rfl | rfl
  · cases a with
    | none =>
      rw [get_scan_empty0] at hpop
      exact absurd hpop (by simp)
    | some arr =>
      obtain ⟨l, rfl, hl⟩ := full_scan_eq_map (hsc arr (by cases b <;> simp [List.reduceOption]))
      rw [get_scan_front0 hvr l hl b k] at hpop
      injection hpop with _ hs
      subst hs
      rcases hk with rfl | rfl <;> cases b <;>
        simp [is_empty, is_full, slot_zero, slot_one, List.reduceOption] at hem hful he hfu hsc <;>
        simp [Inv_strong, Inv, is_empty, is_full, slot_zero, slot_one, List.reduceOption, hvr, hsc]
  · cases b with
    | none =>
      rw [get_scan_empty1] at hpop
      exact absurd hpop (by simp)
    | some arr =>
      obtain ⟨l, rfl, hl⟩ := full_scan_eq_map (hsc arr (by cases a <;> simp [List.reduceOption]))
      rw [get_scan_front1 hvr l hl a k] at hpop
      injection hpop with _ hs
      subst hs
      rcases hk with rfl | rfl <;> cases a <;>
        simp [is_empty, is_full, slot_zero, slot_one, List.reduceOption] at hem hful he hfu hsc <;>
        simp [Inv_strong, Inv, is_empty, is_full, slot_zero, slot_one, List.reduceOption, hvr, hsc]

theorem round_half_away_intCast (z : Int) : round_half_away (z : ℚ) = z := by
  unfold round_half_away
  rw [Int.floor_intCast]
  simp

theorem ref_index_mul {r : ℚ} (hr : valid_resolution r) (i : Nat) (hi : i < scan_length r) :
    measurement_index_ref ((i : ℚ) * r) r = (i : Int) := by
  have hpos : 0 < r := lt_of_lt_of_le (by norm_num) hr.1
  have hL := scan_length_cast hr
  have hle : (i : Int) ≤ ⌊(180 : ℚ) / r⌋ := by
    have : ((i : Nat) : Int) < ⌊kMaxAngle / r⌋ + 1 := by
      rw [← hL]
      exact_mod_cast hi
    unfold kMaxAngle at this
    omega
  have hq : ((i : Int) : ℚ) ≤ 180 / r := Int.le_floor.mp hle
  have hq1 : (i : ℚ) * r ≤ 180 := by
    have := (le_div_iff₀ hpos).mp hq
    simpa using this
  unfold measurement_index_ref
  rw [if_neg (not_le.mpr hpos)]
  by_cases h1 : (180 : ℚ) ≤ (i : ℚ) * r
  · rw [if_pos h1]
    have heq : (i : ℚ) * r = 180 := le_antisymm hq1 h1
    have : (180 : ℚ) / r = ((i : Int) : ℚ) := by
      rw [← heq]
      field_simp
    rw [this, Int.floor_intCast]
  · rw [if_neg h1]
    by_cases h2 : 0 < (i : ℚ) * r
    · rw [if_pos h2]
      have : (i : ℚ) * r / r = ((i : Int) : ℚ) := by
        field_simp
      rw [this, round_half_away_intCast]
    · rw [if_neg h2]
      have : (i : ℚ) ≤ 0 := by
        by_contra hc
        push_neg at hc
        exact h2 (mul_pos hc hpos)
      have : i = 0 := by exact_mod_cast (le_antisymm this (by positivity))
      subst this
      rfl

theorem evalute_index_mul {r : ℚ} (hr : valid_resolution r) (i : Nat)
    (hi : i < scan_length r) :
    evalute_measurement_index (.val ((i : ℚ) * r)) (.val r) = some (i : Int) := by
  have h := evalute_eq_ref ((i : ℚ) * r) r
  rw [ref_index_mul hr i hi] at h
  apply h
  have := (scan_length_bounds hr).2
  unfold INT_MIN INT_MAX
  omega

theorem Inv_last_slot {s : LaserScannerDriver} (h : Inv s) (r : ℚ)
    (hres : s.angular_resolution_ = .val r) (hne : is_empty s = some false) :
    ∃ scan : List Dbl,
      slot s (previous_circular_index s.back_) = some (some (scan.map some)) ∧
      scan.length = scan_length r := by
  obtain ⟨a, b, r1, hb, hr1, hf, hk, hem, hful, hsc, hvr⟩ := Inv_shape h
  obtain ⟨buf, res, f, k⟩ := s
  simp only at hb hr1 hres hf hk
  subst hb
  rw [hres] at hr1
  injection hr1 with hr1
  subst hr1
  subst hres
  rcases hk with rfl | rfl
  · cases b with
    | none =>
      rcases hf with rfl | rfl <;> cases a <;>
        simp [is_empty, is_full, slot_zero, slot_one] at hem hful hne
    | some arr =>
      obtain ⟨l, rfl, hl⟩ := full_scan_eq_map (hsc arr (by cases a <;> simp [List.reduceOption]))
      exact ⟨l, by simp [slot_one, previous_circular_index_zero], hl⟩
  · cases a with
    | none =>
      rcases hf with rfl | rfl <;> cases b <;>
        simp [is_empty, is_full, slot_zero, slot_one] at hem hful hne
    | some arr =>
      obtain ⟨l, rfl, hl⟩ := full_scan_eq_map (hsc arr (by cases b <;> simp [List.reduceOption]))
      exact ⟨l, by simp [slot_zero, previous_circular_index_one], hl⟩

theorem get_distance_last (s : LaserScannerDriver) (r x : ℚ) (scan : List Dbl) (i : Nat)
    (hres : s.angular_resolution_ = .val r) (hne : is_empty s = some false)
    (hslot : slot s (previous_circular_index s.back_) = some (some (scan.map some)))
    (hidx : evalute_measurement_index (.val x) (.val r) = some (i : Int))
    (hi : i < scan.length) :
    get_distance s (.val x) = .ret (scan.getD i (.val 0)) s := by
  have hread : readAt (scan.map some) (i : Int) = some (some (scan.getD i (.val 0))) := by
    unfold readAt
    rw [if_pos (by omega), Int.toNat_ofNat, List.getElem?_map, List.getElem?_eq_getElem hi]
    simp [List.getD_eq_getElem?_getD, List.getElem?_eq_getElem hi]
  unfold get_distance
  simp only [Dbl.isnan, Bool.false_eq_true, if_false, hne, hres, hidx, hslot, hread]

theorem render_loop_spec (s : LaserScannerDriver) (r : ℚ) (scan : List Dbl)
    (hvr : valid_resolution r)
    (hres : s.angular_resolution_ = .val r) (hne : is_empty s = some false)
    (hslot : slot s (previous_circular_index s.back_) = some (some (scan.map some)))
    (hlen : scan.length = scan_length r) :
    ∀ (n i : Nat) (rows : List (Dbl × Dbl)), i + n ≤ scan_length r →
      render_loop s n (i : Int) rows
        = .ret (rows ++ (List.range' i n).map
            (fun (j : Nat) => (Dbl.val ((j : ℚ) * r), scan.getD j (Dbl.val 0)))) s := by
  intro n
  induction n with
  | zero => intro i rows _; simp [render_loop]
  | succ n ih =>
    intro i rows h
    have hmul : int_mul (i : Int) (angular_resolution s) = Dbl.val ((i : ℚ) * r) := by
      unfold angular_resolution
      rw [hres]
      simp [int_mul]
    have hd := get_distance_last s r ((i : ℚ) * r) scan i hres hne hslot
      (evalute_index_mul hvr i (by omega)) (by omega)
    rw [render_loop, hmul, hd]
    simp only
    have hcast : ((i : Nat) : Int) + 1 = ((i + 1 : Nat) : Int) := by push_cast; rfl
    rw [hcast, ih (i + 1) _ (by omega), List.range'_succ, List.map_cons, List.append_assoc]
    rfl

theorem copy_assign_self_Inv {s : LaserScannerDriver} (h : Inv s) (fuel : Nat)
    (hfuel : 2 ≤ fuel) :
    copy_assign_self fuel s
      = some (.ret () ⟨s.buffer_, s.angular_resolution_, 0, 0⟩) := by
  have hclear := Inv_clear h fuel hfuel
  obtain ⟨a, b, r, hb, hr, _, _, _, _, hsc, hvr⟩ := Inv_shape h
  obtain ⟨buf, res, f, k⟩ := s
  simp only at hb hr
  subst hb hr
  simp [copy_assign_self, measurements_valid hvr, copy_buffer_two_slots _ a b hsc, hclear]

theorem Inv_one_scan {r : ℚ} (hr : valid_resolution r) (v : List Dbl) :
    Inv ⟨some [some (stored (scan_length r) v), none], .val r, 0, 1⟩ := by
  simp [Inv, is_empty, is_full, slot_zero, slot_one, List.reduceOption, hr,
    full_scan_stored r v]

theorem pad_trunc_getD_lt (L : Nat) (v : List Dbl) (i : Nat) (d : Dbl)
    (h : i < min v.length L) : (pad_trunc L v).getD i d = v.getD i d := by
  rw [List.getD_eq_getElem?_getD, List.getD_eq_getElem?_getD, pad_trunc_get, if_pos h]

theorem is_empty_one_scan (r : ℚ) (v : List Dbl) :
    is_empty ⟨some [some (stored (scan_length r) v), none], .val r, 0, 1⟩ = some false := by
  simp [is_empty, slot_zero]

/-! ## Frame of the resolution -/

theorem set_slot_resolution (s s1 : LaserScannerDriver) (i : Int) (p : Option Scan)
    (h : set_slot s i p = some s1) :
    s1.angular_resolution_ = s.angular_resolution_ ∧ s1.front_ = s.front_ ∧
      s1.back_ = s.back_ := by
  unfold set_slot at h
  split at h
  · exact absurd h (by simp)
  · split at h
    · exact absurd h (by simp)
    · injection h with h
      subst h
      exact ⟨rfl, rfl, rfl⟩

theorem evicted_resolution (s s1 : LaserScannerDriver) (full : Bool)
    (h : (if full = true then
        match s.set_slot s.front_ none with
        | none => none
        | some t => some { t with front_ := next_circular_index t.front_ }
      else some s : Option LaserScannerDriver) = some s1) :
    s1.angular_resolution_ = s.angular_resolution_ := by
  by_cases hf : full = true
  · rw [if_pos hf] at h
    cases hset : s.set_slot s.front_ none with
    | none => rw [hset] at h; exact absurd h (by simp)
    | some t =>
      rw [hset] at h
      injection h with h
      subst h
      exact (set_slot_resolution _ _ _ _ hset).1
  · rw [if_neg hf] at h
    injection h with h
    subst h
    rfl

theorem new_scan_resolution (s : LaserScannerDriver) (v : List Dbl) :
    (∀ u s1, new_scan s v = .ret u s1 → s1.angular_resolution_ = s.angular_resolution_) ∧
    (∀ e s1, new_scan s v = .throw e s1 → s1.angular_resolution_ = s.angular_resolution_) := by
  constructor
  · intro u s3 h
    unfold new_scan at h
    dsimp only at h
    split at h
    · exact absurd h (by simp)
    · split at h
      · exact absurd h (by simp)
      · rename_i hev
        have hs1 := evicted_resolution _ _ _ hev
        split at h
        · exact absurd h (by simp)
        · split at h
          · exact absurd h (by simp)
          · split at h
            · exact absurd h (by simp)
            · split at h
              · exact absurd h (by simp)
              · split at h
                · exact absurd h (by simp)
                · exact absurd h (by simp)
              · split at h
                · exact absurd h (by simp)
                · split at h
                  · exact absurd h (by simp)
                  · rename_i h2
                    injection h with _ h
                    subst h
                    exact ((set_slot_resolution _ _ _ _ h2).1).trans hs1
  · intro e s3 h
    unfold new_scan at h
    dsimp only at h
    split at h
    · exact absurd h (by simp)
    · split at h
      · exact absurd h (by simp)
      · rename_i hev
        have hs1 := evicted_resolution _ _ _ hev
        split at h
        · exact absurd h (by simp)
        · split at h
          · exact absurd h (by simp)
          · split at h
            · exact absurd h (by simp)
            · split at h
              · exact absurd h (by simp)
              · split at h
                · exact absurd h (by simp)
                · rename_i h2
                  injection h with _ h
                  subst h
                  exact ((set_slot_resolution _ _ _ _ h2).1).trans hs1
              · split at h
                · exact absurd h (by simp)
                · split at h
                  · exact absurd h (by simp)
                  · exact absurd h (by simp)

theorem get_scan_resolution (s : LaserScannerDriver) :
    (∀ out s1, get_scan s = .ret out s1 → s1.angular_resolution_ = s.angular_resolution_) ∧
    (∀ e s1, get_scan s = .throw e s1 → s1.angular_resolution_ = s.angular_resolution_) := by
  constructor
  · intro out s3 h
    unfold get_scan at h
    split at h
    · exact absurd h (by simp)
    · exact absurd h (by simp)
    · split at h
      · exact absurd h (by simp)
      · split at h
        · split at h
          · exact absurd h (by simp)
          · split at h
            · exact absurd h (by simp)
            · rename_i h2
              injection h with _ h
              subst h
              exact (set_slot_resolution _ _ _ _ h2).1
        · exact absurd h (by simp)
  · intro e s1 h
    rw [(get_scan_throw_state s e s1 h).1]

theorem clear_buffer_loop_resolution : ∀ (fuel : Nat) (s s1 : LaserScannerDriver) (u : Unit),
    clear_buffer_loop fuel s = some (.ret u s1) →
      s1.angular_resolution_ = s.angular_resolution_ := by
  intro fuel
  induction fuel with
  | zero =>
    intro s s1 u h
    unfold clear_buffer_loop at h
    split at h
    · exact absurd h (by simp)
    · injection h with h
      injection h with _ h
      rw [h]
    · exact absurd h (by simp)
  | succ n ih =>
    intro s s1 u h
    unfold clear_buffer_loop at h
    split at h
    · exact absurd h (by simp)
    · injection h with h
      injection h with _ h
      rw [h]
    · split at h
      · exact absurd h (by simp)
      · rename_i h2
        exact (ih _ _ _ h).trans (set_slot_resolution _ _ _ _ h2).1

theorem clear_buffer_loop_no_throw : ∀ (fuel : Nat) (s s1 : LaserScannerDriver) (e : Exn),
    clear_buffer_loop fuel s ≠ some (.throw e s1) := by
  intro fuel
  induction fuel with
  | zero =>
    intro s s1 e h
    unfold clear_buffer_loop at h
    split at h <;> exact absurd h (by simp)
  | succ n ih =>
    intro s s1 e h
    unfold clear_buffer_loop at h
    split at h
    · exact absurd h (by simp)
    · exact absurd h (by simp)
    · split at h
      · exact absurd h (by simp)
      · exact ih _ _ _ h

theorem clear_buffer_resolution (fuel : Nat) (s s1 : LaserScannerDriver) (u : Unit)
    (h : clear_buffer fuel s = some (.ret u s1)) :
    s1.angular_resolution_ = s.angular_resolution_ := by
  unfold clear_buffer at h
  split at h
  · exact absurd h (by simp)
  · rename_i hl
    injection h with h
    injection h with _ h
    subst h
    have key := clear_buffer_loop_resolution fuel s _ _ hl
    exact key
  · exact absurd h (by simp)
  · exact absurd h (by simp)

theorem clear_buffer_no_throw (fuel : Nat) (s s1 : LaserScannerDriver) (e : Exn) :
    clear_buffer fuel s ≠ some (.throw e s1) := by
  intro h
  unfold clear_buffer at h
  split at h
  · exact absurd h (by simp)
  · exact absurd h (by simp)
  · rename_i hl
    exact clear_buffer_loop_no_throw _ _ _ _ hl
  · exact absurd h (by simp)

theorem after_call_resolution (fuel : Nat) (s s1 : LaserScannerDriver) (c : Call)
    (h : after_call fuel s c = some s1) :
    s1.angular_resolution_ = s.angular_resolution_ := by
  cases c with
  | push_scan vec =>
    simp only [after_call] at h
    split at h
    · rename_i hn
      injection h with h
      subst h
      exact (new_scan_resolution s vec).1 _ _ hn
    · rename_i hn
      injection h with h
      subst h
      exact (new_scan_resolution s vec).2 _ _ hn
    · exact absurd h (by simp)
  | pop_scan =>
    simp only [after_call] at h
    split at h
    · rename_i hn
      injection h with h
      subst h
      exact (get_scan_resolution s).1 _ _ hn
    · rename_i hn
      injection h with h
      subst h
      exact (get_scan_resolution s).2 _ _ hn
    · exact absurd h (by simp)
  | query angle =>
    simp only [after_call] at h
    split at h
    · rename_i hn
      injection h with h
      subst h
      rw [(get_distance_state s angle).1 _ _ hn]
    · rename_i hn
      injection h with h
      subst h
      rw [(get_distance_state s angle).2 _ _ hn]
    · exact absurd h (by simp)
  | clear =>
    simp only [after_call] at h
    split at h
    · rename_i hn
      injection h with h
      subst h
      exact clear_buffer_resolution _ _ _ _ hn
    · rename_i hn
      exact absurd hn (clear_buffer_no_throw _ _ _ _)
    · exact absurd h (by simp)
  | is_empty =>
    simp only [after_call] at h
    split at h
    · injection h with h
      rw [h]
    · exact absurd h (by simp)
  | is_full =>
    simp only [after_call] at h
    split at h
    · injection h with h
      rw [h]
    · exact absurd h (by simp)

theorem after_calls_resolution (fuel : Nat) : ∀ (cs : List Call) (s s1 : LaserScannerDriver),
    after_calls fuel s cs = some s1 → s1.angular_resolution_ = s.angular_resolution_ := by
  intro cs
  induction cs with
  | nil =>
    intro s s1 h
    simp only [after_calls] at h
    injection h with h
    rw [h]
  | cons c cs ih =>
    intro s s1 h
    simp only [after_calls] at h
    split at h
    · exact absurd h (by simp)
    · rename_i hc
      exact (ih _ _ h).trans (after_call_resolution _ _ _ _ hc)

theorem create_resolution (r : Dbl) (s0 : LaserScannerDriver) (h : create r = .ok s0) :
    s0.angular_resolution_ = r := by
  unfold create at h
  split at h
  · exact absurd h (by simp)
  · injection h with h
    subst h
    rfl

theorem copy_assign_resolution (fuel : Nat) (dst lsd c : LaserScannerDriver) (u : Unit)
    (h : copy_assign fuel dst lsd = some (.ret u c)) :
    c.angular_resolution_ = lsd.angular_resolution_ := by
  unfold copy_assign at h
  split at h
  · exact absurd h (by simp)
  · split at h
    · exact absurd h (by simp)
    · split at h
      · exact absurd h (by simp)
      · injection h with h
        injection h with _ h
        subst h
        rfl
      · exact absurd h (by simp)
      · exact absurd h (by simp)

theorem move_assign_resolution (fuel : Nat) (dst lsd c src : LaserScannerDriver) (u : Unit)
    (h : move_assign fuel dst lsd = some (.ret u (c, src))) :
    c.angular_resolution_ = lsd.angular_resolution_ ∧ src.angular_resolution_ = .val 0 := by
  unfold move_assign at h
  split at h
  · exact absurd h (by simp)
  · injection h with h
    injection h with _ h
    injection h with h1 h2
    subst h1 h2
    exact ⟨rfl, rfl⟩
  · exact absurd h (by simp)
  · exact absurd h (by simp)

theorem new_scan_fresh_one :
    new_scan ⟨some [none, none], .val 1, 0, 0⟩ [.val 1]
      = .ret () ⟨some [some (stored (scan_length 1) [.val 1]), none], .val 1, 0, 1⟩ := by
  have e1 := new_scan_ret valid_resolution_one none none 0 0 (Or.inl rfl) (Or.inl rfl)
    [.val 1] (valid_take (by simp [Dbl.valid, Dbl.isnan, Dbl.lt]) _)
  simp [after_store, next_circular_index_zero] at e1
  exact e1

theorem new_scan_fresh_negative :
    new_scan ⟨some [none, none], .val 1, 0, 0⟩ [.val (-1)]
      = .throw .invalid_argument
          ⟨some [some (List.replicate (scan_length 1) none), none], .val 1, 0, 0⟩ := by
  have hpush := new_scan_throw_head valid_resolution_one none none 0 0 (Or.inl rfl)
    (Or.inl rfl) [.val (-1)] (.val (-1)) rfl (by simp [Dbl.valid, Dbl.isnan, Dbl.lt])
  simp only [after_store] at hpush
  simp at hpush
  exact hpush

theorem new_scan_after_failed :
    new_scan ⟨some [some (List.replicate (scan_length 1) none), none], .val 1, 0, 0⟩ [.val 1]
      = .ret () ⟨some [some (stored (scan_length 1) [.val 1]), none], .val 1, 1, 1⟩ := by
  have e1 := new_scan_ret valid_resolution_one (some (List.replicate (scan_length 1) none))
    none 0 0 (Or.inl rfl) (Or.inl rfl)
    [.val 1] (valid_take (by simp [Dbl.valid, Dbl.isnan, Dbl.lt]) _)
  simp [after_store, next_circular_index_zero] at e1
  exact e1

theorem clear_buffer_loop_count (a b : Option Scan) (d : Dbl) (f k : Int)
    (hf : f = 0 ∨ f = 1) :
    ∃ n : Nat, n ≤ 2 ∧ n ≤ occupied ⟨some [a, b], d, f, k⟩ ∧
      (∃ s1, clear_buffer_loop n ⟨some [a, b], d, f, k⟩ = some (.ret () s1) ∧
        is_empty s1 = some true) ∧
      ∀ m, m < n → clear_buffer_loop m ⟨some [a, b], d, f, k⟩ = none := by
  have e0 : ∀ (y : Option Scan) (n : Nat), clear_buffer_loop n ⟨some [none, y], d, 0, k⟩
      = some (.ret () ⟨some [none, y], d, 0, k⟩) :=
    fun y n => clear_buffer_loop_empty _ _ (by simp [is_empty, slot_zero])
  have e1 : ∀ (x : Option Scan) (n : Nat), clear_buffer_loop n ⟨some [x, none], d, 1, k⟩
      = some (.ret () ⟨some [x, none], d, 1, k⟩) :=
    fun x n => clear_buffer_loop_empty _ _ (by simp [is_empty, slot_one])
  rcases hf with rfl | rfl
  · cases a with
    | none =>
      exact ⟨0, by omega, by omega, ⟨_, e0 b 0, by simp [is_empty, slot_zero]⟩,
        fun m hm => absurd hm (by omega)⟩
    | some x =>
      cases b with
      | none =>
        refine ⟨1, by omega, by simp [occupied], ⟨⟨some [none, none], d, 1, k⟩, ?_, ?_⟩, ?_⟩
        · simp [clear_buffer_loop, is_empty, slot_zero, slot_one, set_slot_zero,
            next_circular_index_zero]
        · simp [is_empty, slot_one]
        · intro m hm
          obtain rfl : m = 0 := by omega
          simp [clear_buffer_loop, is_empty, slot_zero]
      | some y =>
        refine ⟨2, by omega, by simp [occupied], ⟨⟨some [none, none], d, 0, k⟩, ?_, ?_⟩, ?_⟩
        · simp [clear_buffer_loop, is_empty, slot_zero, slot_one, set_slot_zero, set_slot_one,
            next_circular_index_zero, next_circular_index_one]
        · simp [is_empty, slot_zero]
        · intro m hm
          have : m = 0 ∨ m = 1 := by omega
          rcases this with rfl | rfl <;>
            simp [clear_buffer_loop, is_empty, slot_zero, slot_one, set_slot_zero,
              next_circular_index_zero]
  · cases b with
    | none =>
      exact ⟨0, by omega, by omega, ⟨_, e1 a 0, by simp [is_empty, slot_one]⟩,
        fun m hm => absurd hm (by omega)⟩
    | some y =>
      cases a with
      | none =>
        refine ⟨1, by omega, by simp [occupied], ⟨⟨some [none, none], d, 0, k⟩, ?_, ?_⟩, ?_⟩
        · simp [clear_buffer_loop, is_empty, slot_zero, slot_one, set_slot_one,
            next_circular_index_one]
        · simp [is_empty, slot_zero]
        · intro m hm
          obtain rfl : m = 0 := by omega
          simp [clear_buffer_loop, is_empty, slot_one]
      | some x =>
        refine ⟨2, by omega, by simp [occupied], ⟨⟨some [none, none], d, 1, k⟩, ?_, ?_⟩, ?_⟩
        · simp [clear_buffer_loop, is_empty, slot_zero, slot_one, set_slot_zero, set_slot_one,
            next_circular_index_zero, next_circular_index_one]
        · simp [is_empty, slot_one]
        · intro m hm
          have : m = 0 ∨ m = 1 := by omega
          rcases this with rfl | rfl <;>
            simp [clear_buffer_loop, is_empty, slot_zero, slot_one, set_slot_one,
              next_circular_index_one]

theorem clear_buffer_loop_stable (a b : Option Scan) (d : Dbl) (f k : Int)
    (hf : f = 0 ∨ f = 1) (fuel : Nat) (hfuel : 2 ≤ fuel) :
    clear_buffer_loop fuel ⟨some [a, b], d, f, k⟩
      = clear_buffer_loop 2 ⟨some [a, b], d, f, k⟩ := by
  obtain ⟨n, rfl⟩ : ∃ n, fuel = n + 2 := ⟨fuel - 2, by omega⟩
  have e0 : ∀ (y : Option Scan) (n : Nat), clear_buffer_loop n ⟨some [none, y], d, 0, k⟩
      = some (.ret () ⟨some [none, y], d, 0, k⟩) :=
    fun y n => clear_buffer_loop_empty _ _ (by simp [is_empty, slot_zero])
  have e1 : ∀ (x : Option Scan) (n : Nat), clear_buffer_loop n ⟨some [x, none], d, 1, k⟩
      = some (.ret () ⟨some [x, none], d, 1, k⟩) :=
    fun x n => clear_buffer_loop_empty _ _ (by simp [is_empty, slot_one])
  rcases hf with rfl | rfl <;> cases a <;> cases b <;>
    simp [clear_buffer_loop, is_empty, slot_zero, slot_one, set_slot_zero,
      set_slot_one, next_circular_index_zero, next_circular_index_one, e0, e1]

theorem clear_buffer_loop_step (a b : Option Scan) (d : Dbl) (f k : Int)
    (hf : f = 0 ∨ f = 1) (hne : is_empty ⟨some [a, b], d, f, k⟩ = some false) :
    ∃ s1, set_slot ⟨some [a, b], d, f, k⟩ f none = some s1 ∧
      occupied s1 + 1 = occupied ⟨some [a, b], d, f, k⟩ ∧
      ∀ fuel, clear_buffer_loop (fuel + 1) ⟨some [a, b], d, f, k⟩
        = clear_buffer_loop fuel { s1 with front_ := next_circular_index s1.front_ } := by
  rcases hf with rfl | rfl
  · cases a with
    | none => simp [is_empty, slot_zero] at hne
    | some x =>
      refine ⟨_, set_slot_zero _ _ _ _ _ _, ?_, ?_⟩
      · cases b <;> simp [occupied, List.filter]
      · intro fuel
        simp [clear_buffer_loop, is_empty, slot_zero, set_slot_zero]
  · cases b with
    | none => simp [is_empty, slot_one] at hne
    | some y =>
      refine ⟨_, set_slot_one _ _ _ _ _ _, ?_, ?_⟩
      · cases a <;> simp [occupied, List.filter]
      · intro fuel
        simp [clear_buffer_loop, is_empty, slot_one, set_slot_one]

/-! ## Rounding lemmas -/

theorem round_even_floor_le (x : ℚ) : ⌊x⌋ ≤ round_even x ∧ round_even x ≤ ⌊x⌋ + 1 := by
  unfold round_even
  split_ifs <;> omega

theorem round_even_error (x : ℚ) : |((round_even x : Int) : ℚ) - x| ≤ 1 / 2 := by
  have h1 : ((⌊x⌋ : Int) : ℚ) ≤ x := Int.floor_le x
  have h2 : x < ((⌊x⌋ : Int) : ℚ) + 1 := Int.lt_floor_add_one x
  unfold round_even
  rw [abs_le]
  split_ifs with a b c
  · constructor <;> linarith
  · push_cast
    constructor <;> linarith
  · push_neg at a b
    constructor <;> linarith
  · push_neg at a b
    push_cast
    constructor <;> linarith

theorem round_even_intCast (n : Int) : round_even (n : ℚ) = n := by
  unfold round_even
  rw [Int.floor_intCast]
  simp

theorem round_even_mono {x y : ℚ} (h : x ≤ y) : round_even x ≤ round_even y := by
  have hf : ⌊x⌋ ≤ ⌊y⌋ := Int.floor_le_floor h
  rcases lt_or_eq_of_le hf with hlt | heq
  · have := (round_even_floor_le x).2
    have := (round_even_floor_le y).1
    omega
  · unfold round_even
    rw [heq]
    have hxy : x - ((⌊y⌋ : Int) : ℚ) ≤ y - ((⌊y⌋ : Int) : ℚ) := by linarith
    split_ifs <;> first | omega | (exfalso; linarith)

theorem le_round_even {x : ℚ} {n : Int} (h : (n : ℚ) ≤ x) : n ≤ round_even x := by
  have := round_even_mono h
  rwa [round_even_intCast] at this

theorem round_even_le {x : ℚ} {n : Int} (h : x ≤ (n : ℚ)) : round_even x ≤ n := by
  have := round_even_mono h
  rwa [round_even_intCast] at this

theorem fl_error (x : ℚ) : |fl x - x| ≤ 2 ^ ulp_exponent x / 2 := by
  have hp : (0 : ℚ) < 2 ^ ulp_exponent x := zpow_pos (by norm_num) _
  have h := round_even_error (x / 2 ^ ulp_exponent x)
  have e : fl x - x
      = (((round_even (x / 2 ^ ulp_exponent x) : Int) : ℚ) - x / 2 ^ ulp_exponent x)
          * 2 ^ ulp_exponent x := by
    unfold fl
    field_simp
  rw [e, abs_mul, abs_of_pos hp]
  calc _ ≤ 1 / 2 * 2 ^ ulp_exponent x := mul_le_mul_of_nonneg_right h hp.le
    _ = 2 ^ ulp_exponent x / 2 := by ring

theorem ulp_exponent_le {x : ℚ} {k : Int} (hk : 1 ≤ k) (h : |x| < 2 ^ k) :
    ulp_exponent x ≤ k - 53 := by
  unfold ulp_exponent
  apply max_le
  · rcases eq_or_lt_of_le (abs_nonneg x) with h0 | hpos
    · rw [← h0, Int.log_zero_right]
      omega
    · have := (Int.lt_zpow_iff_log_lt (by norm_num : 1 < 2) hpos).mp
        (by simpa using h : |x| < ((2 : ℕ) : ℚ) ^ k)
      omega
  · omega

theorem fl_error_small {x : ℚ} (h : |x| < 2048) : |fl x - x| ≤ 1 / 2 ^ 43 := by
  have he : ulp_exponent x ≤ -42 := by
    have := ulp_exponent_le (k := 11) (by norm_num) (by norm_num; exact h)
    omega
  have h2 : (2 : ℚ) ^ ulp_exponent x ≤ 2 ^ (-42 : Int) :=
    zpow_le_zpow_right₀ (by norm_num) he
  have h3 : (2 : ℚ) ^ (-42 : Int) / 2 = 1 / 2 ^ 43 := by
    rw [zpow_neg]
    norm_num
  calc |fl x - x| ≤ 2 ^ ulp_exponent x / 2 := fl_error x
    _ ≤ 2 ^ (-42 : Int) / 2 := by
      apply div_le_div_of_nonneg_right h2
      norm_num
    _ = 1 / 2 ^ 43 := h3

theorem le_fl {x : ℚ} {n : Int} (he : ulp_exponent x ≤ 0) (h : (n : ℚ) ≤ x) :
    (n : ℚ) ≤ fl x := by
  obtain ⟨k, hk⟩ : ∃ k : Nat, ulp_exponent x = -(k : Int) := ⟨(-ulp_exponent x).toNat, by omega⟩
  have hp : (0 : ℚ) < 2 ^ k := pow_pos (by norm_num) _
  have hz : (2 : ℚ) ^ ulp_exponent x = 1 / 2 ^ k := by
    rw [hk, zpow_neg, zpow_natCast, one_div]
  have h1 : ((n * 2 ^ k : Int) : ℚ) ≤ x / 2 ^ ulp_exponent x := by
    rw [hz]
    push_cast
    rw [div_div_eq_mul_div, div_one]
    exact mul_le_mul_of_nonneg_right h hp.le
  have h2 := le_round_even h1
  have h3 : ((n * 2 ^ k : Int) : ℚ) ≤ ((round_even (x / 2 ^ ulp_exponent x) : Int) : ℚ) := by
    exact_mod_cast h2
  unfold fl
  rw [hz] at h3 ⊢
  rw [mul_one_div, le_div_iff₀ hp]
  push_cast at h3
  exact h3

theorem fl_le {x : ℚ} {n : Int} (he : ulp_exponent x ≤ 0) (h : x ≤ (n : ℚ)) :
    fl x ≤ (n : ℚ) := by
  obtain ⟨k, hk⟩ : ∃ k : Nat, ulp_exponent x = -(k : Int) := ⟨(-ulp_exponent x).toNat, by omega⟩
  have hp : (0 : ℚ) < 2 ^ k := pow_pos (by norm_num) _
  have hz : (2 : ℚ) ^ ulp_exponent x = 1 / 2 ^ k := by
    rw [hk, zpow_neg, zpow_natCast, one_div]
  have h1 : x / 2 ^ ulp_exponent x ≤ ((n * 2 ^ k : Int) : ℚ) := by
    rw [hz]
    push_cast
    rw [div_div_eq_mul_div, div_one]
    exact mul_le_mul_of_nonneg_right h hp.le
  have h2 := round_even_le h1
  have h3 : ((round_even (x / 2 ^ ulp_exponent x) : Int) : ℚ) ≤ ((n * 2 ^ k : Int) : ℚ) := by
    exact_mod_cast h2
  unfold fl
  rw [hz] at h3 ⊢
  rw [mul_one_div, div_le_iff₀ hp]
  push_cast at h3
  exact h3

theorem fl_intCast {n : Int} (he : ulp_exponent (n : ℚ) ≤ 0) : fl (n : ℚ) = n :=
  le_antisymm (fl_le he le_rfl) (le_fl he le_rfl)

theorem ulp_exponent_eq_of_floor_eq {x y : ℚ} (hx : 1 ≤ x) (hy : 1 ≤ y) (h : ⌊x⌋ = ⌊y⌋) :
    ulp_exponent x = ulp_exponent y := by
  have hx0 : 0 ≤ x := by linarith
  have hy0 : 0 ≤ y := by linarith
  have hn : ⌊x⌋₊ = ⌊y⌋₊ := by
    have h1 : ((⌊x⌋₊ : Nat) : Int) = ⌊x⌋ := Int.natCast_floor_eq_floor hx0
    have h2 : ((⌊y⌋₊ : Nat) : Int) = ⌊y⌋ := Int.natCast_floor_eq_floor hy0
    omega
  unfold ulp_exponent
  rw [abs_of_nonneg hx0, abs_of_nonneg hy0, Int.log_of_one_le_right _ hx,
    Int.log_of_one_le_right _ hy, hn]

theorem fl_mono {x y : ℚ} (hx : 1 ≤ x) (hxy : x ≤ y) (hex : ulp_exponent x ≤ 0)
    (hey : ulp_exponent y ≤ 0) : fl x ≤ fl y := by
  have hy : 1 ≤ y := le_trans hx hxy
  have hf : ⌊x⌋ ≤ ⌊y⌋ := Int.floor_le_floor hxy
  rcases lt_or_eq_of_le hf with hlt | heq
  · have h1 : fl x ≤ ((⌊x⌋ + 1 : Int) : ℚ) := by
      apply fl_le hex
      push_cast
      exact (Int.lt_floor_add_one x).le
    have h2 : ((⌊y⌋ : Int) : ℚ) ≤ fl y := le_fl hey (Int.floor_le y)
    have h3 : ((⌊x⌋ + 1 : Int) : ℚ) ≤ ((⌊y⌋ : Int) : ℚ) := by
      exact_mod_cast hlt
    linarith
  · have he := ulp_exponent_eq_of_floor_eq hx hy heq
    have hp : (0 : ℚ) < 2 ^ ulp_exponent y := zpow_pos (by norm_num) _
    unfold fl
    rw [he]
    apply mul_le_mul_of_nonneg_right _ hp.le
    have : round_even (x / 2 ^ ulp_exponent y) ≤ round_even (y / 2 ^ ulp_exponent y) :=
      round_even_mono (div_le_div_of_nonneg_right hxy hp.le)
    exact_mod_cast this

/-! ## The scan length in binary64 arithmetic -/

theorem ulp_exponent_eq {x : ℚ} {k : Int} (hk : -1022 ≤ k) (h1 : 2 ^ k ≤ |x|)
    (h2 : |x| < 2 ^ (k + 1)) : ulp_exponent x = k - 52 := by
  have hpos : 0 < |x| := lt_of_lt_of_le (zpow_pos (by norm_num) _) h1
  have a := (Int.zpow_le_iff_le_log (by norm_num : 1 < 2) hpos).mp
    (by simpa using h1 : ((2 : ℕ) : ℚ) ^ k ≤ |x|)
  have b := (Int.lt_zpow_iff_log_lt (by norm_num : 1 < 2) hpos).mp
    (by simpa using h2 : |x| < ((2 : ℕ) : ℚ) ^ (k + 1))
  unfold ulp_exponent
  omega

theorem quotient_bounds {r : ℚ} (hr : valid_resolution r) :
    (180 : ℚ) ≤ kMaxAngle / r ∧ kMaxAngle / r ≤ 1800 := by
  obtain ⟨h1, h2⟩ := hr
  have hpos : (0 : ℚ) < r := by linarith
  unfold kMaxAngle
  constructor
  · rw [le_div_iff₀ hpos]
    linarith
  · rw [div_le_iff₀ hpos]
    linarith

theorem ulp_exponent_small {x : ℚ} (h : |x| < 2048) : ulp_exponent x ≤ 0 := by
  have := ulp_exponent_le (k := 11) (by norm_num) (by norm_num; exact h)
  omega

theorem fl_quotient_bounds {r : ℚ} (hr : valid_resolution r) :
    (180 : ℚ) ≤ fl (kMaxAngle / r) ∧ fl (kMaxAngle / r) ≤ 1800 := by
  obtain ⟨h1, h2⟩ := quotient_bounds hr
  have he : ulp_exponent (kMaxAngle / r) ≤ 0 := by
    apply ulp_exponent_small
    rw [abs_of_nonneg (by linarith)]
    linarith
  constructor
  · have := le_fl (n := 180) he (by push_cast; exact h1)
    exact_mod_cast this
  · have := fl_le (n := 1800) he (by push_cast; exact h2)
    exact_mod_cast this

theorem floor_fl_bounds {r : ℚ} (hr : valid_resolution r) :
    180 ≤ ⌊fl (kMaxAngle / r)⌋ ∧ ⌊fl (kMaxAngle / r)⌋ ≤ 1800 := by
  obtain ⟨h1, h2⟩ := fl_quotient_bounds hr
  constructor
  · exact Int.le_floor.mpr (by push_cast; exact h1)
  · have : fl (kMaxAngle / r) < ((1801 : Int) : ℚ) := by
      push_cast
      linarith
    have := Int.floor_lt.mpr this
    omega

theorem evalute_max_b64 {r : ℚ} (hr : valid_resolution r) :
    evalute_measurement_index_b64 (.val kMaxAngle) (.val r) = some ⌊fl (kMaxAngle / r)⌋ := by
  have hb := floor_fl_bounds hr
  have hpos : ¬ r ≤ 0 := by
    have := hr.1
    intro h; linarith
  simp only [evalute_measurement_index_b64, hpos, if_false, le_refl, if_true, c_floor]
  apply static_cast_int_intCast
  · unfold INT_MIN; omega
  · unfold INT_MAX; omega

theorem scan_length_b64_cast {r : ℚ} (hr : valid_resolution r) :
    ((scan_length_b64 r : Nat) : Int) = ⌊fl (kMaxAngle / r)⌋ + 1 := by
  have hb := floor_fl_bounds hr
  unfold scan_length_b64
  omega

theorem measurements_b64_valid {r : ℚ} (hr : valid_resolution r) :
    measurements_b64 (.val r) = some ((scan_length_b64 r : Nat) : Int) := by
  have hb := floor_fl_bounds hr
  rw [measurements_b64, evalute_max_b64 hr, scan_length_b64_cast hr]
  simp only [int_add]
  rw [if_pos]
  unfold INT_MIN INT_MAX
  omega

theorem floor_fl_antitone {r1 r2 : ℚ} (h1 : valid_resolution r1) (h2 : valid_resolution r2)
    (h : r1 ≤ r2) : ⌊fl (kMaxAngle / r2)⌋ ≤ ⌊fl (kMaxAngle / r1)⌋ := by
  have hpos : (0 : ℚ) < r1 := by
    have := h1.1
    linarith
  have q1 := quotient_bounds h1
  have q2 := quotient_bounds h2
  have hq : kMaxAngle / r2 ≤ kMaxAngle / r1 := by
    apply div_le_div_of_nonneg_left _ hpos h
    unfold kMaxAngle
    norm_num
  apply Int.floor_le_floor
  apply fl_mono (by linarith) hq
  · apply ulp_exponent_small
    rw [abs_of_nonneg (by linarith)]
    linarith
  · apply ulp_exponent_small
    rw [abs_of_nonneg (by linarith)]
    linarith

theorem fl_tenth : fl (1 / 10) = 3602879701896397 / 36028797018963968 := by
  have he : ulp_exponent (1 / 10) = -56 := by
    have := ulp_exponent_eq (x := 1 / 10) (k := -4) (by norm_num)
      (by rw [abs_of_nonneg (by norm_num)]; norm_num [zpow_neg])
      (by rw [abs_of_nonneg (by norm_num)]; norm_num [zpow_neg])
    omega
  have hz : (2 : ℚ) ^ (-56 : Int) = 1 / 72057594037927936 := by
    rw [zpow_neg]
    norm_num
  have hf : ⌊(1 : ℚ) / 10 / (1 / 72057594037927936)⌋ = 7205759403792793 := by
    rw [Int.floor_eq_iff]
    norm_num
  unfold fl
  rw [he, hz]
  unfold round_even
  rw [hf]
  norm_num

theorem valid_resolution_fl_tenth : valid_resolution (fl (1 / 10)) := by
  rw [fl_tenth]
  unfold valid_resolution
  norm_num

theorem round_even_ge_of_near {y : ℚ} {n : Int} (h : (n : ℚ) - 1 / 2 < y) :
    n ≤ round_even y := by
  have h1 := (abs_le.mp (round_even_error y)).1
  have : ((n : Int) : ℚ) - 1 < ((round_even y : Int) : ℚ) := by linarith
  have : n - 1 < round_even y := by exact_mod_cast this
  omega

theorem fl_quotient_tenth : fl (kMaxAngle / fl (1 / 10)) = 1800 := by
  have hq := quotient_bounds valid_resolution_fl_tenth
  have hfl := (fl_quotient_bounds valid_resolution_fl_tenth).2
  apply le_antisymm hfl
  have he : ulp_exponent (kMaxAngle / fl (1 / 10)) = -42 := by
    have := ulp_exponent_eq (x := kMaxAngle / fl (1 / 10)) (k := 10) (by norm_num)
      (by rw [abs_of_nonneg (by linarith), fl_tenth]; unfold kMaxAngle; norm_num)
      (by rw [abs_of_nonneg (by linarith), fl_tenth]; unfold kMaxAngle; norm_num)
    omega
  have hz : (2 : ℚ) ^ (-42 : Int) = 1 / 4398046511104 := by
    rw [zpow_neg]
    norm_num
  have hr : (1800 * 4398046511104 : Int) ≤
      round_even (kMaxAngle / fl (1 / 10) / (1 / 4398046511104)) := by
    apply round_even_ge_of_near
    rw [fl_tenth]
    unfold kMaxAngle
    norm_num
  have hr2 : ((1800 * 4398046511104 : Int) : ℚ) ≤
      ((round_even (kMaxAngle / fl (1 / 10) / (1 / 4398046511104)) : Int) : ℚ) := by
    exact_mod_cast hr
  have hdef : fl (kMaxAngle / fl (1 / 10))
      = ((round_even (kMaxAngle / fl (1 / 10) / 2 ^ ulp_exponent (kMaxAngle / fl (1 / 10)))
          : Int) : ℚ) * 2 ^ ulp_exponent (kMaxAngle / fl (1 / 10)) := rfl
  rw [hdef, he, hz]
  push_cast at hr2
  linarith

theorem fl_one : fl 1 = 1 := by
  have h : ulp_exponent ((1 : Int) : ℚ) ≤ 0 := by
    apply ulp_exponent_small
    norm_num
  have := fl_intCast h
  simpa using this

theorem measurements_b64_one : measurements_b64 (.val 1) = some 181 := by
  have h : fl (kMaxAngle / 1) = 180 := by
    have h : ulp_exponent ((180 : Int) : ℚ) ≤ 0 := by
      apply ulp_exponent_small
      norm_num
    have := fl_intCast h
    unfold kMaxAngle
    simpa using this
  rw [measurements_b64_valid valid_resolution_one]
  unfold scan_length_b64
  rw [h]
  have : ⌊(180 : ℚ)⌋ = 180 := by
    rw [Int.floor_eq_iff]
    norm_num
  rw [this]
  rfl

theorem measurements_b64_tenth : measurements_b64 (.val (fl (1 / 10))) = some 1801 := by
  rw [measurements_b64_valid valid_resolution_fl_tenth]
  unfold scan_length_b64
  rw [fl_quotient_tenth]
  have : ⌊(1800 : ℚ)⌋ = 1800 := by
    rw [Int.floor_eq_iff]
    norm_num
  rw [this]
  rfl

theorem tenth_le_iff {q : ℚ} (hq : fl q = q) : 1 / 10 ≤ q ↔ fl (1 / 10) ≤ q := by
  constructor
  · intro h
    by_cases h8 : 1 / 8 ≤ q
    · rw [fl_tenth]
      linarith
    · push_neg at h8
      have hq0 : 0 ≤ q := by linarith
      have he : ulp_exponent q = -56 := by
        have := ulp_exponent_eq (x := q) (k := -4) (by norm_num)
          (by rw [abs_of_nonneg hq0]; norm_num [zpow_neg]; linarith)
          (by rw [abs_of_nonneg hq0]; norm_num [zpow_neg]; linarith)
        omega
      have hz : (2 : ℚ) ^ (-56 : Int) = 1 / 72057594037927936 := by
        rw [zpow_neg]
        norm_num
      have hdef : fl q = ((round_even (q / 2 ^ ulp_exponent q) : Int) : ℚ)
          * 2 ^ ulp_exponent q := rfl
      rw [he, hz] at hdef
      rw [hq] at hdef
      have hm : (7205759403792793 : Int) < round_even (q / (1 / 72057594037927936)) := by
        have : ((7205759403792793 : Int) : ℚ)
            < ((round_even (q / (1 / 72057594037927936)) : Int) : ℚ) := by
          push_cast
          linarith
        exact_mod_cast this
      have hm2 : ((7205759403792794 : Int) : ℚ)
          ≤ ((round_even (q / (1 / 72057594037927936)) : Int) : ℚ) := by
        exact_mod_cast (by omega : (7205759403792794 : Int)
          ≤ round_even (q / (1 / 72057594037927936)))
      rw [fl_tenth]
      push_cast at hm2
      linarith
  · intro h
    rw [fl_tenth] at h
    linarith

/-! ## The printer in binary64 arithmetic -/

theorem scan_length_b64_bounds {r : ℚ} (hr : valid_resolution r) :
    181 ≤ scan_length_b64 r ∧ scan_length_b64 r ≤ 1801 := by
  have hb := floor_fl_bounds hr
  unfold scan_length_b64
  omega

theorem index_mul_b64 {r : ℚ} (hr : valid_resolution r) (i : Nat)
    (hi : i < scan_length_b64 r) :
    evalute_measurement_index_b64 (.val (fl ((i : ℚ) * r))) (.val r) = some (i : Int) := by
  obtain ⟨hr1, hr2⟩ := hr
  have hvr : valid_resolution r := ⟨hr1, hr2⟩
  have hpos : 0 < r := by linarith
  have hb := floor_fl_bounds hvr
  have hL := scan_length_b64_cast hvr
  have hiM : (i : Int) ≤ ⌊fl (kMaxAngle / r)⌋ := by
    have : ((i : Nat) : Int) < ⌊fl (kMaxAngle / r)⌋ + 1 := by
      rw [← hL]
      exact_mod_cast hi
    omega
  have hi1800 : (i : ℚ) ≤ 1800 := by
    have : (i : Int) ≤ 1800 := by omega
    exact_mod_cast this
  have hi0 : (0 : ℚ) ≤ (i : ℚ) := by positivity
  have hprod0 : 0 ≤ (i : ℚ) * r := mul_nonneg hi0 hpos.le
  have hprod : (i : ℚ) * r ≤ 1800 := by nlinarith
  have hε : ((1 : ℚ) / 2 ^ 43) < 1 / 1000 := by norm_num
  have hε0 : (0 : ℚ) < 1 / 2 ^ 43 := by norm_num
  have ha := abs_le.mp (fl_error_small (x := (i : ℚ) * r)
    (by rw [abs_of_nonneg hprod0]; linarith))
  have hq := abs_le.mp (fl_error_small (x := kMaxAngle / r)
    (by
      have q := quotient_bounds hvr
      rw [abs_of_nonneg (by linarith)]
      linarith))
  have hnr : ¬ r ≤ 0 := not_le.mpr hpos
  simp only [evalute_measurement_index_b64, hnr, if_false]
  by_cases h180 : kMaxAngle ≤ fl ((i : ℚ) * r)
  · rw [if_pos h180]
    have hM : ⌊fl (kMaxAngle / r)⌋ = (i : Int) := by
      by_contra hne
      have hlt : (i : Int) + 1 ≤ ⌊fl (kMaxAngle / r)⌋ := by omega
      have h1 : (((i : Int) + 1 : Int) : ℚ) ≤ fl (kMaxAngle / r) := Int.le_floor.mp hlt
      push_cast at h1
      have h2 : (i : ℚ) + 1 - 1 / 2 ^ 43 ≤ kMaxAngle / r := by linarith [hq.2]
      have h3 : ((i : ℚ) + 1 - 1 / 2 ^ 43) * r ≤ kMaxAngle := (le_div_iff₀ hpos).mp h2
      unfold kMaxAngle at h3 h180
      nlinarith [ha.2]
    simp only [c_floor, hM]
    apply static_cast_int_intCast
    · unfold INT_MIN; omega
    · unfold INT_MAX; omega
  · rw [if_neg h180]
    push_neg at h180
    by_cases hpa : 0 < fl ((i : ℚ) * r)
    · rw [if_pos hpa]
      have hi1 : (1 : ℚ) ≤ (i : ℚ) := by
        by_contra hc
        push_neg at hc
        have : i = 0 := by
          have : (i : ℚ) < ((1 : Nat) : ℚ) := by simpa using hc
          have : i < 1 := by exact_mod_cast this
          omega
        subst this
        have hz : fl (((0 : Nat) : ℚ) * r) = 0 := by
          have : ((0 : Nat) : ℚ) * r = ((0 : Int) : ℚ) := by simp
          rw [this]
          have h := fl_intCast (n := 0) (by
            apply ulp_exponent_small
            norm_num)
          simpa using h
        rw [hz] at hpa
        exact lt_irrefl _ hpa
      have hquot0 : 0 ≤ fl ((i : ℚ) * r) / r := div_nonneg hpa.le hpos.le
      have hquot_hi : fl ((i : ℚ) * r) / r ≤ (i : ℚ) + 1 / 100 := by
        rw [div_le_iff₀ hpos]
        nlinarith [ha.2]
      have hquot_lo : (i : ℚ) - 1 / 100 ≤ fl ((i : ℚ) * r) / r := by
        rw [le_div_iff₀ hpos]
        nlinarith [ha.1]
      have hqq := abs_le.mp (fl_error_small (x := fl ((i : ℚ) * r) / r)
        (by rw [abs_of_nonneg hquot0]; linarith))
      have hlo : (i : ℚ) - 1 / 2 < fl (fl ((i : ℚ) * r) / r) := by linarith [hqq.1]
      have hhi : fl (fl ((i : ℚ) * r) / r) < (i : ℚ) + 1 / 2 := by linarith [hqq.2]
      have hnn : 0 ≤ fl (fl ((i : ℚ) * r) / r) := by linarith
      have hfloor : ⌊fl (fl ((i : ℚ) * r) / r) + 1 / 2⌋ = (i : Int) := by
        rw [Int.floor_eq_iff]
        push_cast
        constructor <;> linarith
      simp only [c_round, hnn, if_true, hfloor]
      apply static_cast_int_intCast
      · unfold INT_MIN; omega
      · unfold INT_MAX; omega
    · rw [if_neg hpa]
      push_neg at hpa
      have : i = 0 := by
        by_contra hc
        have h1 : (1 : ℚ) ≤ (i : ℚ) := by
          have : 1 ≤ i := by omega
          exact_mod_cast this
        have : (1 : ℚ) / 10 ≤ (i : ℚ) * r := by nlinarith
        linarith [ha.1]
      subst this
      rfl

theorem Inv_b64_shape {s : LaserScannerDriver} (h : Inv_b64 s) :
    ∃ a b r, s.buffer_ = some [a, b] ∧ s.angular_resolution_ = .val r ∧
      (s.front_ = 0 ∨ s.front_ = 1) ∧ (s.back_ = 0 ∨ s.back_ = 1) ∧
      (is_empty s = some false ↔ (a.isSome = true ∨ b.isSome = true)) ∧
      (is_full s = some true ↔ (a.isSome = true ∧ b.isSome = true)) ∧
      (∀ sc ∈ [a, b].reduceOption, full_scan (scan_length_b64 r) sc) ∧
      valid_resolution r := by
  unfold Inv_b64 at h
  split at h
  · rename_i a b r hb hr
    exact ⟨a, b, r, hb, hr, h⟩
  · exact h.elim

theorem Inv_b64_last_slot {s : LaserScannerDriver} (h : Inv_b64 s) (r : ℚ)
    (hres : s.angular_resolution_ = .val r) (hne : is_empty s = some false) :
    ∃ scan : List Dbl,
      slot s (previous_circular_index s.back_) = some (some (scan.map some)) ∧
      scan.length = scan_length_b64 r := by
  obtain ⟨a, b, r1, hb, hr1, hf, hk, hem, hful, hsc, hvr⟩ := Inv_b64_shape h
  obtain ⟨buf, res, f, k⟩ := s
  simp only at hb hr1 hres hf hk
  subst hb
  rw [hres] at hr1
  injection hr1 with hr1
  subst hr1
  subst hres
  rcases hk with rfl | rfl
  · cases b with
    | none =>
      rcases hf with rfl | rfl <;> cases a <;>
        simp [is_empty, is_full, slot_zero, slot_one] at hem hful hne
    | some arr =>
      obtain ⟨l, rfl, hl⟩ := full_scan_eq_map (hsc arr (by cases a <;> simp [List.reduceOption]))
      exact ⟨l, by simp [slot_one, previous_circular_index_zero], hl⟩
  · cases a with
    | none =>
      rcases hf with rfl | rfl <;> cases b <;>
        simp [is_empty, is_full, slot_zero, slot_one] at hem hful hne
    | some arr =>
      obtain ⟨l, rfl, hl⟩ := full_scan_eq_map (hsc arr (by cases b <;> simp [List.reduceOption]))
      exact ⟨l, by simp [slot_zero, previous_circular_index_one], hl⟩

theorem get_distance_b64_last (s : LaserScannerDriver) (r x : ℚ) (scan : List Dbl) (i : Nat)
    (hres : s.angular_resolution_ = .val r) (hne : is_empty s = some false)
    (hslot : slot s (previous_circular_index s.back_) = some (some (scan.map some)))
    (hidx : evalute_measurement_index_b64 (.val x) (.val r) = some (i : Int))
    (hi : i < scan.length) :
    get_distance_b64 s (.val x) = .ret (scan.getD i (.val 0)) s := by
  have hread : readAt (scan.map some) (i : Int) = some (some (scan.getD i (.val 0))) := by
    unfold readAt
    rw [if_pos (by omega), Int.toNat_ofNat, List.getElem?_map, List.getElem?_eq_getElem hi]
    simp [List.getD_eq_getElem?_getD, List.getElem?_eq_getElem hi]
  unfold get_distance_b64
  simp only [Dbl.isnan, Bool.false_eq_true, if_false, hne, hres, hidx, hslot, hread]

theorem render_loop_b64_spec (s : LaserScannerDriver) (r : ℚ) (scan : List Dbl)
    (hvr : valid_resolution r)
    (hres : s.angular_resolution_ = .val r) (hne : is_empty s = some false)
    (hslot : slot s (previous_circular_index s.back_) = some (some (scan.map some)))
    (hlen : scan.length = scan_length_b64 r) :
    ∀ (n i : Nat) (rows : List (Dbl × Dbl)), i + n ≤ scan_length_b64 r →
      render_loop_b64 s n (i : Int) rows
        = .ret (rows ++ (List.range' i n).map
            (fun (j : Nat) => (Dbl.val (fl ((j : ℚ) * r)), scan.getD j (Dbl.val 0)))) s := by
  intro n
  induction n with
  | zero => intro i rows _; simp [render_loop_b64]
  | succ n ih =>
    intro i rows h
    have hmul : int_mul_b64 (i : Int) (angular_resolution s)
        = Dbl.val (fl ((i : ℚ) * r)) := by
      unfold angular_resolution
      rw [hres]
      simp [int_mul_b64]
    have hd := get_distance_b64_last s r (fl ((i : ℚ) * r)) scan i hres hne hslot
      (index_mul_b64 hvr i (by omega)) (by omega)
    rw [render_loop_b64, hmul, hd]
    simp only
    have hcast : ((i : Nat) : Int) + 1 = ((i + 1 : Nat) : Int) := by push_cast; rfl
    rw [hcast, ih (i + 1) _ (by omega), List.range'_succ, List.map_cons, List.append_assoc]
    rfl

theorem full_scan_stored_length (L : Nat) (v : List Dbl) : full_scan L (stored L v) := by
  refine ⟨stored_length _ _, ?_⟩
  intro c hc
  unfold stored at hc
  rw [List.mem_map] at hc
  obtain ⟨x, _, rfl⟩ := hc
  rfl

theorem Inv_b64_one_scan {r : ℚ} (hr : valid_resolution r) (v : List Dbl) :
    Inv_b64 ⟨some [some (stored (scan_length_b64 r) v), none], .val r, 0, 1⟩ := by
  simp [Inv_b64, is_empty, is_full, slot_zero, slot_one, List.reduceOption, hr,
    full_scan_stored_length]

theorem is_empty_one_scan_b64 (r : ℚ) (v : List Dbl) :
    is_empty ⟨some [some (stored (scan_length_b64 r) v), none], .val r, 0, 1⟩
      = some false := by
  simp [is_empty, slot_zero]

/-! ## The buffer after a failed push -/

theorem round_trip_front_eq_back (r : ℚ) (hr : valid_resolution r) (v : List Dbl)
    (hv : ∀ x ∈ v, x.valid = true) :
    (∃ s0, create (.val r) = .ok s0 ∧ round_trip r v s0) ∧
    (∀ e : LaserScannerDriver, e.buffer_ = some [none, none] →
      e.angular_resolution_ = .val r → (e.front_ = 0 ∨ e.front_ = 1) →
      e.back_ = e.front_ → round_trip r v e) := by
  have hlen : ((pad_trunc (scan_length r) v).length : Int) = ⌊(180 : ℚ) / r⌋ + 1 := by
    rw [pad_trunc_length, scan_length_cast hr]
    rfl
  have hlo : ∀ i, i < min v.length (pad_trunc (scan_length r) v).length →
      (pad_trunc (scan_length r) v)[i]? = v[i]? := by
    intro i hi
    rw [pad_trunc_length] at hi
    rw [pad_trunc_get, if_pos hi]
  have hhi : ∀ i, v.length ≤ i → i < (pad_trunc (scan_length r) v).length →
      (pad_trunc (scan_length r) v)[i]? = some (Dbl.val 0) := by
    intro i h1 h2
    rw [pad_trunc_length] at h2
    rw [pad_trunc_get, if_neg (by omega), if_pos h2]
  have hgen : ∀ e : LaserScannerDriver, e.buffer_ = some [none, none] →
      e.angular_resolution_ = .val r → (e.front_ = 0 ∨ e.front_ = 1) →
      e.back_ = e.front_ → round_trip r v e := by
    intro e hbuf hres hfront hback
    obtain ⟨buf, res, f, k⟩ := e
    simp only at hbuf hres hfront hback
    subst hbuf hres hback
    rcases hfront with rfl | rfl
    · have e1 := new_scan_ret hr none none 0 0 (Or.inl rfl) (Or.inl rfl) v (valid_take hv _)
      simp [after_store, next_circular_index_zero] at e1
      refine ⟨_, ⟨some [none, none], .val r, 1, 1⟩, pad_trunc (scan_length r) v, e1, ?_,
        hlen, hlo, hhi, rfl, ?_, ?_, rfl, rfl⟩
      · rw [stored_eq]
        exact get_scan_front0 hr _ (pad_trunc_length _ _) _ _
      · simp [is_empty, slot_one]
      · simp [is_full, slot_one]
    · have e1 := new_scan_ret hr none none 1 1 (Or.inr rfl) (Or.inr rfl) v (valid_take hv _)
      simp [after_store, next_circular_index_one] at e1
      refine ⟨_, ⟨some [none, none], .val r, 0, 0⟩, pad_trunc (scan_length r) v, e1, ?_,
        hlen, hlo, hhi, rfl, ?_, ?_, rfl, rfl⟩
      · rw [stored_eq]
        exact get_scan_front1 hr _ (pad_trunc_length _ _) _ _
      · simp [is_empty, slot_zero]
      · simp [is_full, slot_zero]
  exact ⟨⟨_, create_valid hr, hgen _ rfl rfl (Or.inl rfl) rfl⟩, hgen⟩

theorem valid_singleton (q : ℚ) (hq : 0 ≤ q) (L : Nat) :
    ∀ x ∈ [Dbl.val q].take L, x.valid = true := by
  apply valid_take
  intro x hx
  rw [List.mem_singleton] at hx
  subst hx
  simp [Dbl.valid, Dbl.isnan, Dbl.lt, hq]

theorem new_scan_second :
    new_scan ⟨some [some (stored (scan_length 1) [.val 1]), none], .val 1, 1, 1⟩ [.val 2]
      = .ret () ⟨some [some (stored (scan_length 1) [.val 1]),
          some (stored (scan_length 1) [.val 2])], .val 1, 1, 0⟩ := by
  have e1 := new_scan_ret valid_resolution_one (some (stored (scan_length 1) [.val 1]))
    none 1 1 (Or.inr rfl) (Or.inr rfl) [.val 2] (valid_singleton 2 (by norm_num) _)
  simp [after_store, next_circular_index_one] at e1
  exact e1

theorem get_scan_newest_first :
    get_scan ⟨some [some (stored (scan_length 1) [.val 1]),
        some (stored (scan_length 1) [.val 2])], .val 1, 1, 0⟩
      = .ret (pad_trunc (scan_length 1) [.val 2])
          ⟨some [some (stored (scan_length 1) [.val 1]), none], .val 1, 0, 0⟩ :=
  get_scan_front1 valid_resolution_one (pad_trunc (scan_length 1) [.val 2])
    (pad_trunc_length _ _) _ _

theorem get_scan_drains :
    get_scan ⟨some [some (stored (scan_length 1) [.val 1]), none], .val 1, 0, 0⟩
      = .ret (pad_trunc (scan_length 1) [.val 1]) ⟨some [none, none], .val 1, 1, 0⟩ :=
  get_scan_front0 valid_resolution_one (pad_trunc (scan_length 1) [.val 1])
    (pad_trunc_length _ _) _ _

theorem new_scan_drained :
    new_scan ⟨some [none, none], .val 1, 1, 0⟩ [.val 3]
      = .ret () ⟨some [some (stored (scan_length 1) [.val 3]), none], .val 1, 1, 1⟩ := by
  have e1 := new_scan_ret valid_resolution_one none none 1 0 (Or.inr rfl) (Or.inl rfl)
    [.val 3] (valid_singleton 3 (by norm_num) _)
  simp [after_store, next_circular_index_zero] at e1
  exact e1

theorem new_scan_fresh_three :
    new_scan ⟨some [none, none], .val 1, 0, 0⟩ [.val 3]
      = .ret () ⟨some [some (stored (scan_length 1) [.val 3]), none], .val 1, 0, 1⟩ := by
  have e1 := new_scan_ret valid_resolution_one none none 0 0 (Or.inl rfl) (Or.inl rfl)
    [.val 3] (valid_singleton 3 (by norm_num) _)
  simp [after_store, next_circular_index_zero] at e1
  exact e1

theorem Inv_drained : Inv ⟨some [none, none], .val 1, 1, 0⟩ := by
  simp [Inv, is_empty, is_full, slot_zero, slot_one, valid_resolution_one]

/-! ## Claims -/

/-- C3 (code defect, evaluated at the failing input). On the buffer created with
resolution 1: `new_scan [-1]` throws `invalid_argument`, `new_scan [1]` and
`new_scan [2]` return, and two `get_scan` calls return the scans [2] and [1] (padded to L
cells), leaving both slots null with `front_ = 1` and `back_ = 0`. On this empty buffer
`new_scan [3]` returns and stores the scan in slot `back_ = 0`, but the `get_scan` that
follows immediately throws `EmptyBufferException`, because slot `front_ = 1` is null: the
round trip fails. On the freshly created buffer the same round trip succeeds. -/
theorem C3_round_trip_fails_after_failed_push :
    ∃ s0 t1 t2 t3 t4 e s1 : LaserScannerDriver,
      create (.val 1) = .ok s0 ∧
      new_scan s0 [.val (-1)] = .throw .invalid_argument t1 ∧
      new_scan t1 [.val 1] = .ret () t2 ∧
      new_scan t2 [.val 2] = .ret () t3 ∧
      get_scan t3 = .ret (pad_trunc (scan_length 1) [.val 2]) t4 ∧
      get_scan t4 = .ret (pad_trunc (scan_length 1) [.val 1]) e ∧
      e = ⟨some [none, none], .val 1, 1, 0⟩ ∧
      is_empty e = some true ∧ is_full e = some false ∧ occupied e = 0 ∧ Inv e ∧
      new_scan e [.val 3] = .ret () s1 ∧
      s1 = ⟨some [some (stored (scan_length 1) [.val 3]), none], .val 1, 1, 1⟩ ∧
      get_scan s1 = .throw .EmptyBufferException s1 ∧
      ¬ round_trip 1 [.val 3] e ∧
      round_trip 1 [.val 3] s0 := by
  have hthrow : get_scan ⟨some [some (stored (scan_length 1) [.val 3]), none], .val 1, 1, 1⟩
      = .throw .EmptyBufferException
          ⟨some [some (stored (scan_length 1) [.val 3]), none], .val 1, 1, 1⟩ := by
    simp [get_scan, is_empty, slot_one]
  refine ⟨_, _, _, _, _, _, _, create_valid valid_resolution_one, new_scan_fresh_negative,
    new_scan_after_failed, new_scan_second, get_scan_newest_first, get_scan_drains, rfl,
    ?_, ?_, ?_, Inv_drained, new_scan_drained, rfl, hthrow, ?_, ?_⟩
  · simp [is_empty, slot_one]
  · simp [is_full, slot_zero]
  · simp [occupied]
  · rintro ⟨s1, s2, out, h1, h2, _⟩
    rw [new_scan_drained] at h1
    injection h1 with _ h1
    subst h1
    rw [hthrow] at h2
    exact absurd h2 (by simp)
  · exact (round_trip_front_eq_back 1 valid_resolution_one [.val 3]
      (by simp [Dbl.valid, Dbl.isnan, Dbl.lt])).2 _ rfl rfl (Or.inl rfl) rfl

/-- C4 counterexample: at angle 180 and resolution 1e-8 the reference value
floor(180 / resolution) = 18000000000 is not an `int`, and the conversion in
`evalute_measurement_index` has no defined result. -/
theorem C4_counterexample :
    measurement_index_ref 180 (1 / 100000000) = 18000000000 ∧
    evalute_measurement_index (.val 180) (.val (1 / 100000000)) = none ∧
    evalute_measurement_index (.val 180) (.val (1 / 100000000))
      ≠ some (measurement_index_ref 180 (1 / 100000000)) := by
  have h : evalute_measurement_index (.val 180) (.val (1 / 100000000)) = none := by
    have e : ((180 : ℚ) / (1 / 100000000)) = ((18000000000 : Int) : ℚ) := by norm_num
    simp only [evalute_measurement_index, kMaxAngle, c_floor, static_cast_int]
    rw [e]
    norm_num [INT_MIN, INT_MAX]
  refine ⟨?_, h, ?_⟩
  · have e : ((180 : ℚ) / (1 / 100000000)) = ((18000000000 : Int) : ℚ) := by norm_num
    simp only [measurement_index_ref]
    rw [e]
    norm_num
  · rw [h]
    simp

/-- C4 (amended). For every non-NaN angle and resolution whose reference value fits in an
`int`, `evalute_measurement_index` returns the piecewise reference value: -1 when
resolution ≤ 0; otherwise floor(180 / resolution) when angle ≥ 180; otherwise
round(angle / resolution) with ties away from zero when 0 < angle < 180; otherwise 0.
The reference value fits whenever resolution ≤ 0 or 180 / resolution ≤ INT_MAX, in
particular for every resolution ≥ 0.1. -/
theorem C4_measurement_index_piecewise (angle resolution : ℚ) :
    ((INT_MIN ≤ measurement_index_ref angle resolution ∧
        measurement_index_ref angle resolution ≤ INT_MAX) →
      evalute_measurement_index (.val angle) (.val resolution)
        = some (measurement_index_ref angle resolution)) ∧
    ((resolution ≤ 0 ∨ 180 / resolution ≤ (INT_MAX : ℚ)) →
      (INT_MIN ≤ measurement_index_ref angle resolution ∧
        measurement_index_ref angle resolution ≤ INT_MAX)) ∧
    (1 / 10 ≤ resolution → 180 / resolution ≤ (INT_MAX : ℚ)) :=
  ⟨evalute_eq_ref angle resolution, ref_fits angle resolution, fits_of_tenth resolution⟩

/-- C4 witness: angle 1/4 at resolution 1/2 is a tie, rounded away from zero to 1. -/
theorem C4_measurement_index_piecewise_witness :
    measurement_index_ref (1 / 4) (1 / 2) = 1 ∧
    (INT_MIN ≤ measurement_index_ref (1 / 4) (1 / 2) ∧
      measurement_index_ref (1 / 4) (1 / 2) ≤ INT_MAX) ∧
    evalute_measurement_index (.val (1 / 4)) (.val (1 / 2))
      = some (measurement_index_ref (1 / 4) (1 / 2)) :=
  ⟨ref_quarter_half,
   (C4_measurement_index_piecewise (1 / 4) (1 / 2)).2.1
     (Or.inr ((C4_measurement_index_piecewise (1 / 4) (1 / 2)).2.2 (by norm_num))),
   (C4_measurement_index_piecewise (1 / 4) (1 / 2)).1
     ((C4_measurement_index_piecewise (1 / 4) (1 / 2)).2.1
       (Or.inr ((C4_measurement_index_piecewise (1 / 4) (1 / 2)).2.2 (by norm_num))))⟩

/-- C5 (code defect, evaluated at the failing input). At resolution 0.87 a scan has
L = 207 cells (last index 206), yet angle 179.9 is mapped to index 207 = L; `get_distance`
then reads one cell past the end of the most recent scan, which is undefined behaviour.
The claim `0 ≤ measurement_index ≤ L - 1` for every valid resolution fails here. -/
theorem C5_index_past_the_end :
    valid_resolution (87 / 100) ∧
    scan_length (87 / 100) = 207 ∧
    evalute_measurement_index (.val 180) (.val (87 / 100)) = some 206 ∧
    evalute_measurement_index (.val (1799 / 10)) (.val (87 / 100)) = some 207 ∧
    ∃ s0 s1 : LaserScannerDriver,
      create (.val (87 / 100)) = .ok s0 ∧
      new_scan s0 [.val 1] = .ret () s1 ∧
      get_distance s1 (.val (1799 / 10)) = .undefined := by
  refine ⟨valid_resolution_087, scan_length_087, index_180_087, index_1799_087, ?_⟩
  have e1 := new_scan_ret valid_resolution_087 none none 0 0 (Or.inl rfl) (Or.inl rfl)
    [.val 1] (valid_take (by simp [Dbl.valid, Dbl.isnan, Dbl.lt]) _)
  simp [after_store, next_circular_index_zero] at e1
  refine ⟨_, _, create_valid valid_resolution_087, e1, ?_⟩
  have hread : readAt (stored (scan_length (87 / 100)) [Dbl.val 1]) 207 = none := by
    apply readAt_of_length_le
    rw [stored_length, scan_length_087]
    decide
  simp [get_distance, Dbl.isnan, is_empty, slot_zero, previous_circular_index_one,
    index_1799_087, hread]

/-- C6 (code defect, evaluated at the failing input). At resolution 0.87 the angles
179.9 ≤ 180 both lie in [0, 180], yet `evalute_measurement_index` maps 179.9 to 207 and
180 to 206: the index is not monotone in the angle. -/
theorem C6_index_not_monotone :
    valid_resolution (87 / 100) ∧
    (0 : ℚ) ≤ 1799 / 10 ∧ (1799 / 10 : ℚ) ≤ 180 ∧
    evalute_measurement_index (.val (1799 / 10)) (.val (87 / 100)) = some 207 ∧
    evalute_measurement_index (.val 180) (.val (87 / 100)) = some 206 ∧
    ¬ ((207 : Int) ≤ 206) := by
  refine ⟨valid_resolution_087, by norm_num, by norm_num, index_1799_087, index_180_087, ?_⟩
  decide

/-- C7 (code defect, evaluated at the failing input). On the buffer created with
resolution 1: `new_scan [-1]` throws `invalid_argument`, `new_scan [1]` and
`new_scan [2]` return, and two `get_scan` calls return, leaving an empty buffer (both
slots null, `front_ = 1`, `back_ = 0`) that satisfies every structural invariant of the
spec. On it `new_scan [3]` returns, yet `get_distance 0` then throws
`EmptyBufferException` instead of returning 3. On the freshly created buffer the same
push and query return 3 and leave the state unchanged. -/
theorem C7_query_fails_after_failed_push :
    ∃ s0 t1 t2 t3 t4 e s1 u : LaserScannerDriver,
      create (.val 1) = .ok s0 ∧
      new_scan s0 [.val (-1)] = .throw .invalid_argument t1 ∧
      new_scan t1 [.val 1] = .ret () t2 ∧
      new_scan t2 [.val 2] = .ret () t3 ∧
      get_scan t3 = .ret (pad_trunc (scan_length 1) [.val 2]) t4 ∧
      get_scan t4 = .ret (pad_trunc (scan_length 1) [.val 1]) e ∧
      e = ⟨some [none, none], .val 1, 1, 0⟩ ∧
      Inv e ∧
      new_scan e [.val 3] = .ret () s1 ∧
      s1 = ⟨some [some (stored (scan_length 1) [.val 3]), none], .val 1, 1, 1⟩ ∧
      is_empty s1 = some true ∧
      get_distance s1 (.val 0) = .throw .EmptyBufferException s1 ∧
      new_scan s0 [.val 3] = .ret () u ∧
      get_distance u (.val 0) = .ret (.val 3) u := by
  have hL : 0 < scan_length 1 := by
    rw [scan_length_one]
    decide
  have hread := readAt_stored_zero (scan_length 1) hL [.val 3] (.val 3) rfl
  have hzero := evalute_zero (r := 1) (by norm_num)
  refine ⟨_, _, _, _, _, _, _, _, create_valid valid_resolution_one, new_scan_fresh_negative,
    new_scan_after_failed, new_scan_second, get_scan_newest_first, get_scan_drains, rfl,
    Inv_drained, new_scan_drained, rfl, ?_, ?_, new_scan_fresh_three, ?_⟩
  · simp [is_empty, slot_one]
  · simp [get_distance, Dbl.isnan, is_empty, slot_one]
  · simp [get_distance, Dbl.isnan, is_empty, slot_zero, previous_circular_index_one, hzero,
      hread]

/-- C9 (code defect, evaluated at the failing input). On a freshly created buffer of
resolution 1, `new_scan [-1.0]` throws `invalid_argument` and leaves a state different
from the one before the call: slot `back_` now points to the newly allocated array (none
of its 181 cells written), so `is_empty` turned from true to false and `is_full` from
false to true, and the structural invariants that held before the call no longer hold.
The failed push is not atomic. -/
theorem C9_failed_push_changes_state :
    ∃ s0 s1 : LaserScannerDriver,
      create (.val 1) = .ok s0 ∧
      new_scan s0 [.val (-1)] = .throw .invalid_argument s1 ∧
      s1 = ⟨some [some (List.replicate (scan_length 1) none), none], .val 1, 0, 0⟩ ∧
      scan_length 1 = 181 ∧
      s1 ≠ s0 ∧
      is_empty s0 = some true ∧ is_empty s1 = some false ∧
      is_full s0 = some false ∧ is_full s1 = some true ∧
      Inv s0 ∧ ¬ Inv s1 := by
  have hpush := new_scan_throw_head valid_resolution_one none none 0 0 (Or.inl rfl)
    (Or.inl rfl) [.val (-1)] (.val (-1)) rfl (by simp [Dbl.valid, Dbl.isnan, Dbl.lt])
  simp only [after_store] at hpush
  simp at hpush
  refine ⟨_, _, create_valid valid_resolution_one, hpush, rfl, scan_length_one, ?_, ?_, ?_,
    ?_, ?_, Inv_fresh valid_resolution_one, ?_⟩
  · simp
  · simp [is_empty, slot_zero]
  · simp [is_empty, slot_zero]
  · simp [is_full, slot_zero]
  · simp [is_full, slot_zero]
  · simp [Inv, is_empty, is_full, slot_zero]

/-- C11 (empty-buffer errors). For every buffer satisfying the invariants, `get_scan`
throws `EmptyBufferException` if and only if `is_empty()` holds, and for every non-NaN
angle `get_distance` throws `EmptyBufferException` if and only if `is_empty()` holds; a
failing call leaves the buffer state unchanged; both calls fail on a freshly created
buffer and on the buffer just cleared. -/
theorem C11_empty_buffer_errors (s : LaserScannerDriver) (hinv : Inv s) :
    ((∃ s1, get_scan s = .throw .EmptyBufferException s1) ↔ is_empty s = some true) ∧
    (∀ angle : ℚ, (∃ s1, get_distance s (.val angle) = .throw .EmptyBufferException s1)
      ↔ is_empty s = some true) ∧
    (∀ e s1, get_scan s = .throw e s1 → s1 = s) ∧
    (∀ angle e s1, get_distance s angle = .throw e s1 → s1 = s) ∧
    (∀ r : ℚ, valid_resolution r → ∃ s0, create (.val r) = .ok s0 ∧
      get_scan s0 = .throw .EmptyBufferException s0 ∧
      ∀ angle : ℚ, get_distance s0 (.val angle) = .throw .EmptyBufferException s0) ∧
    (∀ fuel, 2 ≤ fuel → ∃ c, clear_buffer fuel s = some (.ret () c) ∧
      get_scan c = .throw .EmptyBufferException c ∧
      ∀ angle : ℚ, get_distance c (.val angle) = .throw .EmptyBufferException c) := by
  refine ⟨get_scan_throw_iff s, get_distance_throw_iff s,
    fun e s1 h => (get_scan_throw_state s e s1 h).1,
    fun angle e s1 h => (get_distance_state s angle).2 e s1 h, ?_, ?_⟩
  · intro r hr
    exact ⟨_, create_valid hr, get_scan_empty_state _ 0 (Or.inl rfl) 0,
      get_distance_empty_state _ 0 (Or.inl rfl) 0⟩
  · intro fuel hfuel
    exact ⟨_, Inv_clear hinv fuel hfuel, get_scan_empty_state _ 0 (Or.inl rfl) 0,
      get_distance_empty_state _ 0 (Or.inl rfl) 0⟩

/-- C11 witness: the fresh buffer of resolution 1. -/
theorem C11_empty_buffer_errors_witness :
    Inv ⟨some [none, none], .val 1, 0, 0⟩ ∧
    ((∃ s1, get_scan ⟨some [none, none], .val 1, 0, 0⟩ = .throw .EmptyBufferException s1)
      ↔ is_empty ⟨some [none, none], .val 1, 0, 0⟩ = some true) :=
  ⟨Inv_fresh valid_resolution_one,
   (C11_empty_buffer_errors ⟨some [none, none], .val 1, 0, 0⟩
     (Inv_fresh valid_resolution_one)).1⟩

/-- C12 (create validates the resolution). For every non-NaN resolution r, `create r`
succeeds if and only if 0.1 ≤ r ≤ 1 (both endpoints accepted) and throws `out_of_range`
otherwise (for instance r = 1.5 and r = -0.2), producing no buffer; on success the buffer
has resolution r, both slots empty, `front_ = back_ = 0`, `is_empty()` true and
`is_full()` false. -/
theorem C12_create_validates (r : ℚ) :
    ((∃ s, create (.val r) = .ok s) ↔ (1 / 10 ≤ r ∧ r ≤ 1)) ∧
    (¬ (1 / 10 ≤ r ∧ r ≤ 1) → create (.val r) = .error .out_of_range) ∧
    (∀ s, create (.val r) = .ok s →
      s.angular_resolution_ = .val r ∧ angular_resolution s = .val r ∧
      s.buffer_ = some [none, none] ∧ s.front_ = 0 ∧ s.back_ = 0 ∧
      is_empty s = some true ∧ is_full s = some false) ∧
    create (.val (1 / 10)) = .ok ⟨some [none, none], .val (1 / 10), 0, 0⟩ ∧
    create (.val 1) = .ok ⟨some [none, none], .val 1, 0, 0⟩ ∧
    create (.val (3 / 2)) = .error .out_of_range ∧
    create (.val (-1 / 5)) = .error .out_of_range := by
  have hbad : ∀ q : ℚ, ¬ (1 / 10 ≤ q ∧ q ≤ 1) → create (.val q) = .error .out_of_range := by
    intro q hq
    have : q < 1 / 10 ∨ 1 < q := by
      by_contra hc
      push_neg at hc
      exact hq hc
    rcases this with h | h
    · have hd : decide (q < 1 / 10) = true := decide_eq_true h
      simp only [create, Dbl.isnan, Dbl.lt, Dbl.gt, hd, Bool.false_or, Bool.true_or, if_true]
    · have hd : decide (1 < q) = true := decide_eq_true h
      simp only [create, Dbl.isnan, Dbl.lt, Dbl.gt, hd, Bool.or_true, if_true]
  refine ⟨?_, hbad r, ?_, create_valid (by norm_num [valid_resolution]),
    create_valid valid_resolution_one, hbad _ (by norm_num), hbad _ (by norm_num)⟩
  · constructor
    · rintro ⟨s, hs⟩
      by_contra hc
      rw [hbad r hc] at hs
      exact absurd hs (by simp)
    · intro h
      exact ⟨_, create_valid h⟩
  · intro s hs
    by_cases hv : 1 / 10 ≤ r ∧ r ≤ 1
    · rw [create_valid hv] at hs
      injection hs with hs
      subst hs
      refine ⟨rfl, rfl, rfl, rfl, rfl, ?_, ?_⟩
      · simp [is_empty, slot_zero]
      · simp [is_full, slot_zero]
    · rw [hbad r hv] at hs
      exact absurd hs (by simp)

/-- C12 witness: the resolution 1.5 lies outside [0.1, 1] and is rejected. -/
theorem C12_create_validates_witness :
    ¬ ((1 : ℚ) / 10 ≤ 3 / 2 ∧ (3 : ℚ) / 2 ≤ 1) ∧
    create (.val (3 / 2)) = .error .out_of_range :=
  ⟨by norm_num, (C12_create_validates (3 / 2)).2.1 (by norm_num)⟩

/-- C15 (clear empties the buffer). For every buffer satisfying the invariants (empty,
one scan, or full, with any position of `front_` and `back_`), `clear_buffer` returns
once its loop is given at least BUFFER_DIM = 2 iterations; afterwards both slots are
empty, `front_ = back_ = 0`, `is_empty()` is true, `is_full()` is false and the
resolution is unchanged; a subsequent `get_scan` throws `EmptyBufferException`. -/
theorem C15_clear_empties (s : LaserScannerDriver) (hinv : Inv s) (fuel : Nat)
    (hfuel : 2 ≤ fuel) :
    ∃ c : LaserScannerDriver,
      clear_buffer fuel s = some (.ret () c) ∧
      c.buffer_ = some [none, none] ∧ c.front_ = 0 ∧ c.back_ = 0 ∧
      is_empty c = some true ∧ is_full c = some false ∧
      c.angular_resolution_ = s.angular_resolution_ ∧
      get_scan c = .throw .EmptyBufferException c := by
  refine ⟨_, Inv_clear hinv fuel hfuel, rfl, rfl, rfl, ?_, ?_, rfl,
    get_scan_empty_state _ 0 (Or.inl rfl) 0⟩
  · simp [is_empty, slot_zero]
  · simp [is_full, slot_zero]

/-- C15 witness: the buffer of resolution 1 holding the single scan [1], two iterations. -/
theorem C15_clear_empties_witness :
    Inv ⟨some [some (stored (scan_length 1) [.val 1]), none], .val 1, 0, 1⟩ ∧
    ∃ c : LaserScannerDriver,
      clear_buffer 2 ⟨some [some (stored (scan_length 1) [.val 1]), none], .val 1, 0, 1⟩
        = some (.ret () c) ∧
      c.buffer_ = some [none, none] ∧ c.front_ = 0 ∧ c.back_ = 0 ∧
      is_empty c = some true ∧ is_full c = some false ∧
      c.angular_resolution_ = .val 1 ∧
      get_scan c = .throw .EmptyBufferException c :=
  ⟨Inv_one_scan valid_resolution_one _,
   C15_clear_empties _ (Inv_one_scan valid_resolution_one _) 2 (le_refl 2)⟩

/-- C16 (code defect, evaluated at the failing input). On the buffer obtained by
`create(1)` and `new_scan [1]` (one scan in slot 0, `front_ = 0`, `back_ = 1`), the copy
assignment of the buffer to itself returns with the scans kept but `front_` and `back_`
reset to 0: the result does not have the `back_` of the source, `is_full()` turned from
false to true and the structural invariants no longer hold. -/
theorem C16_self_assignment_resets_indices :
    ∃ s0 s1 s2 : LaserScannerDriver,
      create (.val 1) = .ok s0 ∧
      new_scan s0 [.val 1] = .ret () s1 ∧
      s1 = ⟨some [some (stored (scan_length 1) [.val 1]), none], .val 1, 0, 1⟩ ∧
      Inv s1 ∧
      (∀ fuel, 2 ≤ fuel → copy_assign_self fuel s1 = some (.ret () s2)) ∧
      s2 = ⟨some [some (stored (scan_length 1) [.val 1]), none], .val 1, 0, 0⟩ ∧
      s2.back_ ≠ s1.back_ ∧
      is_full s1 = some false ∧ is_full s2 = some true ∧
      ¬ Inv s2 := by
  have e1 := new_scan_ret valid_resolution_one none none 0 0 (Or.inl rfl) (Or.inl rfl)
    [.val 1] (valid_take (by simp [Dbl.valid, Dbl.isnan, Dbl.lt]) _)
  simp [after_store, next_circular_index_zero] at e1
  have hinv := Inv_one_scan valid_resolution_one [.val 1]
  refine ⟨_, _, _, create_valid valid_resolution_one, e1, rfl, hinv,
    fun fuel hfuel => copy_assign_self_Inv hinv fuel hfuel, rfl, ?_, ?_, ?_, ?_⟩
  · simp
  · simp [is_full, slot_one]
  · simp [is_full, slot_zero]
  · simp [Inv, is_empty, is_full, slot_zero]

/-- C17 (transfer). For every source buffer `s` (in particular every one satisfying the
invariants), the move constructor, and move assignment onto any other two-slot buffer
whatever it held, yield a destination equal to `s` before the transfer in resolution,
`front_`, `back_` and stored scans, so that every query on it gives the result it gave on
`s`; the source is left with a null buffer (no scans), resolution 0 and
`front_ = back_ = 0`. -/
theorem C17_move_transfers (s : LaserScannerDriver) :
    (move_constructor s).1 = s ∧
    (move_constructor s).2 = ⟨none, .val 0, 0, 0⟩ ∧
    (∀ (a b : Option Scan) (d : Dbl) (f k : Int), (f = 0 ∨ f = 1) → ∀ fuel, 2 ≤ fuel →
      move_assign fuel ⟨some [a, b], d, f, k⟩ s
        = some (.ret () (s, ⟨none, .val 0, 0, 0⟩))) ∧
    (∀ angle, get_distance (move_constructor s).1 angle = get_distance s angle) ∧
    occupied ⟨none, .val 0, 0, 0⟩ = 0 := by
  have h1 : (move_constructor s).1 = s := by
    obtain ⟨buf, res, f, k⟩ := s
    rfl
  refine ⟨h1, rfl, fun a b d f k hf fuel hfuel => move_assign_two_slots s a b d f k hf fuel hfuel,
    ?_, rfl⟩
  intro angle
  rw [h1]

/-- C17 witness: the buffer of resolution 1 holding the single scan [1] is moved onto a
fresh buffer of resolution 1/2. -/
theorem C17_move_transfers_witness :
    (2 : Nat) ≤ 2 ∧
    move_assign 2 ⟨some [none, none], .val (1 / 2), 0, 0⟩
        ⟨some [some (stored (scan_length 1) [.val 1]), none], .val 1, 0, 1⟩
      = some (.ret () (⟨some [some (stored (scan_length 1) [.val 1]), none], .val 1, 0, 1⟩,
          ⟨none, .val 0, 0, 0⟩)) :=
  ⟨le_refl 2,
   (C17_move_transfers ⟨some [some (stored (scan_length 1) [.val 1]), none], .val 1, 0, 1⟩).2.2.1
     none none (.val (1 / 2)) 0 0 (Or.inl rfl) 2 (le_refl 2)⟩

/-- C18 (render enumerates the most recent scan), in binary64 arithmetic. For every
resolution r in [0.1, 1] and every non-empty buffer satisfying the invariants, with
`scan` the L values held in slot (back_ - 1) mod 2 (L as the program computes it): for
every index i with 0 ≤ i < L the double product fl(i * r) is mapped to index i and
`get_distance` on it returns `scan[i]` without changing the buffer, and `operator<<`
writes exactly the L pairs (fl(i * r), scan[i]) in index order. On an empty buffer
`operator<<` writes the "no scan" message and no pairs. -/
theorem C18_render_enumerates (s : LaserScannerDriver) (r : ℚ) (hinv : Inv_b64 s)
    (hres : s.angular_resolution_ = .val r) :
    (is_empty s = some false →
      ∃ scan : List Dbl,
        slot s (previous_circular_index s.back_) = some (some (scan.map some)) ∧
        scan.length = scan_length_b64 r ∧
        measurements_b64 (.val r) = some (scan.length : Int) ∧
        (∀ i : Nat, i < scan_length_b64 r →
          evalute_measurement_index_b64 (.val (fl ((i : ℚ) * r))) (.val r) = some (i : Int) ∧
          scan[i]? = some (scan.getD i (.val 0)) ∧
          get_distance_b64 s (.val (fl ((i : ℚ) * r))) = .ret (scan.getD i (.val 0)) s) ∧
        render_b64 s = .ret (.table ((List.range (scan_length_b64 r)).map
          (fun (i : Nat) => (Dbl.val (fl ((i : ℚ) * r)), scan.getD i (Dbl.val 0))))) s) ∧
    (is_empty s = some true → render_b64 s = .ret .no_scan s) := by
  have hvr : valid_resolution r := by
    obtain ⟨_, _, r1, _, hr1, _, _, _, _, _, hvr⟩ := Inv_b64_shape hinv
    rw [hres] at hr1
    injection hr1 with hr1
    subst hr1
    exact hvr
  constructor
  · intro hne
    obtain ⟨scan, hslot, hlen⟩ := Inv_b64_last_slot hinv r hres hne
    refine ⟨scan, hslot, hlen, ?_, ?_, ?_⟩
    · rw [hlen]
      exact measurements_b64_valid hvr
    · intro i hi
      refine ⟨index_mul_b64 hvr i hi, ?_,
        get_distance_b64_last s r _ scan i hres hne hslot (index_mul_b64 hvr i hi)
          (by omega)⟩
      simp [List.getD_eq_getElem?_getD, List.getElem?_eq_getElem (by omega : i < scan.length)]
    · have hloop := render_loop_b64_spec s r scan hvr hres hne hslot hlen
        (scan_length_b64 r) 0 [] (by omega)
      have hm : measurements_b64 (angular_resolution s)
          = some ((scan_length_b64 r : Nat) : Int) := by
        unfold angular_resolution
        rw [hres]
        exact measurements_b64_valid hvr
      unfold render_b64
      rw [hne]
      simp only [hm, Int.toNat_ofNat]
      have h0 : ((0 : Nat) : Int) = 0 := rfl
      rw [h0] at hloop
      rw [hloop, List.nil_append, List.range_eq_range']
  · intro he
    unfold render_b64
    rw [he]

/-- C18 witness: the buffer whose resolution is the double 0.1, holding the single scan
[1] (padded to L = 1801 cells). -/
theorem C18_render_enumerates_witness :
    Inv_b64 ⟨some [some (stored (scan_length_b64 (fl (1 / 10))) [.val 1]), none],
      .val (fl (1 / 10)), 0, 1⟩ ∧
    ∃ scan : List Dbl,
      scan.length = scan_length_b64 (fl (1 / 10)) ∧
      measurements_b64 (.val (fl (1 / 10))) = some (scan.length : Int) ∧
      render_b64 ⟨some [some (stored (scan_length_b64 (fl (1 / 10))) [.val 1]), none],
          .val (fl (1 / 10)), 0, 1⟩
        = .ret (.table ((List.range (scan_length_b64 (fl (1 / 10)))).map
            (fun (i : Nat) => (Dbl.val (fl ((i : ℚ) * fl (1 / 10))),
              scan.getD i (Dbl.val 0)))))
            ⟨some [some (stored (scan_length_b64 (fl (1 / 10))) [.val 1]), none],
              .val (fl (1 / 10)), 0, 1⟩ := by
  obtain ⟨scan, _, h2, h3, _, h5⟩ :=
    (C18_render_enumerates _ (fl (1 / 10))
      (Inv_b64_one_scan valid_resolution_fl_tenth [.val 1]) rfl).1
      (is_empty_one_scan_b64 _ _)
  exact ⟨Inv_b64_one_scan valid_resolution_fl_tenth [.val 1], scan, h2, h3, h5⟩

/-- C19 (worked scenario at resolution 0.5). `create(0.5)` succeeds and L = 361; after
`new_scan [1, 2, 3]` the stored scan is [1, 2, 3] followed by 358 zeros; `get_distance 0`
returns 1, `get_distance 1.0` returns 3, and `get_distance 0.25` uses index
round(0.5) = 1 (the tie is rounded away from zero) and returns 2. -/
theorem C19_worked_scenario :
    ∃ s0 s1 : LaserScannerDriver,
      create (.val (1 / 2)) = .ok s0 ∧
      scan_length (1 / 2) = 361 ∧
      new_scan s0 [.val 1, .val 2, .val 3] = .ret () s1 ∧
      slot s1 0 = some (some
        (([Dbl.val 1, Dbl.val 2, Dbl.val 3] ++ List.replicate 358 (Dbl.val 0)).map some)) ∧
      get_distance s1 (.val 0) = .ret (.val 1) s1 ∧
      get_distance s1 (.val 1) = .ret (.val 3) s1 ∧
      evalute_measurement_index (.val (1 / 4)) (.val (1 / 2)) = some 1 ∧
      round_half_away (1 / 2) = 1 ∧
      get_distance s1 (.val (1 / 4)) = .ret (.val 2) s1 := by
  have hr := valid_resolution_half
  have e1 := new_scan_ret hr none none 0 0 (Or.inl rfl) (Or.inl rfl)
    [.val 1, .val 2, .val 3] (valid_take (by simp [Dbl.valid, Dbl.isnan, Dbl.lt]) _)
  simp only [after_store] at e1
  simp only [if_true, Option.isSome_none, Bool.false_eq_true, false_and, if_false,
    next_circular_index_zero] at e1
  have hst : stored (scan_length (1 / 2)) [Dbl.val 1, Dbl.val 2, Dbl.val 3]
      = ([Dbl.val 1, Dbl.val 2, Dbl.val 3] ++ List.replicate 358 (Dbl.val 0)).map some := by
    rw [scan_length_half]
    rfl
  have hne : is_empty ⟨some [some (stored (scan_length (1 / 2))
      [Dbl.val 1, Dbl.val 2, Dbl.val 3]), none], .val (1 / 2), 0, 1⟩ = some false := by
    simp [is_empty, slot_zero]
  have hslot : slot ⟨some [some (stored (scan_length (1 / 2))
      [Dbl.val 1, Dbl.val 2, Dbl.val 3]), none], .val (1 / 2), 0, 1⟩
      (previous_circular_index 1)
        = some (some ((pad_trunc (scan_length (1 / 2))
            [Dbl.val 1, Dbl.val 2, Dbl.val 3]).map some)) := by
    rw [previous_circular_index_one, slot_zero]
    rfl
  have hlen : (pad_trunc (scan_length (1 / 2)) [Dbl.val 1, Dbl.val 2, Dbl.val 3]).length
      = 361 := by
    rw [pad_trunc_length, scan_length_half]
  have hpos : (0 : ℚ) < 1 / 2 := by norm_num
  have i2 : evalute_measurement_index (.val 1) (.val (1 / 2)) = some ((2 : Nat) : Int) := by
    have := evalute_index_mul hr 2 (by rw [scan_length_half]; decide)
    have e : ((2 : Nat) : ℚ) * (1 / 2) = 1 := by norm_num
    rw [e] at this
    exact this
  have g : ∀ (x : ℚ) (i : Nat) (d : Dbl), i < 3 →
      evalute_measurement_index (.val x) (.val (1 / 2)) = some (i : Int) →
      [Dbl.val 1, Dbl.val 2, Dbl.val 3].getD i (.val 0) = d →
      get_distance ⟨some [some (stored (scan_length (1 / 2))
        [Dbl.val 1, Dbl.val 2, Dbl.val 3]), none], .val (1 / 2), 0, 1⟩ (.val x)
          = .ret d ⟨some [some (stored (scan_length (1 / 2))
              [Dbl.val 1, Dbl.val 2, Dbl.val 3]), none], .val (1 / 2), 0, 1⟩ := by
    intro x i d hi hidx hd
    have := get_distance_last _ (1 / 2) x _ i rfl hne hslot hidx (by rw [hlen]; omega)
    rw [pad_trunc_getD_lt _ _ _ _ (by rw [scan_length_half]; simp; omega), hd] at this
    exact this
  have hround : round_half_away (1 / 2) = 1 := by
    have f : ⌊(1 : ℚ) / 2⌋ = 0 := by
      rw [Int.floor_eq_iff]
      norm_num
    simp only [round_half_away]
    rw [f]
    norm_num
  refine ⟨_, _, create_valid hr, scan_length_half, e1, ?_, ?_, ?_, index_quarter_half,
    hround, ?_⟩
  · rw [slot_zero, hst]
  · exact g 0 0 _ (by omega) (evalute_zero hpos) rfl
  · exact g 1 2 _ (by omega) i2 rfl
  · exact g (1 / 4) 1 _ (by omega) index_quarter_half rfl

/-- C20 (boundary values clamp). For every resolution r > 0: every angle a ≥ 180 is
mapped like 180 (to floor(180 / r) whenever that fits in an `int`), and every angle a ≤ 0
is mapped like 0, to index 0. In particular at resolution 0.3 the angles 180 and 200 are
mapped to 600 and the angle -5 to 0. -/
theorem C20_boundary_clamp (r a : ℚ) (hr : 0 < r) :
    (180 ≤ a → evalute_measurement_index (.val a) (.val r)
      = evalute_measurement_index (.val 180) (.val r)) ∧
    (180 ≤ a → 180 / r ≤ (INT_MAX : ℚ) →
      evalute_measurement_index (.val a) (.val r) = some ⌊(180 : ℚ) / r⌋) ∧
    (a ≤ 0 → evalute_measurement_index (.val a) (.val r)
      = evalute_measurement_index (.val 0) (.val r)) ∧
    (a ≤ 0 → evalute_measurement_index (.val a) (.val r) = some 0) ∧
    evalute_measurement_index (.val 0) (.val r) = some 0 ∧
    evalute_measurement_index (.val 180) (.val (3 / 10)) = some 600 ∧
    evalute_measurement_index (.val (-5)) (.val (3 / 10)) = some 0 ∧
    evalute_measurement_index (.val 200) (.val (3 / 10)) = some 600 := by
  have hnr : ¬ r ≤ 0 := not_le.mpr hr
  have hhigh : ∀ x : ℚ, 180 ≤ x → evalute_measurement_index (.val x) (.val r)
      = static_cast_int (c_floor (kMaxAngle / r)) := by
    intro x hx
    have hk : kMaxAngle ≤ x := hx
    simp only [evalute_measurement_index, hnr, if_false, hk, if_true]
  have hlow : ∀ x : ℚ, x ≤ 0 → evalute_measurement_index (.val x) (.val r) = some 0 := by
    intro x hx
    have hk : ¬ kMaxAngle ≤ x := by
      unfold kMaxAngle
      intro h
      linarith
    have h0 : ¬ 0 < x := not_lt.mpr hx
    simp only [evalute_measurement_index, hnr, if_false, hk, h0]
  have h600 : ∀ x : ℚ, 180 ≤ x →
      evalute_measurement_index (.val x) (.val (3 / 10)) = some 600 := by
    intro x hx
    have href : measurement_index_ref x (3 / 10) = 600 := by
      have f : ⌊(180 : ℚ) / (3 / 10)⌋ = 600 := by
        rw [Int.floor_eq_iff]
        norm_num
      simp only [measurement_index_ref]
      rw [if_neg (by norm_num), if_pos hx, f]
    have h := evalute_eq_ref x (3 / 10)
    rw [href] at h
    exact h (by decide)
  have hm5 : evalute_measurement_index (.val (-5)) (.val (3 / 10)) = some 0 := by
    have href : measurement_index_ref (-5) (3 / 10) = 0 := by
      simp only [measurement_index_ref]
      rw [if_neg (by norm_num), if_neg (by norm_num), if_neg (by norm_num)]
    have h := evalute_eq_ref (-5) (3 / 10)
    rw [href] at h
    exact h (by decide)
  refine ⟨fun h => by rw [hhigh a h, hhigh 180 (le_refl _)], ?_,
    fun h => by rw [hlow a h, hlow 0 (le_refl _)], hlow a, hlow 0 (le_refl _),
    h600 180 (le_refl _), hm5, h600 200 (by norm_num)⟩
  intro h hfit
  have href : measurement_index_ref a r = ⌊(180 : ℚ) / r⌋ := by
    simp only [measurement_index_ref]
    rw [if_neg hnr, if_pos h]
  have hf := ref_fits a r (Or.inr hfit)
  have := evalute_eq_ref a r hf
  rw [href] at this
  exact this

/-- C20 witness: resolution 0.3 and angle 200. -/
theorem C20_boundary_clamp_witness :
    (0 : ℚ) < 3 / 10 ∧ (180 : ℚ) ≤ 200 ∧
    evalute_measurement_index (.val 200) (.val (3 / 10))
      = evalute_measurement_index (.val 180) (.val (3 / 10)) :=
  ⟨by norm_num, by norm_num,
   (C20_boundary_clamp (3 / 10) 200 (by norm_num)).1 (by norm_num)⟩

/-- C21 (resolution immutable under the buffer's own operations). For every buffer state,
the resolution reported by `angular_resolution()` is the same after a `new_scan`
(returning or throwing), a `get_scan` (returning or throwing), a `get_distance`, a
`clear_buffer`, and after every sequence of such calls and of `is_empty` and `is_full`
calls; after any such sequence on a created buffer it is the resolution given at
creation. Copy assignment and move assignment give the target the resolution of the
source, and a move (assignment or constructor) leaves the source with resolution 0. -/
theorem C21_resolution_immutable (s : LaserScannerDriver) :
    (∀ v u s1, new_scan s v = .ret u s1 → angular_resolution s1 = angular_resolution s) ∧
    (∀ v e s1, new_scan s v = .throw e s1 → angular_resolution s1 = angular_resolution s) ∧
    (∀ out s1, get_scan s = .ret out s1 → angular_resolution s1 = angular_resolution s) ∧
    (∀ e s1, get_scan s = .throw e s1 → angular_resolution s1 = angular_resolution s) ∧
    (∀ angle d s1, get_distance s angle = .ret d s1 →
      angular_resolution s1 = angular_resolution s) ∧
    (∀ angle e s1, get_distance s angle = .throw e s1 →
      angular_resolution s1 = angular_resolution s) ∧
    (∀ fuel u s1, clear_buffer fuel s = some (.ret u s1) →
      angular_resolution s1 = angular_resolution s) ∧
    (∀ fuel calls s1, after_calls fuel s calls = some s1 →
      angular_resolution s1 = angular_resolution s) ∧
    (∀ r s0 fuel calls s1, create r = .ok s0 → after_calls fuel s0 calls = some s1 →
      angular_resolution s1 = r) ∧
    (∀ fuel dst u c, copy_assign fuel dst s = some (.ret u c) →
      angular_resolution c = angular_resolution s) ∧
    (∀ fuel dst u c src, move_assign fuel dst s = some (.ret u (c, src)) →
      angular_resolution c = angular_resolution s ∧ angular_resolution src = .val 0) ∧
    angular_resolution (move_constructor s).1 = angular_resolution s ∧
    angular_resolution (move_constructor s).2 = .val 0 ∧
    copy_assign 2 ⟨some [none, none], .val 1, 0, 0⟩ ⟨some [none, none], .val (1 / 2), 0, 0⟩
      = some (.ret () ⟨some [none, none], .val (1 / 2), 0, 0⟩) := by
  refine ⟨fun v u s1 h => (new_scan_resolution s v).1 u s1 h,
    fun v e s1 h => (new_scan_resolution s v).2 e s1 h,
    (get_scan_resolution s).1, (get_scan_resolution s).2, ?_, ?_,
    fun fuel u s1 h => clear_buffer_resolution fuel s s1 u h,
    fun fuel calls s1 h => after_calls_resolution fuel calls s s1 h, ?_,
    fun fuel dst u c h => copy_assign_resolution fuel dst s c u h,
    fun fuel dst u c src h => move_assign_resolution fuel dst s c src u h, rfl, rfl,
    copy_assign_Inv (Inv_fresh valid_resolution_half) none none (.val 1) 0 0 (Or.inl rfl) 2
      (le_refl 2)⟩
  · intro angle d s1 h
    rw [(get_distance_state s angle).1 d s1 h]
  · intro angle e s1 h
    rw [(get_distance_state s angle).2 e s1 h]
  · intro r s0 fuel calls s1 hc h
    exact (after_calls_resolution fuel calls s0 s1 h).trans (create_resolution r s0 hc)

/-- C21 witness: the push of [1] on the fresh buffer of resolution 1. -/
theorem C21_resolution_immutable_witness :
    new_scan ⟨some [none, none], .val 1, 0, 0⟩ [.val 1]
      = .ret () ⟨some [some (stored (scan_length 1) [.val 1]), none], .val 1, 0, 1⟩ ∧
    angular_resolution ⟨some [some (stored (scan_length 1) [.val 1]), none], .val 1, 0, 1⟩
      = angular_resolution ⟨some [none, none], .val 1, 0, 0⟩ :=
  ⟨new_scan_fresh_one,
   (C21_resolution_immutable ⟨some [none, none], .val 1, 0, 0⟩).1 _ _ _ new_scan_fresh_one⟩

/-- C22 (code defect, evaluated at the failing input). On the buffer created with
resolution 1, `new_scan [-1]` throws `invalid_argument` and leaves the newly allocated
array in slot `back_ = 0`; the `new_scan [1]` that follows returns normally, yet it
releases slot `front_ = 0`, advances `front_` to 1 and stores the scan in slot 0, so that
slot `front_` is null: `is_empty()` is true after the successful push, and both
`get_distance 0` and `get_scan` throw `EmptyBufferException`. -/
theorem C22_successful_push_lost :
    ∃ s0 s1 s2 : LaserScannerDriver,
      create (.val 1) = .ok s0 ∧
      new_scan s0 [.val (-1)] = .throw .invalid_argument s1 ∧
      new_scan s1 [.val 1] = .ret () s2 ∧
      after_calls 2 s0 [.push_scan [.val (-1)]] = some s1 ∧
      s2 = ⟨some [some (stored (scan_length 1) [.val 1]), none], .val 1, 1, 1⟩ ∧
      occupied s2 = 1 ∧
      is_empty s2 = some true ∧
      get_distance s2 (.val 0) = .throw .EmptyBufferException s2 ∧
      get_scan s2 = .throw .EmptyBufferException s2 := by
  refine ⟨_, _, _, create_valid valid_resolution_one, new_scan_fresh_negative,
    new_scan_after_failed, ?_, rfl, ?_, ?_, ?_, ?_⟩
  · have h : (List.replicate BUFFER_DIM.toNat (none : Option Scan)) = [none, none] := rfl
    simp only [after_calls, after_call, h, new_scan_fresh_negative]
  · simp [occupied]
  · simp [is_empty, slot_one]
  · simp [get_distance, Dbl.isnan, is_empty, slot_one]
  · simp [get_scan, is_empty, slot_one]

/-- C23 (`clear_buffer` terminates from every state). For every content of the two
slots, every `front_` in {0, 1} and every `back_`, whether or not the structural
invariants hold: the loop of `clear_buffer` runs n iterations with n ≤ BUFFER_DIM = 2 and
n at most the number of occupied slots, and then stops with slot `front_` empty; with
any bound of at least 2 iterations the loop gives the same result and `clear_buffer`
returns with `front_ = back_ = 0`; and every iteration (run only when slot `front_` is
occupied) releases that slot, lowering the number of occupied slots by one. On a full
buffer one iteration is not enough. -/
theorem C23_clear_terminates (a b : Option Scan) (d : Dbl) (f k : Int)
    (hf : f = 0 ∨ f = 1) :
    (∃ n : Nat, n ≤ BUFFER_DIM.toNat ∧ n ≤ 2 ∧ n ≤ occupied ⟨some [a, b], d, f, k⟩ ∧
      (∃ s1, clear_buffer_loop n ⟨some [a, b], d, f, k⟩ = some (.ret () s1) ∧
        is_empty s1 = some true) ∧
      ∀ m, m < n → clear_buffer_loop m ⟨some [a, b], d, f, k⟩ = none) ∧
    (∀ fuel, 2 ≤ fuel → clear_buffer_loop fuel ⟨some [a, b], d, f, k⟩
      = clear_buffer_loop 2 ⟨some [a, b], d, f, k⟩) ∧
    (∀ fuel, 2 ≤ fuel → ∃ a1 b1, clear_buffer fuel ⟨some [a, b], d, f, k⟩
      = some (.ret () ⟨some [a1, b1], d, 0, 0⟩)) ∧
    (is_empty ⟨some [a, b], d, f, k⟩ = some false →
      ∃ s1, set_slot ⟨some [a, b], d, f, k⟩ f none = some s1 ∧
        occupied s1 + 1 = occupied ⟨some [a, b], d, f, k⟩ ∧
        ∀ fuel, clear_buffer_loop (fuel + 1) ⟨some [a, b], d, f, k⟩
          = clear_buffer_loop fuel { s1 with front_ := next_circular_index s1.front_ }) ∧
    (∀ x y : Scan, clear_buffer_loop 1 ⟨some [some x, some y], d, f, k⟩ = none) := by
  refine ⟨?_, clear_buffer_loop_stable a b d f k hf,
    clear_buffer_returns a b d f k hf, clear_buffer_loop_step a b d f k hf, ?_⟩
  · obtain ⟨n, h1, h2, h3, h4⟩ := clear_buffer_loop_count a b d f k hf
    exact ⟨n, h1, h1, h2, h3, h4⟩
  · intro x y
    rcases hf with rfl | rfl <;>
      simp [clear_buffer_loop, is_empty, slot_zero, slot_one, set_slot_zero, set_slot_one,
        next_circular_index_zero, next_circular_index_one]

/-- C23 witness: the full buffer with `front_ = 0` and `back_ = 1`, a state outside the
structural invariants; `clear_buffer` returns within two iterations. -/
theorem C23_clear_terminates_witness :
    ((0 : Int) = 0 ∨ (0 : Int) = 1) ∧
    ∃ a1 b1, clear_buffer 2 ⟨some [some [], some []], .val 1, 0, 1⟩
      = some (.ret () ⟨some [a1, b1], .val 1, 0, 0⟩) :=
  ⟨Or.inl rfl,
   (C23_clear_terminates (some []) (some []) (.val 1) 0 1 (Or.inl rfl)).2.2.1 2 (le_refl 2)⟩

/-- C24 (scan length positive and bounded). In binary64 arithmetic, for every resolution
r in [0.1, 1] (every double the constructor accepts lies there): the index of the angle
180 is floor(fl(180 / r)), never the sentinel -1, and the number of measurements
L = index + 1 that the program computes for every scan allocation and loop bound lies in
181 ... 1801, hence is strictly positive; L = 181 at r = 1 and L = 1801 at the double
0.1; and L does not increase when r increases. The constructor's test against the double
0.1 accepts the same doubles as the test against 1/10. The same bounds hold for the
count evaluated in exact arithmetic. -/
theorem C24_scan_length_positive_bounded (r : ℚ) (hr : valid_resolution r) :
    ∃ m : Int,
      evalute_measurement_index_b64 (.val 180) (.val r) = some m ∧
      evalute_measurement_index_b64 (.val kMaxAngle) (.val r) = some m ∧
      m = ⌊fl (180 / r)⌋ ∧
      m ≠ -1 ∧
      measurements_b64 (.val r) = some (m + 1) ∧
      181 ≤ m + 1 ∧ m + 1 ≤ 1801 ∧ 0 < m + 1 ∧
      fl 1 = 1 ∧
      measurements_b64 (.val 1) = some 181 ∧
      fl (1 / 10) = 3602879701896397 / 36028797018963968 ∧
      measurements_b64 (.val (fl (1 / 10))) = some 1801 ∧
      (∀ q : ℚ, fl q = q → (1 / 10 ≤ q ↔ fl (1 / 10) ≤ q)) ∧
      (∀ r2 : ℚ, valid_resolution r2 → r ≤ r2 →
        ∃ m2 : Int, measurements_b64 (.val r2) = some (m2 + 1) ∧ m2 + 1 ≤ m + 1) ∧
      (∃ k : Int, measurements (.val r) = some k ∧ 181 ≤ k ∧ k ≤ 1801) := by
  have hb := floor_fl_bounds hr
  have hm : ∀ q : ℚ, valid_resolution q →
      measurements_b64 (.val q) = some (⌊fl (kMaxAngle / q)⌋ + 1) := by
    intro q hq
    rw [measurements_b64_valid hq, scan_length_b64_cast hq]
  refine ⟨⌊fl (kMaxAngle / r)⌋, evalute_max_b64 hr, evalute_max_b64 hr, rfl, by omega, hm r hr,
    by omega, by omega, by omega, fl_one, measurements_b64_one, fl_tenth,
    measurements_b64_tenth, fun q hq => tenth_le_iff hq, ?_, ?_⟩
  · intro r2 hr2 hle
    refine ⟨⌊fl (kMaxAngle / r2)⌋, hm r2 hr2, ?_⟩
    have := floor_fl_antitone hr hr2 hle
    omega
  · refine ⟨_, measurements_valid hr, ?_, ?_⟩
    · have := (scan_length_bounds hr).1
      omega
    · have := (scan_length_bounds hr).2
      omega

/-- C24 witness: the double 0.1, where L = 1801. -/
theorem C24_scan_length_positive_bounded_witness :
    valid_resolution (fl (1 / 10)) ∧
    ∃ m : Int,
      evalute_measurement_index_b64 (.val 180) (.val (fl (1 / 10))) = some m ∧
      m = ⌊fl (180 / fl (1 / 10))⌋ ∧
      measurements_b64 (.val (fl (1 / 10))) = some (m + 1) ∧
      181 ≤ m + 1 ∧ m + 1 ≤ 1801 := by
  obtain ⟨m, h1, _, h3, _, h5, h6, h7, _⟩ :=
    C24_scan_length_positive_bounded (fl (1 / 10)) valid_resolution_fl_tenth
  exact ⟨valid_resolution_fl_tenth, m, h1, h3, h5, h6, h7⟩

end LSDriver
